/-
Verification of the schema unification and compaction pipeline of the
autosar-xsd-mangler repository.

The Rust data model (main.rs) and the operations on it (flatten.rs, merge.rs,
main.rs dedup_types, generator/perfect_hash.rs) are shallowly embedded below:
  - Rust HashMap<String, V> maps are modelled as association lists
    (List (String × V)) with first-match lookup, replace-or-append insert
    and filtering removal; the HashMap key-uniqueness invariant appears as
    explicit Nodup hypotheses where a proof needs it.
  - Rust HashSet<String> values (xsd_typenames) are modelled as Finset String,
    matching the set semantics of HashSet equality.
  - usize arithmetic is Nat with explicit wrapping (mod 2 ^ 64) where the
    source uses wrapping operations, and u16 stores are taken mod 2 ^ 16.
  - Work-list loops of the source are modelled with an explicit fuel
    parameter; running out of fuel is a distinguished outcome, so every
    theorem conditioned on a successful result is unaffected.
  - Rust panics (index out of range, unwrap on None, integer underflow,
    division by zero, todo) are modelled as a none / error outcome that is
    distinct from a regular Ok result.
-/
import Mathlib

namespace AutosarXsdMangler

/-! ## Data model (main.rs) -/

/-- main.rs ElementAmount. -/
inductive ElementAmount where
  | zeroOrOne
  | one
  | any
deriving DecidableEq, Repr, Fintype

/-- main.rs EnumDefinition: name and (literal, version bitmask) items. -/
structure EnumDefinition where
  name : String
  enumitems : List (String × Nat)
deriving DecidableEq, Repr

/-- main.rs Attribute. -/
structure Attribute where
  name : String
  attr_type : String
  required : Bool
  version_info : Nat
deriving DecidableEq, Repr

/-- xsd.rs XsdRestrictToStandard. -/
inductive XsdRestrictToStandard where
  | notSet
  | classicPlatform
  | adaptivePlatform
  | both
deriving DecidableEq, Repr

/-- main.rs / flatten.rs Element: a named occurrence of a type inside a
group.  The flatten.rs snapshot stores the splittable flag as a version
bitmask field. -/
structure Element where
  name : String
  typeref : String
  amount : ElementAmount
  version_info : Nat
  splittable_ver : Nat
  ordered : Bool
  restrict_std : XsdRestrictToStandard
  docstring : Option String
deriving DecidableEq, Repr

/-- main.rs ElementCollectionItem. -/
inductive ElementCollectionItem where
  | element (e : Element)
  | groupRef (name : String)
deriving DecidableEq, Repr

/-- main.rs ElementCollection. -/
inductive ElementCollection where
  | choice (name : String) (sub_elements : List ElementCollectionItem)
      (amount : ElementAmount)
  | sequence (name : String) (sub_elements : List ElementCollectionItem)
deriving DecidableEq, Repr

/-- main.rs ElementDataType. -/
inductive ElementDataType where
  | elements (group_ref : String) (attributes : List Attribute)
      (xsd_typenames : Finset String)
  | characters (attributes : List Attribute) (basetype : String)
  | mixed (group_ref : String) (attributes : List Attribute) (basetype : String)
deriving DecidableEq

/-- main.rs CharacterDataType. -/
inductive CharacterDataType where
  | pattern (pattern : String) (max_length : Option Nat)
  | enum (d : EnumDefinition)
  | string (max_length : Option Nat) (preserve_whitespace : Bool)
  | unsignedInteger
  | double
deriving DecidableEq, Repr

/-! ### Association-list model of FxHashMap<String, V> -/

/-- First-match lookup, the model of HashMap::get. -/
def alookup {V : Type} (m : List (String × V)) (k : String) : Option V :=
  match m with
  | [] => none
  | (k1, v1) :: rest => if k1 = k then some v1 else alookup rest k

/-- HashMap::insert: replace the value of an existing key, append otherwise. -/
def ainsert {V : Type} (m : List (String × V)) (k : String) (v : V) :
    List (String × V) :=
  match m with
  | [] => [(k, v)]
  | (k1, v1) :: rest =>
      if k1 = k then (k1, v) :: rest else (k1, v1) :: ainsert rest k v

/-- The keys of a map. -/
def akeys {V : Type} (m : List (String × V)) : List String := m.map Prod.fst

/-- main.rs AutosarDataTypes: the three maps of a Unified Type Set. -/
structure AutosarDataTypes where
  element_types : List (String × ElementDataType)
  character_types : List (String × CharacterDataType)
  group_types : List (String × ElementCollection)
deriving DecidableEq

/-- AutosarDataTypes::new: the seeded primitive character types. -/
def AutosarDataTypes.new : AutosarDataTypes :=
  { element_types := []
    character_types :=
      [("xsd:string", CharacterDataType.string none false),
       ("xsd:NMTOKEN", CharacterDataType.string none false),
       ("xsd:NMTOKENS", CharacterDataType.string none false),
       ("xsd:unsignedInt", CharacterDataType.unsignedInteger),
       ("xsd:double", CharacterDataType.double)]
    group_types := [] }

/-- main.rs ElementCollection::items. -/
def ElementCollection.items (ec : ElementCollection) :
    List ElementCollectionItem :=
  match ec with
  | .choice _ sub_elements _ => sub_elements
  | .sequence _ sub_elements => sub_elements

/-- main.rs ElementCollectionItem::name. -/
def ElementCollectionItem.name (item : ElementCollectionItem) : String :=
  match item with
  | .element e => e.name
  | .groupRef n => n

/-- main.rs ElementDataType::group_ref. -/
def ElementDataType.group_ref (t : ElementDataType) : Option String :=
  match t with
  | .elements g _ _ => some g
  | .mixed g _ _ => some g
  | .characters _ _ => none

/-- main.rs ElementDataType::attributes. -/
def ElementDataType.attributes (t : ElementDataType) : List Attribute :=
  match t with
  | .elements _ a _ => a
  | .characters a _ => a
  | .mixed _ a _ => a

/-- main.rs ElementDataType::basetype. -/
def ElementDataType.basetype (t : ElementDataType) : Option String :=
  match t with
  | .characters _ b => some b
  | .mixed _ _ b => some b
  | .elements _ _ _ => none

/-! ## flatten.rs combine_amounts (the multiplicity join) -/

/-- flatten.rs combine_amounts. -/
def combine_amounts (amount_1 amount_2 : ElementAmount) : ElementAmount :=
  match amount_1, amount_2 with
  | .zeroOrOne, .zeroOrOne => .zeroOrOne
  | .one, .zeroOrOne => .zeroOrOne
  | .zeroOrOne, .one => .zeroOrOne
  | .one, .one => .one
  | .zeroOrOne, .any => .any
  | .one, .any => .any
  | .any, .any => .any
  | .any, .zeroOrOne => .any
  | .any, .one => .any

/-! ## main.rs dedup_types

The deduplicator of main.rs (the module actually wired into the binary;
src/dedup.rs is an unreferenced historical snapshot of the same algorithm).
The fixpoint loop carries an explicit fuel parameter; the underflowing
iteration bound 0..(len - 1) of each replacement-finding pass, which panics
on an empty map, is modelled by returning none. -/

/-- main.rs dedup_keycmp as an ordering relation: shorter name first, then
lexicographic. -/
def dedup_keycmp_le (key1 key2 : String) : Prop :=
  key1.length < key2.length ∨ (key1.length = key2.length ∧ key1 ≤ key2)

instance : DecidableRel dedup_keycmp_le := by
  intro k1 k2
  unfold dedup_keycmp_le
  infer_instance

/-- Collect the keys of one map and sort them with dedup_keycmp. -/
def sorted_typenames {V : Type} (m : List (String × V)) : List String :=
  (akeys m).insertionSort dedup_keycmp_le

/-- The inner loop of one replacement-finding pass: for a fixed typename1,
scan every later typename2 and record typename2 -> typename1 when neither is
already replaced and the two definitions compare equal. -/
def find_repl_inner {V : Type} [DecidableEq V] (get : String → Option V)
    (t1 : String) (rest : List String) (repl : List (String × String)) :
    List (String × String) :=
  rest.foldl
    (fun repl t2 =>
      if (alookup repl t2).isNone ∧ get t1 = get t2 then ainsert repl t2 t1
      else repl)
    repl

/-- The outer loop of one replacement-finding pass over the sorted name list.
The source iterates idx1 over 0..(len - 1); the omitted final index would
run an empty inner loop, so recursing to the empty list is equivalent. -/
def find_repl_go {V : Type} [DecidableEq V] (get : String → Option V) :
    List String → List (String × String) → List (String × String)
  | [], repl => repl
  | t1 :: rest, repl =>
      find_repl_go get rest
        (if (alookup repl t1).isNone then find_repl_inner get t1 rest repl
         else repl)

/-- One replacement-finding pass.  On an empty name list the source computes
len() - 1 on an unsigned zero and panics; this is the none outcome. -/
def find_replacements {V : Type} [DecidableEq V] (get : String → Option V)
    (names : List String) : Option (List (String × String)) :=
  if names.isEmpty then none else some (find_repl_go get names [])

/-- Rewrite one reference through a replacement table. -/
def rewrite_ref (repl : List (String × String)) (r : String) : String :=
  match alookup repl r with
  | some rep => rep
  | none => r

/-- Rewrite a group sub-item: element typerefs through the element-type
table, group references through the group table. -/
def rewrite_item (elem_repl group_repl : List (String × String)) :
    ElementCollectionItem → ElementCollectionItem
  | .element e => .element { e with typeref := rewrite_ref elem_repl e.typeref }
  | .groupRef g => .groupRef (rewrite_ref group_repl g)

/-- Rewrite every sub-item of a group. -/
def rewrite_group (elem_repl group_repl : List (String × String)) :
    ElementCollection → ElementCollection
  | .choice name subs amount =>
      .choice name (subs.map (rewrite_item elem_repl group_repl)) amount
  | .sequence name subs =>
      .sequence name (subs.map (rewrite_item elem_repl group_repl))

/-- Rewrite one attribute: its character-type reference goes through the
character-type table. -/
def rewrite_attr (char_repl : List (String × String)) (a : Attribute) :
    Attribute :=
  { a with attr_type := rewrite_ref char_repl a.attr_type }

/-- Rewrite an element type: its group reference through the group table,
attribute types and the basetype through the character-type table. -/
def rewrite_elemtype (group_repl char_repl : List (String × String)) :
    ElementDataType → ElementDataType
  | .elements g attrs x =>
      .elements (rewrite_ref group_repl g) (attrs.map (rewrite_attr char_repl)) x
  | .characters attrs b =>
      .characters (attrs.map (rewrite_attr char_repl)) (rewrite_ref char_repl b)
  | .mixed g attrs b =>
      .mixed (rewrite_ref group_repl g) (attrs.map (rewrite_attr char_repl))
        (rewrite_ref char_repl b)

/-- Remove every key of the replacement table from the map. -/
def remove_keys {V : Type} (m : List (String × V))
    (repl : List (String × String)) : List (String × V) :=
  m.filter (fun kv => (alookup repl kv.1).isNone)

/-- One iteration of the dedup_types loop of main.rs: sort the three name
lists, build the three replacement tables, rewrite every reference, remove
the superseded entries.  The boolean is true when no replacements were found
(the loop break condition); none models the panic on an empty map. -/
def dedup_step (t : AutosarDataTypes) : Option (AutosarDataTypes × Bool) :=
  match find_replacements (alookup t.group_types)
      (sorted_typenames t.group_types),
    find_replacements (alookup t.element_types)
      (sorted_typenames t.element_types),
    find_replacements (alookup t.character_types)
      (sorted_typenames t.character_types) with
  | some group_replacements, some elem_replacements, some char_replacements =>
      some
        ({ group_types := remove_keys
             (t.group_types.map
               (fun kv => (kv.1, rewrite_group elem_replacements
                 group_replacements kv.2)))
             group_replacements
           element_types := remove_keys
             (t.element_types.map
               (fun kv => (kv.1, rewrite_elemtype group_replacements
                 char_replacements kv.2)))
             elem_replacements
           character_types := remove_keys t.character_types
             char_replacements },
         group_replacements.isEmpty && elem_replacements.isEmpty &&
           char_replacements.isEmpty)
  | _, _, _ => none

/-- main.rs dedup_types: iterate dedup_step until an iteration finds no
replacements.  A fuel parameter bounds the loop; none models either the
panic on an empty map or fuel exhaustion. -/
def dedup_types : Nat → AutosarDataTypes → Option AutosarDataTypes
  | 0, _ => none
  | fuel + 1, t => do
      let (t1, done) ← dedup_step t
      if done then some t1 else dedup_types fuel t1

/-! ### Association-list lemmas -/

theorem alookup_isSome_iff {V : Type} (m : List (String × V)) (k : String) :
    (alookup m k).isSome ↔ k ∈ akeys m := by
  induction m with
  | nil => simp [alookup, akeys]
  | cons hd tl ih =>
      obtain ⟨k1, v1⟩ := hd
      by_cases h : k1 = k
      · subst h
        simp [alookup, akeys]
      · have h2 : ¬ (k = k1) := fun hh => h hh.symm
        simp [alookup, akeys, h, h2, ih]

theorem alookup_eq_none_iff {V : Type} (m : List (String × V)) (k : String) :
    alookup m k = none ↔ k ∉ akeys m := by
  rw [← alookup_isSome_iff, Option.isSome_iff_ne_none]
  tauto

theorem alookup_mem {V : Type} {m : List (String × V)} {k : String} {v : V}
    (h : alookup m k = some v) : (k, v) ∈ m := by
  induction m with
  | nil => simp [alookup] at h
  | cons hd tl ih =>
      obtain ⟨k1, v1⟩ := hd
      by_cases hk : k1 = k
      · subst hk
        simp [alookup] at h
        simp [h]
      · simp [alookup, hk] at h
        simp [ih h]

theorem mem_akeys_of_mem {V : Type} {m : List (String × V)} {k : String}
    {v : V} (h : (k, v) ∈ m) : k ∈ akeys m := by
  simp only [akeys, List.mem_map]
  exact ⟨(k, v), h, rfl⟩

theorem mem_akeys_ainsert {V : Type} (m : List (String × V)) (k k1 : String)
    (v : V) : k1 ∈ akeys (ainsert m k v) ↔ k1 ∈ akeys m ∨ k1 = k := by
  induction m with
  | nil => simp [ainsert, akeys]
  | cons hd tl ih =>
      obtain ⟨k2, v2⟩ := hd
      by_cases h : k2 = k <;> simp [ainsert, akeys, h] at ih ⊢ <;> tauto

theorem alookup_ainsert_of_ne {V : Type} (m : List (String × V))
    (k k1 : String) (v : V) (h : k1 ≠ k) :
    alookup (ainsert m k v) k1 = alookup m k1 := by
  have h2 : ¬ (k = k1) := fun hh => h hh.symm
  induction m with
  | nil => simp [ainsert, alookup, h2]
  | cons hd tl ih =>
      obtain ⟨k2, v2⟩ := hd
      by_cases hk : k2 = k
      · subst hk
        simp [ainsert, alookup, h2]
      · by_cases h3 : k2 = k1
        · subst h3
          simp [ainsert, alookup, hk]
        · simp [ainsert, alookup, hk, h3, ih]

theorem alookup_ainsert_self {V : Type} (m : List (String × V)) (k : String)
    (v : V) : alookup (ainsert m k v) k = some v := by
  induction m with
  | nil => simp [ainsert, alookup]
  | cons hd tl ih =>
      obtain ⟨k2, v2⟩ := hd
      by_cases h2 : k2 = k <;> simp [ainsert, alookup, h2, ih]

theorem mem_of_mem_ainsert {V : Type} {m : List (String × V)}
    {k k1 : String} {v v1 : V} (h : (k1, v1) ∈ ainsert m k v) :
    (k1, v1) ∈ m ∨ (k1 = k ∧ v1 = v) := by
  induction m with
  | nil =>
      simp [ainsert] at h
      exact Or.inr h
  | cons hd tl ih =>
      obtain ⟨k2, v2⟩ := hd
      by_cases h2 : k2 = k
      · subst h2
        simp [ainsert, Prod.mk.injEq] at h
        rcases h with ⟨hk, hv⟩ | hmem
        · exact Or.inr ⟨hk, hv⟩
        · exact Or.inl (List.mem_cons_of_mem _ hmem)
      · simp only [ainsert, if_neg h2, List.mem_cons] at h
        rcases h with heq | hmem
        · exact Or.inl (List.mem_cons.mpr (Or.inl heq))
        · rcases ih hmem with h3 | h3
          · exact Or.inl (List.mem_cons_of_mem _ h3)
          · exact Or.inr h3

theorem akeys_map_values {V W : Type} (m : List (String × V))
    (f : String × V → W) :
    akeys (m.map (fun kv => (kv.1, f kv))) = akeys m := by
  induction m with
  | nil => rfl
  | cons hd tl ih =>
      simp only [akeys, List.map_cons, List.map_map] at ih ⊢
      rw [List.cons.injEq]
      exact ⟨rfl, ih⟩

theorem mem_akeys_remove_keys {V : Type} (m : List (String × V))
    (repl : List (String × String)) (k : String) :
    k ∈ akeys (remove_keys m repl) ↔
      k ∈ akeys m ∧ alookup repl k = none := by
  simp only [remove_keys, akeys, List.mem_map, List.mem_filter]
  constructor
  · rintro ⟨⟨k1, v1⟩, ⟨hm, hp⟩, rfl⟩
    exact ⟨⟨(k1, v1), hm, rfl⟩, by simpa [Option.isNone_iff_eq_none] using hp⟩
  · rintro ⟨⟨⟨k1, v1⟩, hm, rfl⟩, hn⟩
    exact ⟨(k1, v1), ⟨hm, by simpa [Option.isNone_iff_eq_none] using hn⟩, rfl⟩

theorem sorted_typenames_length {V : Type} (m : List (String × V)) :
    (sorted_typenames m).length = m.length := by
  unfold sorted_typenames
  rw [(List.perm_insertionSort dedup_keycmp_le (akeys m)).length_eq]
  simp [akeys]

theorem mem_sorted_typenames {V : Type} (m : List (String × V)) (k : String) :
    k ∈ sorted_typenames m ↔ k ∈ akeys m := by
  unfold sorted_typenames
  exact (List.perm_insertionSort dedup_keycmp_le (akeys m)).mem_iff

theorem sorted_typenames_nodup {V : Type} (m : List (String × V))
    (h : (akeys m).Nodup) : (sorted_typenames m).Nodup := by
  unfold sorted_typenames
  exact ((List.perm_insertionSort dedup_keycmp_le (akeys m)).nodup_iff).mpr h

/-! ### Properties of the replacement-finding pass -/

theorem mem_akeys_iff {V : Type} (m : List (String × V)) (k : String) :
    k ∈ akeys m ↔ ∃ v, (k, v) ∈ m := by
  simp only [akeys, List.mem_map]
  constructor
  · rintro ⟨⟨k1, v1⟩, hm, rfl⟩
    exact ⟨v1, hm⟩
  · rintro ⟨v, hm⟩
    exact ⟨(k, v), hm, rfl⟩

theorem find_repl_inner_pairs {V : Type} [DecidableEq V]
    (get : String → Option V) (t1 : String) :
    ∀ (rest : List String) (repl : List (String × String))
      (p : String × String), p ∈ find_repl_inner get t1 rest repl →
      p ∈ repl ∨ (p.2 = t1 ∧ p.1 ∈ rest) := by
  intro rest
  induction rest with
  | nil => intro repl p hp; exact Or.inl hp
  | cons t2 rest ih =>
      intro repl p hp
      simp only [find_repl_inner, List.foldl_cons] at hp
      rcases ih _ p hp with h | h
      · by_cases hc : (alookup repl t2).isNone ∧ get t1 = get t2
        · rw [if_pos hc] at h
          obtain ⟨k1, v1⟩ := p
          rcases mem_of_mem_ainsert h with h2 | h2
          · exact Or.inl h2
          · exact Or.inr ⟨h2.2, by simp [h2.1]⟩
        · rw [if_neg hc] at h
          exact Or.inl h
      · exact Or.inr ⟨h.1, List.mem_cons_of_mem _ h.2⟩

theorem find_repl_go_pairs {V : Type} [DecidableEq V]
    (get : String → Option V) :
    ∀ (names : List String) (repl : List (String × String))
      (p : String × String), p ∈ find_repl_go get names repl →
      p ∈ repl ∨ (p.2 ∈ names ∧ p.1 ∈ names.tail) := by
  intro names
  induction names with
  | nil => intro repl p hp; exact Or.inl hp
  | cons t1 rest ih =>
      intro repl p hp
      simp only [find_repl_go] at hp
      rcases ih _ p hp with h | h
      · by_cases hc : (alookup repl t1).isNone
        · rw [if_pos hc] at h
          rcases find_repl_inner_pairs get t1 rest repl p h with h2 | h2
          · exact Or.inl h2
          · exact Or.inr ⟨by simp [h2.1], h2.2⟩
        · rw [if_neg hc] at h
          exact Or.inl h
      · refine Or.inr ⟨List.mem_cons_of_mem _ h.1, ?_⟩
        simpa using List.tail_subset rest h.2

theorem find_repl_go_val_not_key {V : Type} [DecidableEq V]
    (get : String → Option V) :
    ∀ (names : List String) (repl : List (String × String)),
      names.Nodup →
      (∀ p ∈ repl, p.2 ∉ akeys repl) →
      (∀ p ∈ repl, p.2 ∉ names) →
      ∀ p ∈ find_repl_go get names repl,
        p.2 ∉ akeys (find_repl_go get names repl) := by
  intro names
  induction names with
  | nil => intro repl _ h1 _ p hp; exact h1 p hp
  | cons t1 rest ih =>
      intro repl hnd h1 h2
      simp only [find_repl_go]
      by_cases hc : (alookup repl t1).isNone
      · rw [if_pos hc]
        refine ih (find_repl_inner get t1 rest repl) hnd.of_cons ?_ ?_
        · -- values of the extended table are not keys of it
          intro p hp hkey
          rw [mem_akeys_iff] at hkey
          obtain ⟨w, hw⟩ := hkey
          rcases find_repl_inner_pairs get t1 rest repl p hp with hpo | hpn
          · -- an old pair keeps its value out of the keys
            rcases find_repl_inner_pairs get t1 rest repl (p.2, w) hw with
                hwo | hwn
            · exact h1 p hpo ((mem_akeys_iff _ _).mpr ⟨w, hwo⟩)
            · exact h2 p hpo (List.mem_cons_of_mem _ hwn.2)
          · -- a new pair has value t1, and t1 is never a key
            rcases find_repl_inner_pairs get t1 rest repl (p.2, w) hw with
                hwo | hwn
            · have ht1 : alookup repl t1 = none := by
                simpa [Option.isNone_iff_eq_none] using hc
              rw [alookup_eq_none_iff] at ht1
              exact ht1 (hpn.1 ▸ (mem_akeys_iff _ _).mpr ⟨w, hwo⟩)
            · have : t1 ∈ rest := hpn.1 ▸ hwn.2
              exact (List.nodup_cons.mp hnd).1 this
        · -- values of the extended table avoid the remaining names
          intro p hp
          rcases find_repl_inner_pairs get t1 rest repl p hp with hpo | hpn
          · exact fun hmem => h2 p hpo (List.mem_cons_of_mem _ hmem)
          · exact hpn.1 ▸ (List.nodup_cons.mp hnd).1
      · rw [if_neg hc]
        refine ih repl hnd.of_cons h1 ?_
        intro p hp
        exact fun hmem => h2 p hp (List.mem_cons_of_mem _ hmem)

/-! ### dedup_step inversion and identity lemmas -/

/-- The shape of a successful dedup_step. -/
theorem dedup_step_some {t t1 : AutosarDataTypes} {done : Bool}
    (h : dedup_step t = some (t1, done)) :
    ∃ Rg Re Rc,
      find_replacements (alookup t.group_types)
        (sorted_typenames t.group_types) = some Rg ∧
      find_replacements (alookup t.element_types)
        (sorted_typenames t.element_types) = some Re ∧
      find_replacements (alookup t.character_types)
        (sorted_typenames t.character_types) = some Rc ∧
      t1 = { group_types := remove_keys
               (t.group_types.map (fun kv => (kv.1, rewrite_group Re Rg kv.2)))
               Rg
             element_types := remove_keys
               (t.element_types.map
                 (fun kv => (kv.1, rewrite_elemtype Rg Rc kv.2))) Re
             character_types := remove_keys t.character_types Rc } ∧
      done = (Rg.isEmpty && Re.isEmpty && Rc.isEmpty) := by
  unfold dedup_step at h
  rcases hg : find_replacements (alookup t.group_types)
      (sorted_typenames t.group_types) with _ | Rg <;> rw [hg] at h
  · simp at h
  rcases he : find_replacements (alookup t.element_types)
      (sorted_typenames t.element_types) with _ | Re <;> rw [he] at h
  · simp at h
  rcases hc : find_replacements (alookup t.character_types)
      (sorted_typenames t.character_types) with _ | Rc <;> rw [hc] at h
  · simp at h
  simp only [Option.some.injEq, Prod.mk.injEq] at h
  exact ⟨Rg, Re, Rc, rfl, rfl, rfl, h.1.symm, h.2.symm⟩

/-- The converse of dedup_step_some. -/
theorem dedup_step_eq_some {t : AutosarDataTypes}
    {Rg Re Rc : List (String × String)}
    (hg : find_replacements (alookup t.group_types)
      (sorted_typenames t.group_types) = some Rg)
    (he : find_replacements (alookup t.element_types)
      (sorted_typenames t.element_types) = some Re)
    (hc : find_replacements (alookup t.character_types)
      (sorted_typenames t.character_types) = some Rc) :
    dedup_step t = some
      ({ group_types := remove_keys
           (t.group_types.map (fun kv => (kv.1, rewrite_group Re Rg kv.2))) Rg
         element_types := remove_keys
           (t.element_types.map
             (fun kv => (kv.1, rewrite_elemtype Rg Rc kv.2))) Re
         character_types := remove_keys t.character_types Rc },
       Rg.isEmpty && Re.isEmpty && Rc.isEmpty) := by
  simp only [dedup_step, hg, he, hc]

theorem rewrite_item_nil (it : ElementCollectionItem) :
    rewrite_item [] [] it = it := by
  cases it <;> rfl

theorem rewrite_group_nil (g : ElementCollection) :
    rewrite_group [] [] g = g := by
  have hmap : ∀ l : List ElementCollectionItem,
      l.map (rewrite_item [] []) = l := by
    intro l
    induction l with
    | nil => rfl
    | cons hd tl ih => simp [rewrite_item_nil, ih]
  cases g <;> simp [rewrite_group, hmap]

theorem rewrite_elemtype_nil (et : ElementDataType) :
    rewrite_elemtype [] [] et = et := by
  have hmap : ∀ l : List Attribute, l.map (rewrite_attr []) = l := by
    intro l
    induction l with
    | nil => rfl
    | cons hd tl ih => simp [rewrite_attr, rewrite_ref, alookup, ih]
  cases et <;> simp [rewrite_elemtype, rewrite_ref, alookup, hmap]

theorem remove_keys_nil {V : Type} (m : List (String × V)) :
    remove_keys m [] = m := by
  induction m with
  | nil => rfl
  | cons hd tl ih => simp [remove_keys, alookup, ih] at ih ⊢

theorem map_values_id {V : Type} (m : List (String × V)) (f : V → V)
    (hf : ∀ v, f v = v) : m.map (fun kv => (kv.1, f kv.2)) = m := by
  induction m with
  | nil => rfl
  | cons hd tl ih => simp [hf, ih]

/-- A dedup_step that found no replacements leaves the type set unchanged. -/
theorem dedup_step_done {t t1 : AutosarDataTypes}
    (h : dedup_step t = some (t1, true)) : t1 = t := by
  obtain ⟨Rg, Re, Rc, hg, he, hc, ht, hd⟩ := dedup_step_some h
  have hRg : Rg = [] := by
    cases Rg with
    | nil => rfl
    | cons a b => simp [List.isEmpty] at hd
  have hRe : Re = [] := by
    cases Re with
    | nil => rfl
    | cons a b => rw [hRg] at hd; simp [List.isEmpty] at hd
  have hRc : Rc = [] := by
    cases Rc with
    | nil => rfl
    | cons a b => rw [hRg, hRe] at hd; simp [List.isEmpty] at hd
  subst hRg hRe hRc
  rw [ht, map_values_id _ _ rewrite_elemtype_nil,
    map_values_id _ _ rewrite_group_nil, remove_keys_nil, remove_keys_nil,
    remove_keys_nil]

/-! ### Characterizing an empty replacement table -/

theorem ainsert_length_ge {V : Type} (m : List (String × V)) (k : String)
    (v : V) : m.length ≤ (ainsert m k v).length := by
  induction m with
  | nil => simp [ainsert]
  | cons hd tl ih =>
      obtain ⟨k1, v1⟩ := hd
      by_cases h : k1 = k <;> simp [ainsert, h] <;> omega

theorem find_repl_inner_length_ge {V : Type} [DecidableEq V]
    (get : String → Option V) (t1 : String) :
    ∀ (rest : List String) (repl : List (String × String)),
      repl.length ≤ (find_repl_inner get t1 rest repl).length := by
  intro rest
  induction rest with
  | nil => intro repl; simp [find_repl_inner]
  | cons t2 rest ih =>
      intro repl
      simp only [find_repl_inner, List.foldl_cons]
      by_cases hc : (alookup repl t2).isNone ∧ get t1 = get t2
      · rw [if_pos hc]
        exact le_trans (ainsert_length_ge repl t2 t1) (ih _)
      · rw [if_neg hc]
        exact ih _

theorem find_repl_go_length_ge {V : Type} [DecidableEq V]
    (get : String → Option V) :
    ∀ (names : List String) (repl : List (String × String)),
      repl.length ≤ (find_repl_go get names repl).length := by
  intro names
  induction names with
  | nil => intro repl; simp [find_repl_go]
  | cons t1 rest ih =>
      intro repl
      simp only [find_repl_go]
      by_cases hc : (alookup repl t1).isNone
      · rw [if_pos hc]
        exact le_trans (find_repl_inner_length_ge get t1 rest repl) (ih _)
      · rw [if_neg hc]
        exact ih _

theorem find_repl_inner_eq_nil {V : Type} [DecidableEq V]
    (get : String → Option V) (t1 : String) :
    ∀ (rest : List String), find_repl_inner get t1 rest [] = [] →
      ∀ t2 ∈ rest, ¬ get t1 = get t2 := by
  intro rest
  induction rest with
  | nil => intro _ t2 h2; simp at h2
  | cons t2 rest ih =>
      intro h t3 h3
      simp only [find_repl_inner, List.foldl_cons] at h
      by_cases hc : (alookup ([] : List (String × String)) t2).isNone ∧
          get t1 = get t2
      · rw [if_pos hc] at h
        have hlen := find_repl_inner_length_ge get t1 rest (ainsert [] t2 t1)
        simp only [find_repl_inner] at hlen
        rw [h] at hlen
        simp [ainsert] at hlen
      · rw [if_neg hc] at h
        rcases List.mem_cons.mp h3 with rfl | h4
        · exact fun heq => hc ⟨by simp [alookup], heq⟩
        · exact ih h t3 h4

theorem find_repl_go_eq_nil {V : Type} [DecidableEq V]
    (get : String → Option V) :
    ∀ (names : List String), find_repl_go get names [] = [] →
      ∀ t1 t2 : String, [t1, t2].Sublist names → ¬ get t1 = get t2 := by
  intro names
  induction names with
  | nil =>
      intro _ t1 t2 hsub
      cases hsub
  | cons hd rest ih =>
      intro h t1 t2 hsub
      simp only [find_repl_go] at h
      rw [if_pos (by simp [alookup])] at h
      have hinner : find_repl_inner get hd rest [] = [] := by
        have := find_repl_go_length_ge get rest (find_repl_inner get hd rest [])
        rw [h] at this
        simpa using List.length_eq_zero.mp (Nat.le_zero.mp this)
      have hgo : find_repl_go get rest [] = [] := by
        rw [hinner] at h
        exact h
      cases hsub with
      | cons _ hsub2 => exact ih hgo t1 t2 hsub2
      | cons₂ _ hsub2 =>
          exact find_repl_inner_eq_nil get hd rest hinner t2
            (List.singleton_sublist.mp hsub2)

theorem find_repl_inner_eq_nil_of {V : Type} [DecidableEq V]
    (get : String → Option V) (t1 : String) :
    ∀ (rest : List String), (∀ t2 ∈ rest, ¬ get t1 = get t2) →
      find_repl_inner get t1 rest [] = [] := by
  intro rest
  induction rest with
  | nil => intro _; rfl
  | cons t2 rest ih =>
      intro h
      simp only [find_repl_inner, List.foldl_cons]
      rw [if_neg (fun hc => h t2 (List.mem_cons_self _ _) hc.2)]
      exact ih (fun t3 h3 => h t3 (List.mem_cons_of_mem _ h3))

theorem find_repl_go_eq_nil_of {V : Type} [DecidableEq V]
    (get : String → Option V) :
    ∀ (names : List String),
      (∀ t1 t2 : String, [t1, t2].Sublist names → ¬ get t1 = get t2) →
      find_repl_go get names [] = [] := by
  intro names
  induction names with
  | nil => intro _; rfl
  | cons hd rest ih =>
      intro h
      simp only [find_repl_go]
      rw [if_pos (by simp [alookup])]
      rw [find_repl_inner_eq_nil_of get hd rest
        (fun t2 h2 => h hd t2
          (List.cons_sublist_cons.mpr (List.singleton_sublist.mpr h2)))]
      exact ih (fun t1 t2 hsub => h t1 t2 (hsub.cons hd))

theorem pair_sublist_of_mem {a b : String} :
    ∀ (l : List String), a ∈ l → b ∈ l → a ≠ b →
      [a, b].Sublist l ∨ [b, a].Sublist l := by
  intro l
  induction l with
  | nil => intro ha; simp at ha
  | cons hd rest ih =>
      intro ha hb hne
      rcases List.mem_cons.mp ha with rfl | ha2
      · have hbr : b ∈ rest := by
          rcases List.mem_cons.mp hb with rfl | hb2
          · exact absurd rfl hne
          · exact hb2
        exact Or.inl (List.cons_sublist_cons.mpr (List.singleton_sublist.mpr hbr))
      · rcases List.mem_cons.mp hb with rfl | hb2
        · exact Or.inr
            (List.cons_sublist_cons.mpr (List.singleton_sublist.mpr ha2))
        · rcases ih ha2 hb2 hne with h | h
          · exact Or.inl (h.cons hd)
          · exact Or.inr (h.cons hd)

/-! ### Size and key-set behaviour of one dedup pass -/

theorem akeys_length {V : Type} (m : List (String × V)) :
    (akeys m).length = m.length := by
  simp [akeys]

theorem akeys_filter_key {V : Type} (m : List (String × V))
    (p : String → Bool) :
    akeys (m.filter (fun kv => p kv.1)) = (akeys m).filter p := by
  induction m with
  | nil => rfl
  | cons hd tl ih =>
      obtain ⟨k1, v1⟩ := hd
      by_cases h : p k1 <;> simp [akeys, List.filter_cons, h] at ih ⊢ <;>
        exact ih

theorem length_filter_le_self {α : Type} (l : List α) (p : α → Bool) :
    (l.filter p).length ≤ l.length := by
  induction l with
  | nil => simp
  | cons hd tl ih =>
      by_cases h : p hd <;> simp [List.filter_cons, h] <;> omega

theorem length_filter_lt_of_exists {α : Type} (l : List α) (p : α → Bool) :
    ∀ x ∈ l, ¬ p x → (l.filter p).length < l.length := by
  intro x hx hpx
  induction l with
  | nil => simp at hx
  | cons hd tl ih =>
      rcases List.mem_cons.mp hx with rfl | hx2
      · have h1 : ¬ (p x = true) := by simpa using hpx
        rw [List.filter_cons, if_neg h1]
        have h2 := length_filter_le_self tl p
        simp only [List.length_cons]
        omega
      · have h3 := ih hx2
        by_cases h : p hd = true
        · rw [List.filter_cons, if_pos h]
          simp only [List.length_cons]
          omega
        · rw [List.filter_cons, if_neg h]
          simp only [List.length_cons]
          omega

/-- remove_keys is a filter whose condition only looks at the key. -/
theorem remove_keys_eq_filter {V : Type} (m : List (String × V))
    (R : List (String × String)) :
    remove_keys m R = m.filter (fun kv => (alookup R kv.1).isNone) := rfl

/-- The key set left by one per-map pass: the keys whose names are not in
the replacement table. -/
theorem akeys_pass {V W : Type} (m : List (String × V)) (f : String × V → W)
    (R : List (String × String)) :
    akeys (remove_keys (m.map (fun kv => (kv.1, f kv))) R) =
      (akeys m).filter (fun k => (alookup R k).isNone) := by
  induction m with
  | nil => rfl
  | cons hd tl ih =>
      obtain ⟨k1, v1⟩ := hd
      simp only [List.map_cons, remove_keys, List.filter_cons] at ih ⊢
      by_cases h : (alookup R k1).isNone
      · simp only [akeys, List.map_cons] at ih ⊢
        simp [List.filter_cons, h, ih]
      · simp only [akeys, List.map_cons] at ih ⊢
        simp [List.filter_cons, h, ih]

/-- The well-formedness invariant of the three HashMaps: no duplicate keys. -/
def adt_wf (t : AutosarDataTypes) : Prop :=
  (akeys t.element_types).Nodup ∧ (akeys t.character_types).Nodup ∧
    (akeys t.group_types).Nodup

/-- Total number of entries across the three maps. -/
def total_size (t : AutosarDataTypes) : Nat :=
  t.element_types.length + t.character_types.length + t.group_types.length

/-- A key of a replacement table produced on a map is a non-initial name of
that map. -/
theorem find_replacements_key_sub {V : Type} [DecidableEq V]
    {m : List (String × V)} {R : List (String × String)}
    (h : find_replacements (alookup m) (sorted_typenames m) = some R) :
    ∀ p ∈ R, p.1 ∈ (sorted_typenames m).tail ∧ p.1 ∈ akeys m := by
  intro p hp
  unfold find_replacements at h
  by_cases hemp : (sorted_typenames m).isEmpty
  · rw [if_pos hemp] at h
    cases h
  · rw [if_neg hemp] at h
    have h2 := Option.some.inj h
    rcases find_repl_go_pairs (alookup m) (sorted_typenames m) [] p
        (h2 ▸ hp) with h3 | h3
    · cases h3
    · exact ⟨h3.2, (mem_sorted_typenames m p.1).mp
        (List.tail_subset _ h3.2)⟩

theorem find_replacements_eq_none_iff {V : Type} [DecidableEq V]
    (get : String → Option V) (names : List String) :
    find_replacements get names = none ↔ names = [] := by
  unfold find_replacements
  by_cases h : names.isEmpty
  · simp [h, List.isEmpty_iff.mp h]
  · simp only [if_neg h]
    simp [List.isEmpty_iff] at h
    simp [h]

/-- dedup_step fails as soon as one replacement-finding pass would panic. -/
theorem dedup_step_eq_none {t : AutosarDataTypes}
    (h : find_replacements (alookup t.group_types)
        (sorted_typenames t.group_types) = none ∨
      find_replacements (alookup t.element_types)
        (sorted_typenames t.element_types) = none ∨
      find_replacements (alookup t.character_types)
        (sorted_typenames t.character_types) = none) :
    dedup_step t = none := by
  unfold dedup_step
  rcases hg : find_replacements (alookup t.group_types)
      (sorted_typenames t.group_types) with _ | Rg
  · rfl
  rcases he : find_replacements (alookup t.element_types)
      (sorted_typenames t.element_types) with _ | Re
  · rfl
  rcases hc : find_replacements (alookup t.character_types)
      (sorted_typenames t.character_types) with _ | Rc
  · rfl
  rcases h with h | h | h
  · rw [h] at hg
    cases hg
  · rw [h] at he
    cases he
  · rw [h] at hc
    cases hc

theorem dedup_types_succ_none {t : AutosarDataTypes} {fuel : Nat}
    (h : dedup_step t = none) : dedup_types (fuel + 1) t = none := by
  simp [dedup_types, h]

theorem dedup_types_succ_some {t t1 : AutosarDataTypes} {done : Bool}
    {fuel : Nat} (h : dedup_step t = some (t1, done)) :
    dedup_types (fuel + 1) t =
      if done then some t1 else dedup_types fuel t1 := by
  simp [dedup_types, h]

/-- C10: dedup_types is not total at its interface: each replacement-finding
pass iterates over 0..(len - 1), so when any of the three maps of the input
is empty the unsigned subtraction underflows and the function panics
(modelled as the none outcome) instead of treating the empty map as
trivially deduplicated. -/
theorem c10_dedup_types_panics_on_empty_map :
    ∀ (t : AutosarDataTypes) (fuel : Nat),
      t.element_types = [] ∨ t.group_types = [] ∨ t.character_types = [] →
      dedup_types (fuel + 1) t = none := by
  intro t fuel h
  apply dedup_types_succ_none
  apply dedup_step_eq_none
  rcases h with h | h | h
  · right
    left
    rw [(find_replacements_eq_none_iff _ _).mpr]
    rw [h]
    rfl
  · left
    rw [(find_replacements_eq_none_iff _ _).mpr]
    rw [h]
    rfl
  · right
    right
    rw [(find_replacements_eq_none_iff _ _).mpr]
    rw [h]
    rfl

/-- A concrete well-formed one-entry-per-map type set used by witnesses. -/
def tiny_adt : AutosarDataTypes :=
  AutosarDataTypes.mk
    [("AR:A", ElementDataType.characters [] "xsd:string")]
    [("xsd:string", CharacterDataType.string none false)]
    [("AR:G", ElementCollection.sequence "" [])]

/-- The same type set with an empty group map. -/
def tiny_adt_nogroups : AutosarDataTypes :=
  AutosarDataTypes.mk
    [("AR:A", ElementDataType.characters [] "xsd:string")]
    [("xsd:string", CharacterDataType.string none false)]
    []

/-- Witness for C10: a type set whose group map is empty makes dedup_types
panic. -/
theorem c10_witness :
    (tiny_adt_nogroups.element_types = [] ∨
      tiny_adt_nogroups.group_types = [] ∨
      tiny_adt_nogroups.character_types = []) ∧
    dedup_types 1 tiny_adt_nogroups = none :=
  ⟨Or.inr (Or.inl rfl),
    c10_dedup_types_panics_on_empty_map tiny_adt_nogroups 0
      (Or.inr (Or.inl rfl))⟩

theorem akeys_remove_keys_eq {V : Type} (m : List (String × V))
    (R : List (String × String)) :
    akeys (remove_keys m R) = (akeys m).filter (fun k => (alookup R k).isNone)
    := by
  induction m with
  | nil => rfl
  | cons hd tl ih =>
      obtain ⟨k1, v1⟩ := hd
      simp only [remove_keys, List.filter_cons] at ih ⊢
      by_cases h : (alookup R k1).isNone
      · simp only [akeys, List.map_cons] at ih ⊢
        simp [List.filter_cons, h, ih]
      · simp only [akeys, List.map_cons] at ih ⊢
        simp [List.filter_cons, h, ih]

theorem find_replacements_isSome {V : Type} [DecidableEq V]
    (get : String → Option V) (names : List String) (h : names ≠ []) :
    ∃ R, find_replacements get names = some R := by
  rcases hr : find_replacements get names with _ | R
  · exact absurd ((find_replacements_eq_none_iff get names).mp hr) h
  · exact ⟨R, rfl⟩

theorem sorted_typenames_ne_nil {V : Type} {m : List (String × V)}
    (h : m ≠ []) : sorted_typenames m ≠ [] := by
  intro hs
  apply h
  have := sorted_typenames_length m
  rw [hs] at this
  exact List.length_eq_zero.mp this.symm

/-- The combined facts about one per-map pass: the surviving map is no
longer than the input, strictly shorter when a replacement was found, still
non-empty, and still has unique keys. -/
theorem pass_facts {V W : Type} [DecidableEq V] {m : List (String × V)}
    {R : List (String × String)}
    (hR : find_replacements (alookup m) (sorted_typenames m) = some R)
    (hnd : (akeys m).Nodup) (result : List (String × W))
    (hres : akeys result = (akeys m).filter (fun k => (alookup R k).isNone)) :
    result.length ≤ m.length ∧ (R ≠ [] → result.length < m.length) ∧
      (m ≠ [] → result ≠ []) ∧ (akeys result).Nodup := by
  have hlen : result.length = ((akeys m).filter
      (fun k => (alookup R k).isNone)).length := by
    rw [← akeys_length result, hres]
  refine ⟨?_, ?_, ?_, ?_⟩
  · rw [hlen, ← akeys_length m]
    exact length_filter_le_self _ _
  · intro hRne
    rcases R with _ | ⟨⟨qa, qb⟩, R2⟩
    · exact absurd rfl hRne
    · have hq := find_replacements_key_sub hR (qa, qb)
        (List.mem_cons_self _ _)
      have hqmem : qa ∈ akeys ((qa, qb) :: R2) := by
        rw [mem_akeys_iff]
        exact ⟨qb, List.mem_cons_self _ _⟩
      have hisome := (alookup_isSome_iff ((qa, qb) :: R2) qa).mpr hqmem
      have hqs : ¬ ((alookup ((qa, qb) :: R2) qa).isNone = true) := by
        intro hcontra
        rw [Option.isNone_iff_eq_none] at hcontra
        rw [hcontra] at hisome
        simp at hisome
      rw [hlen, ← akeys_length m]
      exact length_filter_lt_of_exists (akeys m) _ qa hq.2 hqs
  · intro hm hres_nil
    rcases hnames : sorted_typenames m with _ | ⟨hd, tl⟩
    · exact sorted_typenames_ne_nil hm hnames
    have hhd_keys : hd ∈ akeys m := by
      rw [← mem_sorted_typenames, hnames]
      exact List.mem_cons_self _ _
    have hhd_none : alookup R hd = none := by
      rw [alookup_eq_none_iff]
      intro hmem
      obtain ⟨v, hv⟩ := (mem_akeys_iff R hd).mp hmem
      have := (find_replacements_key_sub hR (hd, v) hv).1
      rw [hnames] at this
      have hnd2 := sorted_typenames_nodup m hnd
      rw [hnames] at hnd2
      exact (List.nodup_cons.mp hnd2).1 this
    have : hd ∈ akeys result := by
      rw [hres, List.mem_filter]
      exact ⟨hhd_keys, by simp [hhd_none]⟩
    rw [hres_nil] at this
    simp [akeys] at this
  · rw [hres]
    exact hnd.filter _

/-- One dedup_step preserves well-formedness and non-emptiness of the maps,
never grows the total entry count, and strictly shrinks it unless the break
condition was reached. -/
theorem dedup_step_facts {t t1 : AutosarDataTypes} {done : Bool}
    (hwf : adt_wf t) (h : dedup_step t = some (t1, done)) :
    adt_wf t1 ∧ total_size t1 ≤ total_size t ∧
      (done = false → total_size t1 < total_size t) ∧
      (t.element_types ≠ [] → t1.element_types ≠ []) ∧
      (t.character_types ≠ [] → t1.character_types ≠ []) ∧
      (t.group_types ≠ [] → t1.group_types ≠ []) := by
  obtain ⟨Rg, Re, Rc, hg, he, hc, ht, hd⟩ := dedup_step_some h
  obtain ⟨hwfe, hwfc, hwfg⟩ := hwf
  have hfe := pass_facts he hwfe
    (remove_keys (t.element_types.map
      (fun kv => (kv.1, rewrite_elemtype Rg Rc kv.2))) Re)
    (akeys_pass t.element_types _ Re)
  have hfc := pass_facts hc hwfc (remove_keys t.character_types Rc)
    (akeys_remove_keys_eq t.character_types Rc)
  have hfg := pass_facts hg hwfg
    (remove_keys (t.group_types.map
      (fun kv => (kv.1, rewrite_group Re Rg kv.2))) Rg)
    (akeys_pass t.group_types _ Rg)
  have he1 : t1.element_types = remove_keys
      (t.element_types.map (fun kv => (kv.1, rewrite_elemtype Rg Rc kv.2)))
      Re := by rw [ht]
  have hc1 : t1.character_types = remove_keys t.character_types Rc := by
    rw [ht]
  have hg1 : t1.group_types = remove_keys
      (t.group_types.map (fun kv => (kv.1, rewrite_group Re Rg kv.2))) Rg :=
    by rw [ht]
  refine ⟨⟨by rw [he1]; exact hfe.2.2.2, by rw [hc1]; exact hfc.2.2.2,
    by rw [hg1]; exact hfg.2.2.2⟩, ?_, ?_, ?_, ?_, ?_⟩
  · unfold total_size
    rw [he1, hc1, hg1]
    have := hfe.1
    have := hfc.1
    have := hfg.1
    omega
  · intro hdone
    rw [hdone] at hd
    have hone : Rg ≠ [] ∨ Re ≠ [] ∨ Rc ≠ [] := by
      by_contra hcon
      push_neg at hcon
      rw [hcon.1, hcon.2.1, hcon.2.2] at hd
      simp at hd
    unfold total_size
    rw [he1, hc1, hg1]
    have h1 := hfe.1
    have h2 := hfc.1
    have h3 := hfg.1
    rcases hone with hone | hone | hone
    · have := hfg.2.1 hone
      omega
    · have := hfe.2.1 hone
      omega
    · have := hfc.2.1 hone
      omega
  · intro hne
    rw [he1]
    exact hfe.2.2.1 hne
  · intro hne
    rw [hc1]
    exact hfc.2.2.1 hne
  · intro hne
    rw [hg1]
    exact hfg.2.2.1 hne

/-- dedup_types succeeds within total_size-many iterations on well-formed,
non-empty maps. -/
theorem dedup_types_isSome_of :
    ∀ (fuel : Nat) (t : AutosarDataTypes), adt_wf t →
      t.element_types ≠ [] → t.character_types ≠ [] → t.group_types ≠ [] →
      total_size t < fuel → (dedup_types fuel t).isSome := by
  intro fuel
  induction fuel with
  | zero => intro t _ _ _ _ hlt; omega
  | succ fuel ih =>
      intro t hwf hne hnc hng hlt
      obtain ⟨Rg, hg⟩ := find_replacements_isSome (alookup t.group_types)
        (sorted_typenames t.group_types) (sorted_typenames_ne_nil hng)
      obtain ⟨Re, he⟩ := find_replacements_isSome (alookup t.element_types)
        (sorted_typenames t.element_types) (sorted_typenames_ne_nil hne)
      obtain ⟨Rc, hc⟩ := find_replacements_isSome (alookup t.character_types)
        (sorted_typenames t.character_types) (sorted_typenames_ne_nil hnc)
      have hstep := dedup_step_eq_some hg he hc
      obtain ⟨hwf1, hle, hlt1, hne1, hnc1, hng1⟩ := dedup_step_facts hwf hstep
      rw [dedup_types_succ_some hstep]
      by_cases hdone : (Rg.isEmpty && Re.isEmpty && Rc.isEmpty) = true
      · rw [if_pos hdone]
        rfl
      · have hdone2 : (Rg.isEmpty && Re.isEmpty && Rc.isEmpty) = false := by
          simpa using hdone
        rw [hdone2]
        simp only [if_false, Bool.false_eq_true]
        exact ih _ hwf1 (hne1 hne) (hnc1 hnc) (hng1 hng)
          (by have := hlt1 hdone2; omega)

/-- C6: dedup_types terminates whenever its per-pass computations are
defined (all three maps non-empty, with the HashMap key-uniqueness
invariant): every iteration either finds no replacements and exits, or
strictly shrinks the total entry count, and there is no error return
path. -/
theorem c6_dedup_types_terminates :
    ∀ t : AutosarDataTypes, adt_wf t → t.element_types ≠ [] →
      t.character_types ≠ [] → t.group_types ≠ [] →
      (dedup_types (total_size t + 1) t).isSome := by
  intro t hwf hne hnc hng
  exact dedup_types_isSome_of (total_size t + 1) t hwf hne hnc hng
    (by omega)

/-- Witness for C6 at a concrete one-entry-per-map type set. -/
theorem c6_witness :
    adt_wf tiny_adt ∧ (dedup_types (total_size tiny_adt + 1) tiny_adt).isSome
    := by
  constructor
  · exact ⟨by decide, by decide, by decide⟩
  · exact c6_dedup_types_terminates tiny_adt
      ⟨by decide, by decide, by decide⟩ (by decide) (by decide) (by decide)

/-- A successful dedup_types run ends in a state on which dedup_step finds
no replacements and returns the state unchanged. -/
theorem dedup_types_fix :
    ∀ (fuel : Nat) {t t2 : AutosarDataTypes}, dedup_types fuel t = some t2 →
      dedup_step t2 = some (t2, true) := by
  intro fuel
  induction fuel with
  | zero => intro t t2 h; cases h
  | succ fuel ih =>
      intro t t2 h
      rcases hstep : dedup_step t with _ | ⟨t1, done⟩
      · rw [dedup_types_succ_none hstep] at h
        cases h
      · rw [dedup_types_succ_some hstep] at h
        cases done with
        | true =>
            simp only [if_true] at h
            have ht1 := Option.some.inj h
            have hteq := dedup_step_done hstep
            have ht2 : t2 = t := ht1.symm.trans hteq
            rw [hteq] at hstep
            rw [ht2]
            exact hstep
        | false =>
            simp only [Bool.false_eq_true, if_false] at h
            exact ih h

/-- No two distinct keys of the map hold structurally equal values. -/
def nodup_values {V : Type} (m : List (String × V)) : Prop :=
  ∀ k1 k2 v1 v2, k1 ≠ k2 → alookup m k1 = some v1 →
    alookup m k2 = some v2 → v1 ≠ v2

/-- An empty replacement table means the map holds no duplicate values. -/
theorem nodup_values_of_repl_nil {V : Type} [DecidableEq V]
    {m : List (String × V)}
    (h : find_replacements (alookup m) (sorted_typenames m) = some []) :
    nodup_values m := by
  intro k1 k2 v1 v2 hne h1 h2
  unfold find_replacements at h
  by_cases hemp : (sorted_typenames m).isEmpty
  · rw [if_pos hemp] at h
    cases h
  rw [if_neg hemp] at h
  have hgo := Option.some.inj h
  have hk1 : k1 ∈ sorted_typenames m := by
    rw [mem_sorted_typenames, ← alookup_isSome_iff, h1]
    rfl
  have hk2 : k2 ∈ sorted_typenames m := by
    rw [mem_sorted_typenames, ← alookup_isSome_iff, h2]
    rfl
  intro hv
  subst hv
  rcases pair_sublist_of_mem (sorted_typenames m) hk1 hk2 hne with hs | hs
  · exact find_repl_go_eq_nil (alookup m) (sorted_typenames m) hgo k1 k2 hs
      (h1.trans h2.symm)
  · exact find_repl_go_eq_nil (alookup m) (sorted_typenames m) hgo k2 k1 hs
      (h2.trans h1.symm)

/-- C3: whenever dedup_types terminates, its output contains no two distinct
structurally equal types in any of the three maps, and the output is a
fixpoint: running dedup_types again returns it unchanged. -/
theorem c3_dedup_types_fixpoint :
    ∀ (fuel : Nat) (t t2 : AutosarDataTypes), dedup_types fuel t = some t2 →
      (nodup_values t2.element_types ∧ nodup_values t2.group_types ∧
        nodup_values t2.character_types) ∧
      ∀ fuel2 : Nat, dedup_types (fuel2 + 1) t2 = some t2 := by
  intro fuel t t2 h
  have hfix := dedup_types_fix fuel h
  obtain ⟨Rg, Re, Rc, hg, he, hc, ht, hd⟩ := dedup_step_some hfix
  have hRg : Rg = [] := by
    cases Rg with
    | nil => rfl
    | cons a b => simp [List.isEmpty] at hd
  have hRe : Re = [] := by
    cases Re with
    | nil => rfl
    | cons a b => rw [hRg] at hd; simp [List.isEmpty] at hd
  have hRc : Rc = [] := by
    cases Rc with
    | nil => rfl
    | cons a b => rw [hRg, hRe] at hd; simp [List.isEmpty] at hd
  subst hRg hRe hRc
  refine ⟨⟨nodup_values_of_repl_nil he, nodup_values_of_repl_nil hg,
    nodup_values_of_repl_nil hc⟩, ?_⟩
  intro fuel2
  rw [dedup_types_succ_some hfix]
  rfl

/-- Witness for C3 at a concrete already-deduplicated type set. -/
theorem c3_witness :
    dedup_types 1 tiny_adt = some tiny_adt ∧
    ((nodup_values tiny_adt.element_types ∧
      nodup_values tiny_adt.group_types ∧
      nodup_values tiny_adt.character_types) ∧
      ∀ fuel2 : Nat, dedup_types (fuel2 + 1) tiny_adt = some tiny_adt) :=
  ⟨by decide, c3_dedup_types_fixpoint 1 tiny_adt tiny_adt (by decide)⟩

/-! ### Reference resolution through dedup (C5) -/

/-- A group sub-item resolves: an element typeref must name an element
type.  (Group references inside groups are not part of the checked
invariant, matching the claim and sanity_check.) -/
def item_ref_ok (t : AutosarDataTypes) (item : ElementCollectionItem) :
    Prop :=
  match item with
  | .element e => e.typeref ∈ akeys t.element_types
  | .groupRef _ => True

/-- An element type resolves: its group reference names a group, every
attribute type and the basetype name character types. -/
def elemtype_refs_ok (t : AutosarDataTypes) (et : ElementDataType) : Prop :=
  (match et.group_ref with
   | some gr => gr ∈ akeys t.group_types
   | none => True) ∧
  (∀ a ∈ et.attributes, a.attr_type ∈ akeys t.character_types) ∧
  (match et.basetype with
   | some b => b ∈ akeys t.character_types
   | none => True)

/-- All references of the Unified Type Set resolve. -/
def refs_resolve (t : AutosarDataTypes) : Prop :=
  (∀ p ∈ t.group_types, ∀ item ∈ ElementCollection.items p.2,
    item_ref_ok t item) ∧
  (∀ p ∈ t.element_types, elemtype_refs_ok t p.2)

theorem find_replacements_val_sub {V : Type} [DecidableEq V]
    {m : List (String × V)} {R : List (String × String)}
    (h : find_replacements (alookup m) (sorted_typenames m) = some R) :
    ∀ p ∈ R, p.2 ∈ akeys m := by
  intro p hp
  unfold find_replacements at h
  by_cases hemp : (sorted_typenames m).isEmpty
  · rw [if_pos hemp] at h
    cases h
  · rw [if_neg hemp] at h
    have h2 := Option.some.inj h
    rcases find_repl_go_pairs (alookup m) (sorted_typenames m) [] p
        (h2 ▸ hp) with h3 | h3
    · cases h3
    · exact (mem_sorted_typenames m p.2).mp h3.1

theorem find_replacements_val_not_key {V : Type} [DecidableEq V]
    {m : List (String × V)} {R : List (String × String)}
    (h : find_replacements (alookup m) (sorted_typenames m) = some R)
    (hnd : (akeys m).Nodup) : ∀ p ∈ R, alookup R p.2 = none := by
  intro p hp
  unfold find_replacements at h
  by_cases hemp : (sorted_typenames m).isEmpty
  · rw [if_pos hemp] at h
    cases h
  · rw [if_neg hemp] at h
    have h2 := Option.some.inj h
    rw [alookup_eq_none_iff]
    rw [← h2] at hp ⊢
    exact find_repl_go_val_not_key (alookup m) (sorted_typenames m) []
      (sorted_typenames_nodup m hnd) (by intro q hq; cases hq)
      (by intro q hq; cases hq) p hp

/-- Rewriting a resolving reference through the replacement table yields a
reference that resolves in the map with the replaced keys removed. -/
theorem resolve_after {V : Type} [DecidableEq V] {m : List (String × V)}
    {R : List (String × String)}
    (hR : find_replacements (alookup m) (sorted_typenames m) = some R)
    (hnd : (akeys m).Nodup) {r : String} (hr : r ∈ akeys m) :
    rewrite_ref R r ∈ (akeys m).filter (fun k => (alookup R k).isNone) := by
  unfold rewrite_ref
  rcases hl : alookup R r with _ | v
  · rw [List.mem_filter]
    exact ⟨hr, by simp [hl]⟩
  · have hmem := alookup_mem hl
    have hval := find_replacements_val_sub hR _ hmem
    have hnk := find_replacements_val_not_key hR hnd _ hmem
    rw [List.mem_filter]
    exact ⟨hval, by simp [hnk]⟩

/-- Surviving entries of one per-map pass come from the input entries via
the value rewriting. -/
theorem mem_pass {V W : Type} {m : List (String × V)} {f : String × V → W}
    {R : List (String × String)} {p : String × W}
    (h : p ∈ remove_keys (m.map (fun kv => (kv.1, f kv))) R) :
    ∃ q ∈ m, p = (q.1, f q) := by
  have h1 := (List.mem_filter.mp h).1
  obtain ⟨q, hq, hpq⟩ := List.mem_map.mp h1
  exact ⟨q, hq, hpq.symm⟩

theorem mem_remove_keys_sub {V : Type} {m : List (String × V)}
    {R : List (String × String)} {p : String × V}
    (h : p ∈ remove_keys m R) : p ∈ m :=
  (List.mem_filter.mp h).1

theorem rewrite_group_items (er gr : List (String × String))
    (g : ElementCollection) :
    (rewrite_group er gr g).items = g.items.map (rewrite_item er gr) := by
  cases g <;> rfl

theorem rewrite_elemtype_group_ref (gr cr : List (String × String))
    (et : ElementDataType) :
    (rewrite_elemtype gr cr et).group_ref =
      et.group_ref.map (rewrite_ref gr) := by
  cases et <;> rfl

theorem rewrite_elemtype_attributes (gr cr : List (String × String))
    (et : ElementDataType) :
    (rewrite_elemtype gr cr et).attributes =
      et.attributes.map (rewrite_attr cr) := by
  cases et <;> rfl

theorem rewrite_elemtype_basetype (gr cr : List (String × String))
    (et : ElementDataType) :
    (rewrite_elemtype gr cr et).basetype =
      et.basetype.map (rewrite_ref cr) := by
  cases et <;> rfl

/-- One dedup_step keeps every reference resolving. -/
theorem dedup_step_preserves_refs {t t1 : AutosarDataTypes} {done : Bool}
    (hwf : adt_wf t) (hrr : refs_resolve t)
    (h : dedup_step t = some (t1, done)) : refs_resolve t1 := by
  obtain ⟨Rg, Re, Rc, hg, he, hc, ht, hd⟩ := dedup_step_some h
  obtain ⟨hwfe, hwfc, hwfg⟩ := hwf
  obtain ⟨hrg, hre⟩ := hrr
  have hkeyse : akeys t1.element_types =
      (akeys t.element_types).filter (fun k => (alookup Re k).isNone) := by
    rw [ht]
    exact akeys_pass t.element_types _ Re
  have hkeysg : akeys t1.group_types =
      (akeys t.group_types).filter (fun k => (alookup Rg k).isNone) := by
    rw [ht]
    exact akeys_pass t.group_types _ Rg
  have hkeysc : akeys t1.character_types =
      (akeys t.character_types).filter (fun k => (alookup Rc k).isNone) := by
    rw [ht]
    exact akeys_remove_keys_eq t.character_types Rc
  constructor
  · intro p hp item hitem
    have hp0 : ∃ q ∈ t.group_types, p = (q.1, rewrite_group Re Rg q.2) := by
      rw [ht] at hp
      exact mem_pass hp
    obtain ⟨q, hq, rfl⟩ := hp0
    rw [show (q.1, rewrite_group Re Rg q.2).2 = rewrite_group Re Rg q.2
      from rfl, rewrite_group_items] at hitem
    obtain ⟨item0, hitem0, rfl⟩ := List.mem_map.mp hitem
    cases item0 with
    | groupRef gname => simp [rewrite_item, item_ref_ok]
    | element e0 =>
        have he0 := hrg q hq _ hitem0
        simp only [item_ref_ok] at he0
        simp only [rewrite_item, item_ref_ok]
        rw [hkeyse]
        exact resolve_after he hwfe he0
  · intro p hp
    have hp0 : ∃ q ∈ t.element_types, p = (q.1, rewrite_elemtype Rg Rc q.2)
        := by
      rw [ht] at hp
      exact mem_pass hp
    obtain ⟨q, hq, rfl⟩ := hp0
    obtain ⟨h1, h2, h3⟩ := hre q hq
    refine ⟨?_, ?_, ?_⟩
    · rw [show (q.1, rewrite_elemtype Rg Rc q.2).2 =
        rewrite_elemtype Rg Rc q.2 from rfl, rewrite_elemtype_group_ref]
      rcases hgr : (q.2 : ElementDataType).group_ref with _ | gr
      · exact trivial
      · have h1b : gr ∈ akeys t.group_types := by
          rw [hgr] at h1
          exact h1
        show rewrite_ref Rg gr ∈ akeys t1.group_types
        rw [hkeysg]
        exact resolve_after hg hwfg h1b
    · rw [show (q.1, rewrite_elemtype Rg Rc q.2).2 =
        rewrite_elemtype Rg Rc q.2 from rfl, rewrite_elemtype_attributes]
      intro a ha
      obtain ⟨a0, ha0, rfl⟩ := List.mem_map.mp ha
      have := h2 a0 ha0
      simp only [rewrite_attr]
      rw [hkeysc]
      exact resolve_after hc hwfc this
    · rw [show (q.1, rewrite_elemtype Rg Rc q.2).2 =
        rewrite_elemtype Rg Rc q.2 from rfl, rewrite_elemtype_basetype]
      rcases hbt : (q.2 : ElementDataType).basetype with _ | b
      · exact trivial
      · have h3b : b ∈ akeys t.character_types := by
          rw [hbt] at h3
          exact h3
        show rewrite_ref Rc b ∈ akeys t1.character_types
        rw [hkeysc]
        exact resolve_after hc hwfc h3b

/-- C5: if every reference of the input resolves, every reference still
resolves after dedup_types: the rewriting through the replacement tables
and the removal of superseded entries never create a dangling reference. -/
theorem c5_dedup_types_preserves_resolution :
    ∀ (fuel : Nat) (t t2 : AutosarDataTypes), adt_wf t → refs_resolve t →
      dedup_types fuel t = some t2 → refs_resolve t2 := by
  intro fuel
  induction fuel with
  | zero => intro t t2 _ _ h; cases h
  | succ fuel ih =>
      intro t t2 hwf hrr h
      rcases hstep : dedup_step t with _ | ⟨tmid, done⟩
      · rw [dedup_types_succ_none hstep] at h
        cases h
      · rw [dedup_types_succ_some hstep] at h
        have hwf1 := (dedup_step_facts hwf hstep).1
        have hrr1 := dedup_step_preserves_refs hwf hrr hstep
        cases done with
        | true =>
            simp only [if_true] at h
            rw [← Option.some.inj h]
            exact hrr1
        | false =>
            simp only [Bool.false_eq_true, if_false] at h
            exact ih tmid t2 hwf1 hrr1 h

/-- A concrete type set with one reference of every checked kind. -/
def tiny_linked : AutosarDataTypes :=
  AutosarDataTypes.mk
    [("AR:A", ElementDataType.elements "AR:G"
        [Attribute.mk "S" "xsd:string" true 1] ∅)]
    [("xsd:string", CharacterDataType.string none false)]
    [("AR:G", ElementCollection.sequence ""
        [ElementCollectionItem.element
          (Element.mk "X" "AR:A" ElementAmount.one 1 0 false
            XsdRestrictToStandard.notSet none)])]

/-- The references of tiny_linked all resolve. -/
theorem tiny_linked_refs : refs_resolve tiny_linked := by
  constructor
  · intro p hp item hitem
    simp only [tiny_linked] at hp
    rw [List.mem_singleton] at hp
    subst hp
    simp only [ElementCollection.items] at hitem
    rw [List.mem_singleton] at hitem
    subst hitem
    simp [item_ref_ok, akeys, tiny_linked]
  · intro p hp
    simp only [tiny_linked] at hp
    rw [List.mem_singleton] at hp
    subst hp
    refine ⟨?_, ?_, ?_⟩
    · simp [ElementDataType.group_ref, akeys, tiny_linked]
    · intro a ha
      simp only [ElementDataType.attributes] at ha
      rw [List.mem_singleton] at ha
      subst ha
      simp [akeys, tiny_linked]
    · simp [ElementDataType.basetype]

/-- Witness for C5 at tiny_linked. -/
theorem c5_witness :
    adt_wf tiny_linked ∧ refs_resolve tiny_linked ∧
    dedup_types 1 tiny_linked = some tiny_linked ∧
    refs_resolve tiny_linked :=
  ⟨⟨by decide, by decide, by decide⟩, tiny_linked_refs, by decide,
    c5_dedup_types_preserves_resolution 1 tiny_linked tiny_linked
      ⟨by decide, by decide, by decide⟩ tiny_linked_refs (by decide)⟩

/-! ## merge.rs

The work-queue merge of two Unified Type Sets.  Vec push/pop order is kept
faithfully: queues are stored with the next element to pop at the head
(the reverse of the Vec), so appending a block of new work items prepends
the reversed block.  HashSet visited sets are lists queried by membership.
Rust unwrap panics (a queued input name that does not resolve in the
incoming map) are modelled as the none outcome of the driver; Err results
are Except.error. -/

/-- merge.rs ElemOrGroup: a (merged name, input name) work pair. -/
inductive ElemOrGroup where
  | element (a b : String)
  | group (a b : String)
deriving DecidableEq, Repr

/-- Find the first list entry satisfying p, with its index
(Iterator::enumerate().find). -/
def find_first {α : Type} (p : α → Bool) : List α → Option (Nat × α)
  | [] => none
  | x :: rest =>
      if p x then some (0, x)
      else (find_first p rest).map (fun q => (q.1 + 1, q.2))

/-- Vec::insert(pos, x): insert x so that it has index pos. -/
def vec_insert {α : Type} : Nat → α → List α → List α
  | 0, x, l => x :: l
  | _ + 1, _, [] => []
  | n + 1, x, hd :: tl => hd :: vec_insert n x tl

/-- The bits of a are a subset of the bits of b. -/
def bits_le (a b : Nat) : Prop := a ||| b = b

/-- merge.rs merge_attributes: reconcile the incoming attribute list into
the base list, matching by name; matched attributes get their version tags
or-ed and contribute a (base attr type, incoming attr type) pair for the
character-type queue; unmatched attributes are inserted after the last
match. -/
def merge_attributes (attrs : List Attribute) (insert_pos : Nat) :
    List Attribute → List Attribute × List (String × String)
  | [] => (attrs, [])
  | newattr :: rest =>
      match find_first (fun att => att.name == newattr.name) attrs with
      | some (find_pos, att) =>
          let attrs2 := attrs.set find_pos
            { att with version_info := att.version_info ||| newattr.version_info }
          let r := merge_attributes attrs2 (find_pos + 1) rest
          (r.1, (att.attr_type, newattr.attr_type) :: r.2)
      | none =>
          merge_attributes (vec_insert insert_pos newattr attrs)
            (insert_pos + 1) rest

/-- merge.rs merge_enums: the same matched/unmatched logic at the enum
literal granularity. -/
def merge_enums (enumitems : List (String × Nat)) (insert_pos : Nat) :
    List (String × Nat) → List (String × Nat)
  | [] => enumitems
  | (newitem, newver) :: rest =>
      match find_first (fun ev => ev.1 == newitem) enumitems with
      | some (find_pos, ev) =>
          merge_enums (enumitems.set find_pos (ev.1, ev.2 ||| newver))
            (find_pos + 1) rest
      | none =>
          merge_enums (vec_insert insert_pos (newitem, newver) enumitems)
            (insert_pos + 1) rest

/-- merge.rs merge_char_types: only Enum character types are merged deeply;
all other combinations leave the base value unchanged. -/
def merge_char_types (a b : CharacterDataType) : CharacterDataType :=
  match a, b with
  | .enum d, .enum dnew =>
      .enum (EnumDefinition.mk d.name (merge_enums d.enumitems 0 dnew.enumitems))
  | _, _ => a

/-- merge.rs element_is_compatible: two same-named candidates match only if
their referenced character-data kinds share a discriminant or are both
absent; any pairing that is not element-element is compatible. -/
def element_is_compatible (item item_new : ElementCollectionItem)
    (character_types character_types_new : List (String × CharacterDataType)) :
    Bool :=
  match item, item_new with
  | .element e, .element enew =>
      match alookup character_types e.typeref,
        alookup character_types_new enew.typeref with
      | some (.pattern _ _), some (.pattern _ _) => true
      | some (.enum _), some (.enum _) => true
      | some (.string _ _), some (.string _ _) => true
      | some .unsignedInteger, some .unsignedInteger => true
      | some .double, some .double => true
      | none, none => true
      | _, _ => false
  | _, _ => true

/-- The per-item loop of merge.rs merge_group_types: reconcile each
incoming sub-item into the base sub-element list.  A name match with
mixed Element/GroupRef discriminants is the fatal incompatibility error. -/
def merge_group_items
    (character_types character_types_new : List (String × CharacterDataType)) :
    List ElementCollectionItem → Nat → List ElementCollectionItem →
      Except String (List ElementCollectionItem × List ElemOrGroup)
  | subs, _, [] => .ok (subs, [])
  | subs, insert_pos, newelem :: rest =>
      match find_first
          (fun e => e.name == newelem.name &&
            element_is_compatible e newelem character_types
              character_types_new) subs with
      | some (find_pos, cur) =>
          match cur, newelem with
          | .element cur_elem, .element new_elem => do
              let subs2 := subs.set find_pos (.element { cur_elem with
                version_info := cur_elem.version_info ||| new_elem.version_info })
              let r ← merge_group_items character_types character_types_new
                subs2 (find_pos + 1) rest
              .ok (r.1, .element cur_elem.typeref new_elem.typeref :: r.2)
          | .groupRef cur_group, .groupRef new_group => do
              let r ← merge_group_items character_types character_types_new
                subs (find_pos + 1) rest
              .ok (r.1, .group cur_group new_group :: r.2)
          | _, _ => .error ("Error: merge of incompatible types")
      | none => do
          let r ← merge_group_items character_types character_types_new
            (vec_insert insert_pos newelem subs) (insert_pos + 1) rest
          let pair := match newelem with
            | .element e => ElemOrGroup.element e.typeref e.typeref
            | .groupRef g => ElemOrGroup.group g g
          .ok (r.1, pair :: r.2)

/-- Never insert ahead of a leading SHORT-NAME element. -/
def short_name_insert_pos (ec : ElementCollection) : Nat :=
  match ec.items.head? with
  | some (.element e) => if e.name == "SHORT-NAME" then 1 else 0
  | _ => 0

/-- merge.rs merge_group_types: the initial insert position skips a leading
SHORT-NAME element, then the incoming items are reconciled one by one. -/
def merge_group_types
    (character_types character_types_new : List (String × CharacterDataType))
    (ec ec_new : ElementCollection) :
    Except String (ElementCollection × List ElemOrGroup) :=
  match ec with
  | .choice name subs amount => do
      let r ← merge_group_items character_types character_types_new subs
        (short_name_insert_pos ec) ec_new.items
      .ok (.choice name r.1 amount, r.2)
  | .sequence name subs => do
      let r ← merge_group_items character_types character_types_new subs
        (short_name_insert_pos ec) ec_new.items
      .ok (.sequence name r.1, r.2)

/-- merge.rs merge_elem_types: reconcile two element types of the same
name, returning the merged value together with the work items to enqueue
(a group pair, attribute character-type pairs, a basetype pair). -/
def merge_elem_types (a b : ElementDataType) :
    ElementDataType × List ElemOrGroup × List (String × String) :=
  match a, b with
  | .elements group_re attrs xtn, .elements group_re2 attrs2 xtn2 =>
      let r := merge_attributes attrs 0 attrs2
      (.elements group_re r.1 (xtn ∪ xtn2),
        [ElemOrGroup.group group_re group_re2], r.2)
  | .characters attrs basetype, .characters attrs2 basetype2 =>
      let r := merge_attributes attrs 0 attrs2
      (.characters r.1 basetype, [], r.2 ++ [(basetype, basetype2)])
  | .mixed group_re attrs basetype, .mixed group_re2 attrs2 basetype2 =>
      let r := merge_attributes attrs 0 attrs2
      (.mixed group_re r.1 basetype,
        [ElemOrGroup.group group_re group_re2], r.2 ++ [(basetype, basetype2)])
  | .mixed group_re attrs basetype, .characters attrs2 _ =>
      let r := merge_attributes attrs 0 attrs2
      (.mixed group_re r.1 basetype, [], r.2)
  | _, _ => (a, [], [])

/-- Clone a definition from the incoming set when the merged set lacks the
name (the body of the if at the head of each work-loop iteration). -/
def insert_missing_elem (input_xsd merged : AutosarDataTypes)
    (tm ti : String) : AutosarDataTypes :=
  if (alookup merged.element_types tm).isNone then
    match alookup input_xsd.element_types ti with
    | some input_type =>
        { merged with element_types := (ainsert merged.element_types tm input_type) }
    | none => merged
  else merged

def insert_missing_group (input_xsd merged : AutosarDataTypes)
    (tm ti : String) : AutosarDataTypes :=
  if (alookup merged.group_types tm).isNone then
    match alookup input_xsd.group_types ti with
    | some input_type =>
        { merged with group_types := (ainsert merged.group_types tm input_type) }
    | none => merged
  else merged

def insert_missing_char (input_xsd merged : AutosarDataTypes)
    (tm ti : String) : AutosarDataTypes :=
  if (alookup merged.character_types tm).isNone then
    match alookup input_xsd.character_types ti with
    | some input_type =>
        { merged with character_types := (ainsert merged.character_types tm input_type) }
    | none => merged
  else merged

/-- The first phase of merge.rs merge: process the element/group work queue
to exhaustion, accumulating the character-type queue. -/
def merge_elem_phase (input_xsd : AutosarDataTypes) :
    Nat → AutosarDataTypes → List ElemOrGroup → List ElemOrGroup →
      List (String × String) →
      Option (Except String (AutosarDataTypes × List (String × String)))
  | 0, _, _, _, _ => none
  | _ + 1, merged, [], _, cq => some (.ok (merged, cq))
  | fuel + 1, merged, eog :: qrest, visited, cq =>
      if eog ∈ visited then
        merge_elem_phase input_xsd fuel merged qrest visited cq
      else
        match eog with
        | .element tm ti =>
            let merged1 := insert_missing_elem input_xsd merged tm ti
            match alookup merged1.element_types tm with
            | some a =>
                match alookup input_xsd.element_types ti with
                | some b =>
                    let r := merge_elem_types a b
                    merge_elem_phase input_xsd fuel
                      { merged1 with element_types := (ainsert merged1.element_types tm r.1) }
                      (r.2.1.reverse ++ qrest) (eog :: visited)
                      (cq ++ r.2.2)
                | none => none
            | none =>
                merge_elem_phase input_xsd fuel merged1 qrest
                  (eog :: visited) cq
        | .group tm ti =>
            let merged1 := insert_missing_group input_xsd merged tm ti
            match alookup merged1.group_types tm with
            | some g =>
                match alookup input_xsd.group_types ti with
                | some gn =>
                    match merge_group_types merged1.character_types
                        input_xsd.character_types g gn with
                    | .error e => some (.error e)
                    | .ok r =>
                        merge_elem_phase input_xsd fuel
                          { merged1 with group_types := (ainsert merged1.group_types tm r.1) }
                          (r.2.reverse ++ qrest) (eog :: visited) cq
                | none => none
            | none =>
                merge_elem_phase input_xsd fuel merged1 qrest
                  (eog :: visited) cq

/-- The second phase of merge.rs merge: drain the character-type queue. -/
def merge_char_phase (input_xsd : AutosarDataTypes) :
    Nat → AutosarDataTypes → List (String × String) →
      List (String × String) → Option AutosarDataTypes
  | 0, _, _, _ => none
  | _ + 1, merged, [], _ => some merged
  | fuel + 1, merged, (tm, ti) :: qrest, visited =>
      if (tm, ti) ∈ visited then
        merge_char_phase input_xsd fuel merged qrest visited
      else
        let merged1 := insert_missing_char input_xsd merged tm ti
        match alookup merged1.character_types tm with
        | some a =>
            match alookup input_xsd.character_types ti with
            | some b =>
                merge_char_phase input_xsd fuel
                  { merged1 with character_types := (ainsert merged1.character_types tm (merge_char_types a b)) }
                  qrest ((tm, ti) :: visited)
            | none => none
        | none =>
            merge_char_phase input_xsd fuel merged1 qrest ((tm, ti) :: visited)

/-- merge.rs merge: seed the queue with the AR:AUTOSAR pair, run the
element/group phase, then drain the character-type queue (popped from the
end of the accumulated Vec). -/
def merge (fuel : Nat) (merged_xsd input_xsd : AutosarDataTypes) :
    Option (Except String AutosarDataTypes) :=
  match merge_elem_phase input_xsd fuel merged_xsd
      [ElemOrGroup.element "AR:AUTOSAR" "AR:AUTOSAR"] [] [] with
  | none => none
  | some (.error e) => some (.error e)
  | some (.ok (merged1, cq)) =>
      match merge_char_phase input_xsd fuel merged1 cq.reverse [] with
      | none => none
      | some merged2 => some (.ok merged2)

/-! ## xsd.rs data model and flatten.rs -/

/-- xsd.rs XsdAttribute. -/
structure XsdAttribute where
  name : String
  typeref : String
  required : Bool
deriving DecidableEq, Repr

/-- xsd.rs XsdAttributeGroup. -/
structure XsdAttributeGroup where
  attributes : List XsdAttribute
deriving DecidableEq, Repr

/-- xsd.rs XsdRestriction. -/
inductive XsdRestriction where
  | enumValues (enumvalues : List String)
  | pattern (pattern : String) (maxlength : Option Nat)
  | plain (basetype : String)
  | literal
deriving DecidableEq, Repr

/-- xsd.rs XsdExtension. -/
structure XsdExtension where
  basetype : String
  attributes : List XsdAttribute
  attribute_groups : List String
deriving DecidableEq, Repr

/-- xsd.rs XsdSimpleContent. -/
structure XsdSimpleContent where
  extension : XsdExtension
deriving DecidableEq, Repr

/-- xsd.rs XsdElement; usize occurrence bounds become Nat. -/
structure XsdElement where
  name : String
  typeref : String
  min_occurs : Nat
  max_occurs : Nat
  ordered : Bool
  splittable : Bool
  restrict_std : XsdRestrictToStandard
  doctext : Option String
deriving DecidableEq, Repr

mutual

/-- xsd.rs XsdChoice. -/
inductive XsdChoice where
  | mk (min_occurs max_occurs : Nat) (items : List XsdModelGroupItem)

/-- xsd.rs XsdModelGroupItem. -/
inductive XsdModelGroupItem where
  | group (g : String)
  | choice (c : XsdChoice)
  | element (e : XsdElement)

end

def XsdChoice.min_occurs : XsdChoice → Nat
  | .mk m _ _ => m

def XsdChoice.max_occurs : XsdChoice → Nat
  | .mk _ m _ => m

def XsdChoice.items : XsdChoice → List XsdModelGroupItem
  | .mk _ _ i => i

/-- xsd.rs XsdSequence. -/
structure XsdSequence where
  items : List XsdModelGroupItem

/-- xsd.rs XsdGroupItem. -/
inductive XsdGroupItem where
  | choice (c : XsdChoice)
  | sequence (s : XsdSequence)
  | none

/-- xsd.rs XsdGroup. -/
structure XsdGroup where
  item : XsdGroupItem

/-- xsd.rs XsdComplexTypeItem. -/
inductive XsdComplexTypeItem where
  | simpleContent (sc : XsdSimpleContent)
  | group (g : String)
  | none

/-- xsd.rs XsdComplexType. -/
structure XsdComplexType where
  name : String
  item : XsdComplexTypeItem
  attribute_groups : List String
  mixed_content : Bool
  mm_class : Option String
  doctext : Option String

/-- xsd.rs XsdSimpleType. -/
inductive XsdSimpleType where
  | restriction (r : XsdRestriction)
deriving DecidableEq, Repr

/-- xsd.rs XsdType. -/
inductive XsdType where
  | base (b : String)
  | simple (s : XsdSimpleType)
  | complex (c : XsdComplexType)

/-- xsd.rs Xsd: one parsed schema, with its maps as association lists. -/
structure Xsd where
  root_elements : List XsdElement
  groups : List (String × XsdGroup)
  types : List (String × XsdType)
  attribute_groups : List (String × XsdAttributeGroup)
  version_info : Nat

/-- flatten.rs WorkQueueItem. -/
inductive WorkQueueItem where
  | elementType (s : String)
  | characterType (s : String)
  | group (s : String)
deriving DecidableEq, Repr

/-- flatten.rs occurs_to_amount. -/
def occurs_to_amount (min_occurs max_occurs : Nat) : ElementAmount :=
  if min_occurs == 1 && max_occurs == 1 then ElementAmount.one
  else if min_occurs == 0 && max_occurs == 1 then ElementAmount.zeroOrOne
  else ElementAmount.any

/-- flatten.rs Element::new: the splittable flag becomes the version mask. -/
def Element.new (xsd_element : XsdElement) (version_info : Nat) : Element :=
  { name := xsd_element.name
    typeref := xsd_element.typeref
    amount := occurs_to_amount xsd_element.min_occurs xsd_element.max_occurs
    version_info := version_info
    splittable_ver := if xsd_element.splittable then version_info else 0
    ordered := xsd_element.ordered
    restrict_std := xsd_element.restrict_std
    docstring := xsd_element.doctext }

/-- flatten.rs strip_ar_prefix (renamed): drop a leading AR: marker. -/
def strip_ar_pfx (typename : String) : String :=
  if typename.startsWith ("AR:") then typename.drop 3 else typename

/-- flatten.rs build_attribute. -/
def build_attribute (data : Xsd) (attr : XsdAttribute) :
    Except String Attribute :=
  match alookup data.types attr.typeref with
  | some (XsdType.base _) | some (XsdType.simple _) =>
      Except.ok (Attribute.mk attr.name attr.typeref attr.required
        data.version_info)
  | some (XsdType.complex _) =>
      Except.error ("Error: Complex type for attribute ?!?!")
  | none =>
      Except.error ("Error: attribute references a type that was not found")

/-- The first loop of flatten.rs build_attribute_list. -/
def build_attrs (data : Xsd) : List XsdAttribute → Except String (List Attribute)
  | [] => Except.ok []
  | a :: rest => do
      let x ← build_attribute data a
      let xs ← build_attrs data rest
      Except.ok (x :: xs)

/-- The attribute-group loop of flatten.rs build_attribute_list. -/
def build_group_attrs (data : Xsd) : List String → Except String (List Attribute)
  | [] => Except.ok []
  | gname :: rest =>
      match alookup data.attribute_groups gname with
      | none =>
          Except.error ("Error: attribute group is referenced but not found")
      | some g => do
          let xs ← build_attrs data g.attributes
          let ys ← build_group_attrs data rest
          Except.ok (xs ++ ys)

/-- flatten.rs build_attribute_list. -/
def build_attribute_list (data : Xsd) (xsd_attributes : List XsdAttribute)
    (xsd_attribute_groups : List String) : Except String (List Attribute) := do
  let base ← build_attrs data xsd_attributes
  let extra ← build_group_attrs data xsd_attribute_groups
  Except.ok (base ++ extra)

/-- flatten.rs flatten_simple_type. -/
def flatten_simple_type (data : Xsd) (simple_type : XsdSimpleType)
    (typename : String) : Except String CharacterDataType :=
  match simple_type with
  | .restriction (.pattern pattern maxlength) =>
      Except.ok (CharacterDataType.pattern pattern maxlength)
  | .restriction (.plain basetype) =>
      if basetype == "xsd:double" then Except.ok CharacterDataType.double
      else if basetype == "xsd:unsignedInt" then
        Except.ok CharacterDataType.unsignedInteger
      else if basetype == "xsd:string" || basetype == "xsd:NMTOKEN" ||
          basetype == "xsd:NMTOKENS" then
        Except.ok (CharacterDataType.string none false)
      else Except.error ("Error: unknown base type")
  | .restriction .literal =>
      Except.ok (CharacterDataType.string none true)
  | .restriction (.enumValues enumvalues) =>
      Except.ok (CharacterDataType.enum (EnumDefinition.mk typename
        (enumvalues.map (fun e => (e, data.version_info)))))

/-- The xsd_typenames set built by flatten_complex_type for a sequence
group: the complex type name and all group names, pruned of generic base
types when REFERRABLE is present and dropped entirely otherwise. -/
def complex_xsd_typenames (complex_type_name : String)
    (sequence : XsdSequence) : Finset String :=
  let s0 : Finset String :=
    insert ( strip_ar_pfx complex_type_name)
      (sequence.items.foldl
        (fun acc it =>
          match it with
          | XsdModelGroupItem.group groupname =>
              insert ( strip_ar_pfx groupname) acc
          | _ => acc) ∅)
  if "REFERRABLE" ∈ s0 then
    (((s0.erase "AR-OBJECT").erase "REFERRABLE").erase
      "IDENTIFIABLE").erase "MULTILANGUAGE-REFERRABLE"
  else ∅

/-- Append the extension attributes to the inner type, as
flatten_simple_content does after flattening a complex base type. -/
def append_extension_attrs (et : ElementDataType) (attrs : List Attribute) :
    ElementDataType :=
  match et with
  | .elements gr inner xtn => .elements gr (inner ++ attrs) xtn
  | .characters inner bt => .characters (inner ++ attrs) bt
  | .mixed gr inner bt => .mixed gr inner bt

mutual

/-- flatten.rs flatten_complex_type, with fuel for the recursion through
simple-content base types; none is fuel exhaustion. -/
def flatten_complex_type (data : Xsd) :
    Nat → XsdComplexType → String → Option (Except String ElementDataType)
  | 0, _, _ => none
  | fuel + 1, complex_type, complex_type_name =>
      match build_attribute_list data [] complex_type.attribute_groups with
      | .error e => some (.error e)
      | .ok attributes =>
          match complex_type.item with
          | .simpleContent simple_content =>
              flatten_simple_content data fuel simple_content
          | .group group_ref =>
              match alookup data.groups group_ref with
              | none =>
                  some (.error
                    ("Error: unknown group ref found in complexType"))
              | some group =>
                  match group.item with
                  | .sequence sequence =>
                      some (.ok (ElementDataType.elements group_ref attributes
                        (complex_xsd_typenames complex_type_name sequence)))
                  | .choice _ =>
                      if complex_type.mixed_content then
                        some (.ok (ElementDataType.mixed group_ref attributes
                          "xsd:string"))
                      else
                        some (.ok (ElementDataType.elements group_ref
                          attributes ∅))
                  | .none =>
                      some (.error
                        ("Error: reference to empty group found in complexType"))
          | .none => some (.error ("Error: empty complexType"))

/-- flatten.rs flatten_simple_content. -/
def flatten_simple_content (data : Xsd) :
    Nat → XsdSimpleContent → Option (Except String ElementDataType)
  | 0, _ => none
  | fuel + 1, simple_content =>
      match alookup data.types simple_content.extension.basetype with
      | none => some (.error ("failed to find type"))
      | some basetype =>
          match build_attribute_list data simple_content.extension.attributes
              simple_content.extension.attribute_groups with
          | .error e => some (.error e)
          | .ok attributes =>
              match basetype with
              | .base _ | .simple _ =>
                  some (.ok (ElementDataType.characters attributes
                    simple_content.extension.basetype))
              | .complex complex_type =>
                  match flatten_complex_type data fuel complex_type
                      simple_content.extension.basetype with
                  | none => none
                  | some (.error e) => some (.error e)
                  | some (.ok et) =>
                      some (.ok (append_extension_attrs et attributes))

end

/-- flatten.rs flatten_choice_choice: fold an inner choice into the outer
one; the unreachable amount-mismatch arm is the todo panic, modeled none. -/
def flatten_choice_choice (outer_items_len : Nat)
    (elements sub_elements : List ElementCollectionItem)
    (outer_amount inner_amount : ElementAmount)
    (outer_name inner_name : String) :
    Option (List ElementCollectionItem × ElementAmount × String) :=
  if outer_items_len == 1 then
    some (elements ++ sub_elements,
      combine_amounts outer_amount inner_amount,
      if outer_name.isEmpty && !inner_name.isEmpty then inner_name
      else outer_name)
  else if outer_amount == inner_amount then
    some (elements ++ sub_elements, outer_amount, outer_name)
  else none

/-- The second loop of flatten_sequence, walking the flattened items beside
their source items; the todo panic is modeled as none. -/
def flatten_seq_step (data : Xsd) (nonempty_inputs : Nat) :
    List (XsdModelGroupItem × ElementCollection) →
      List ElementCollectionItem → Option ElementCollection →
      Option (List ElementCollectionItem × Option ElementCollection)
  | [], elements, repl => some (elements, repl)
  | (srcitem, item) :: rest, elements, repl =>
      match item with
      | ElementCollection.choice name sub amount =>
          match sub with
          | [] => flatten_seq_step data nonempty_inputs rest elements repl
          | [single] =>
              flatten_seq_step data nonempty_inputs rest
                (elements ++ [match single with
                  | ElementCollectionItem.element e =>
                      ElementCollectionItem.element { e with
                        amount := (combine_amounts amount e.amount) }
                  | other => other]) repl
          | _ :: _ :: _ =>
              if nonempty_inputs == 1 then
                flatten_seq_step data nonempty_inputs rest elements
                  (some (ElementCollection.choice name sub amount))
              else
                match srcitem with
                | XsdModelGroupItem.group group_ref =>
                    flatten_seq_step data nonempty_inputs rest
                      (elements ++ [ElementCollectionItem.groupRef group_ref])
                      repl
                | _ =>
                    if (alookup data.groups ("AR:" ++ name)).isSome then
                      flatten_seq_step data nonempty_inputs rest
                        (elements ++ [ElementCollectionItem.groupRef
                          ("AR:" ++ name)]) repl
                    else none
      | ElementCollection.sequence _ sub =>
          flatten_seq_step data nonempty_inputs rest (elements ++ sub) repl

/-- The combination phase of flatten_sequence. -/
def flatten_seq_combine (data : Xsd) (src_items : List XsdModelGroupItem)
    (flat_items : List ElementCollection) : Option ElementCollection :=
  match flatten_seq_step data
      ((flat_items.filter (fun it => !it.items.isEmpty)).length)
      (src_items.zip flat_items) [] none with
  | none => none
  | some (_, some repl) => some repl
  | some (elements, none) => some (ElementCollection.sequence "" elements)

mutual

/-- flatten.rs flatten_group. -/
def flatten_group (data : Xsd) :
    Nat → XsdGroup → Option (Except String ElementCollection)
  | 0, _ => none
  | fuel + 1, group =>
      match group.item with
      | .sequence sequence => flatten_sequence data fuel sequence
      | .choice choice => flatten_choice data fuel choice
      | .none => some (.error ("Error: empty group"))

/-- flatten.rs flatten_choice: the loop state is threaded through
flatten_choice_items. -/
def flatten_choice (data : Xsd) :
    Nat → XsdChoice → Option (Except String ElementCollection)
  | 0, _ => none
  | fuel + 1, choice =>
      match flatten_choice_items data fuel choice choice.items []
          (occurs_to_amount choice.min_occurs choice.max_occurs) "" none with
      | none => none
      | some (.error e) => some (.error e)
      | some (.ok (elements, outer_amount, name, replacement)) =>
          match replacement with
          | some repl => some (.ok repl)
          | none =>
              some (.ok (ElementCollection.choice name elements outer_amount))

/-- The item loop of flatten.rs flatten_choice, carrying the accumulated
elements, the outer amount, the outer name and the replacement; the todo
panics are modeled as none. -/
def flatten_choice_items (data : Xsd) :
    Nat → XsdChoice → List XsdModelGroupItem →
      List ElementCollectionItem → ElementAmount → String →
      Option ElementCollection →
      Option (Except String (List ElementCollectionItem × ElementAmount ×
        String × Option ElementCollection))
  | _, _, [], elements, outer_amount, name, repl =>
      some (.ok (elements, outer_amount, name, repl))
  | 0, _, _ :: _, _, _, _, _ => none
  | fuel + 1, choice, item :: rest, elements, outer_amount, name, repl =>
      match item with
      | XsdModelGroupItem.group group_ref =>
          match alookup data.groups group_ref with
          | none =>
              some (.error ("Error: unknown group ref found in sequence"))
          | some group =>
              match flatten_group data fuel group with
              | none => none
              | some (.error e) => some (.error e)
              | some (.ok (ElementCollection.choice inner_name sub
                  inner_amount)) =>
                  match flatten_choice_choice choice.items.length elements sub
                      outer_amount inner_amount name
                      (if inner_name.isEmpty then group_ref.drop 3
                        else inner_name) with
                  | none => none
                  | some (elements2, amount2, name2) =>
                      flatten_choice_items data fuel choice rest elements2
                        amount2 name2 repl
              | some (.ok (ElementCollection.sequence inner_name sub)) =>
                  match sub with
                  | [single] =>
                      flatten_choice_items data fuel choice rest
                        (elements ++ [single]) outer_amount name repl
                  | _ =>
                      if outer_amount == ElementAmount.any then
                        flatten_choice_items data fuel choice rest
                          (elements ++ sub) outer_amount name repl
                      else if choice.items.length == 1 &&
                          outer_amount != ElementAmount.any then
                        flatten_choice_items data fuel choice rest elements
                          outer_amount name
                          (some (ElementCollection.sequence
                            (if inner_name.isEmpty then group_ref.drop 3
                              else inner_name) sub))
                      else if !sub.isEmpty then
                        flatten_choice_items data fuel choice rest
                          (elements ++ [ElementCollectionItem.groupRef
                            ("AR:" ++ (if inner_name.isEmpty then
                              group_ref.drop 3 else inner_name))])
                          outer_amount name repl
                      else none
      | XsdModelGroupItem.choice choice_inner =>
          match flatten_choice data fuel choice_inner with
          | none => none
          | some (.error e) => some (.error e)
          | some (.ok (ElementCollection.choice inner_name sub
              inner_amount)) =>
              match flatten_choice_choice choice.items.length elements sub
                  outer_amount inner_amount name inner_name with
              | none => none
              | some (elements2, amount2, name2) =>
                  flatten_choice_items data fuel choice rest elements2
                    amount2 name2 repl
          | some (.ok (ElementCollection.sequence _ _)) => none
      | XsdModelGroupItem.element xsd_element =>
          flatten_choice_items data fuel choice rest
            (elements ++ [ElementCollectionItem.element
              (Element.new xsd_element data.version_info)])
            outer_amount name repl

/-- flatten.rs flatten_sequence: first flatten every item into an
ElementCollection, then combine them. -/
def flatten_sequence (data : Xsd) :
    Nat → XsdSequence → Option (Except String ElementCollection)
  | 0, _ => none
  | fuel + 1, sequence =>
      match flatten_seq_collect data fuel sequence.items with
      | none => none
      | some (.error e) => some (.error e)
      | some (.ok flat_items) =>
          match flatten_seq_combine data sequence.items flat_items with
          | none => none
          | some ec => some (.ok ec)

/-- The first loop of flatten_sequence: flatten each model-group item. -/
def flatten_seq_collect (data : Xsd) :
    Nat → List XsdModelGroupItem →
      Option (Except String (List ElementCollection))
  | _, [] => some (.ok [])
  | 0, _ :: _ => none
  | fuel + 1, item :: rest =>
      match item with
      | XsdModelGroupItem.group group_ref =>
          match alookup data.groups group_ref with
          | none =>
              some (.error ("Error: unknown group ref found in sequence"))
          | some group =>
              match flatten_group data fuel group with
              | none => none
              | some (.error e) => some (.error e)
              | some (.ok ec) =>
                  match flatten_seq_collect data fuel rest with
                  | none => none
                  | some (.error e) => some (.error e)
                  | some (.ok ecs) => some (.ok (ec :: ecs))
      | XsdModelGroupItem.choice choice =>
          match flatten_choice data fuel choice with
          | none => none
          | some (.error e) => some (.error e)
          | some (.ok ec) =>
              match flatten_seq_collect data fuel rest with
              | none => none
              | some (.error e) => some (.error e)
              | some (.ok ecs) => some (.ok (ec :: ecs))
      | XsdModelGroupItem.element xsd_element =>
          match flatten_seq_collect data fuel rest with
          | none => none
          | some (.error e) => some (.error e)
          | some (.ok ecs) =>
              some (.ok (ElementCollection.sequence ""
                [ElementCollectionItem.element
                  (Element.new xsd_element data.version_info)] :: ecs))

end

/-- flatten.rs enqueue_dependencies, as the list of pushes in push order. -/
def enqueue_dependencies (elemtype : ElementDataType) : List WorkQueueItem :=
  (match elemtype.group_ref with
    | some gr => [WorkQueueItem.group gr]
    | none => []) ++
  elemtype.attributes.map (fun a => WorkQueueItem.characterType a.attr_type) ++
  (match elemtype.basetype with
    | some bt => [WorkQueueItem.characterType bt]
    | none => [])

/-- flatten.rs enqueue_group_dependencies. -/
def enqueue_group_dependencies (group : ElementCollection) :
    List WorkQueueItem :=
  group.items.map (fun item =>
    match item with
    | ElementCollectionItem.element e => WorkQueueItem.elementType e.typeref
    | ElementCollectionItem.groupRef tr => WorkQueueItem.group tr)

/-- The work loop of flatten.rs flatten_schema.  The Vec used as a stack is
modeled with its top at the head, so a block of pushes lands reversed in
front of the remaining queue. -/
def flatten_loop (data : Xsd) :
    Nat → AutosarDataTypes → List WorkQueueItem →
      Option (Except String AutosarDataTypes)
  | 0, _, _ => none
  | _ + 1, schema, [] => some (.ok schema)
  | fuel + 1, schema, witem :: qrest =>
      match witem with
      | WorkQueueItem.elementType tr =>
          if (alookup schema.element_types tr).isSome then
            flatten_loop data fuel schema qrest
          else
            match alookup data.types tr with
            | some (XsdType.complex complex_type) =>
                match flatten_complex_type data fuel complex_type tr with
                | none => none
                | some (.error e) => some (.error e)
                | some (.ok elemtype) =>
                    flatten_loop data fuel
                      { schema with element_types :=
                          (ainsert schema.element_types tr elemtype) }
                      ((enqueue_dependencies elemtype).reverse ++ qrest)
            | _ =>
                flatten_loop data fuel
                  { schema with element_types :=
                      (ainsert schema.element_types tr
                        (ElementDataType.characters [] tr)) }
                  (WorkQueueItem.characterType tr :: qrest)
      | WorkQueueItem.characterType tr =>
          if (alookup schema.character_types tr).isSome then
            flatten_loop data fuel schema qrest
          else
            match alookup data.types tr with
            | some (XsdType.simple simple_type) =>
                match flatten_simple_type data simple_type tr with
                | .error e => some (.error e)
                | .ok chartype =>
                    flatten_loop data fuel
                      { schema with character_types :=
                          (ainsert schema.character_types tr chartype) }
                      qrest
            | _ => some (.error ("Error: unresolvable type"))
      | WorkQueueItem.group tr =>
          match alookup data.groups tr with
          | none => flatten_loop data fuel schema qrest
          | some xsd_group =>
              match flatten_group data fuel xsd_group with
              | none => none
              | some (.error e) => some (.error e)
              | some (.ok group) =>
                  flatten_loop data fuel
                    { schema with group_types :=
                        (ainsert schema.group_types tr group) }
                    ((enqueue_group_dependencies group).reverse ++ qrest)

/-- The three hard-coded root attributes flatten_schema appends. -/
def injected_attrs (version_info : Nat) : List Attribute :=
  [Attribute.mk "xmlns" "xsd:string" true version_info,
   Attribute.mk "xmlns:xsi" "xsd:string" true version_info,
   Attribute.mk "xsi:schemaLocation" "xsd:string" true version_info]

/-- The final step of flatten_schema: append the injected attributes to the
AR:AUTOSAR element type when it exists with the Elements discriminant. -/
def inject_root_attrs (version_info : Nat) (schema : AutosarDataTypes) :
    AutosarDataTypes :=
  match alookup schema.element_types "AR:AUTOSAR" with
  | some (ElementDataType.elements gr attrs xtn) =>
      { schema with element_types :=
          (ainsert schema.element_types "AR:AUTOSAR"
            (ElementDataType.elements gr
              (attrs ++ injected_attrs version_info) xtn)) }
  | _ => schema

/-- flatten.rs flatten_schema. -/
def flatten_schema (data : Xsd) (fuel : Nat) :
    Option (Except String AutosarDataTypes) :=
  if data.root_elements.length != 1 then
    some (.error ("Error: There should only be one root element"))
  else
    match flatten_loop data fuel AutosarDataTypes.new
        ((data.root_elements.map
          (fun e => WorkQueueItem.elementType e.typeref)).reverse) with
    | none => none
    | some (.error e) => some (.error e)
    | some (.ok schema) =>
        some (.ok (inject_root_attrs data.version_info schema))

/-! ### Monotone growth relations (C1)

A list grows into another when its entries appear in order, each related by
r, with arbitrary new entries interspersed: exactly what matched-update and
positional insertion produce. -/

inductive GrowsList {α : Type} (r : α → α → Prop) : List α → List α → Prop
  | nil (ys : List α) : GrowsList r [] ys
  | cons {x y : α} {xs ys : List α} :
      r x y → GrowsList r xs ys → GrowsList r (x :: xs) (y :: ys)
  | skip {xs ys : List α} (y : α) :
      GrowsList r xs ys → GrowsList r xs (y :: ys)

theorem grows_list_refl {α : Type} {r : α → α → Prop}
    (hr : ∀ x, r x x) : ∀ l : List α, GrowsList r l l := by
  intro l
  induction l with
  | nil => exact .nil []
  | cons hd tl ih => exact .cons (hr hd) ih

theorem grows_list_trans {α : Type} {r : α → α → Prop}
    (hr : ∀ a b c, r a b → r b c → r a c) :
    ∀ {xs ys zs : List α}, GrowsList r xs ys → GrowsList r ys zs →
      GrowsList r xs zs := by
  intro xs ys zs h1 h2
  induction h2 generalizing xs with
  | nil ys2 =>
      cases h1
      exact .nil _
  | cons hyz h2b ih =>
      cases h1 with
      | nil => exact .nil _
      | cons hxy h1b => exact .cons (hr _ _ _ hxy hyz) (ih h1b)
      | skip _ h1b => exact .skip _ (ih h1b)
  | skip z h2b ih => exact .skip _ (ih h1)

theorem grows_list_mem {α : Type} {r : α → α → Prop} {xs ys : List α}
    (h : GrowsList r xs ys) : ∀ x ∈ xs, ∃ y ∈ ys, r x y := by
  induction h with
  | nil ys2 => intro x hx; cases hx
  | cons hxy hrest ih =>
      intro x hx
      rcases List.mem_cons.mp hx with rfl | hx2
      · exact ⟨_, List.mem_cons_self _ _, hxy⟩
      · obtain ⟨y, hy, hr2⟩ := ih x hx2
        exact ⟨y, List.mem_cons_of_mem _ hy, hr2⟩
  | skip y hrest ih =>
      intro x hx
      obtain ⟨w, hw, hr2⟩ := ih x hx
      exact ⟨w, List.mem_cons_of_mem _ hw, hr2⟩

theorem grows_list_set {α : Type} {r : α → α → Prop} (hr : ∀ x, r x x) :
    ∀ (l : List α) (i : Nat) (x y : α), l.get? i = some x → r x y →
      GrowsList r l (l.set i y) := by
  intro l
  induction l with
  | nil => intro i x y hget; cases hget
  | cons hd tl ih =>
      intro i x y hget hxy
      cases i with
      | zero =>
          have : hd = x := by simpa using hget
          subst this
          exact .cons hxy (grows_list_refl hr tl)
      | succ i =>
          simp only [List.get?_cons_succ] at hget
          exact .cons (hr hd) (ih i x y hget hxy)

theorem grows_list_insert {α : Type} {r : α → α → Prop} (hr : ∀ x, r x x) :
    ∀ (pos : Nat) (x : α) (l : List α), GrowsList r l (vec_insert pos x l)
    := by
  intro pos
  induction pos with
  | zero => intro x l; exact .skip x (grows_list_refl hr l)
  | succ pos ih =>
      intro x l
      cases l with
      | nil => exact .nil []
      | cons hd tl => exact .cons (hr hd) (ih x tl)

theorem find_first_spec {α : Type} {p : α → Bool} :
    ∀ {l : List α} {i : Nat} {x : α}, find_first p l = some (i, x) →
      l.get? i = some x ∧ p x = true ∧ i < l.length := by
  intro l
  induction l with
  | nil => intro i x h; cases h
  | cons hd tl ih =>
      intro i x h
      by_cases hp : p hd
      · rw [show find_first p (hd :: tl) = some (0, hd) from by
          simp [find_first, hp]] at h
        obtain ⟨h1, h2⟩ := Prod.ext_iff.mp (Option.some.inj h)
        simp at h1 h2
        subst h1
        subst h2
        exact ⟨rfl, by simpa using hp, by simp⟩
      · rw [show find_first p (hd :: tl) =
            (find_first p tl).map (fun q => (q.1 + 1, q.2)) from by
          simp [find_first, hp]] at h
        rcases hf : find_first p tl with _ | ⟨j, w⟩
        · rw [hf] at h
          cases h
        · rw [hf] at h
          obtain ⟨h1, h2⟩ := Prod.ext_iff.mp (Option.some.inj h)
          simp at h1 h2
          subst h1
          subst h2
          obtain ⟨hg, hpw, hlen⟩ := ih hf
          exact ⟨by simpa using hg, hpw, by simpa using hlen⟩

theorem vec_insert_length {α : Type} :
    ∀ (pos : Nat) (x : α) (l : List α), pos ≤ l.length →
      (vec_insert pos x l).length = l.length + 1 := by
  intro pos
  induction pos with
  | zero => intro x l _; rfl
  | succ pos ih =>
      intro x l hle
      cases l with
      | nil => simp at hle
      | cons hd tl =>
          simp only [vec_insert, List.length_cons]
          rw [ih x tl (by simpa using hle)]

theorem vec_insert_mem {α : Type} :
    ∀ (pos : Nat) (x : α) (l : List α), pos ≤ l.length →
      x ∈ vec_insert pos x l := by
  intro pos
  induction pos with
  | zero => intro x l _; exact List.mem_cons_self _ _
  | succ pos ih =>
      intro x l hle
      cases l with
      | nil => simp at hle
      | cons hd tl =>
          exact List.mem_cons_of_mem _ (ih x tl (by simpa using hle))

theorem set_mem_of_get {α : Type} :
    ∀ (l : List α) (i : Nat) (x y : α), l.get? i = some x →
      y ∈ l.set i y := by
  intro l
  induction l with
  | nil => intro i x y h; cases h
  | cons hd tl ih =>
      intro i x y h
      cases i with
      | zero => exact List.mem_cons_self _ _
      | succ i =>
          simp only [List.get?_cons_succ] at h
          exact List.mem_cons_of_mem _ (ih i x y h)

/-! ### The growth relations of the merge -/

theorem bits_le_refl (a : Nat) : bits_le a a := Nat.or_self a

theorem bits_le_trans {a b c : Nat} (h1 : bits_le a b) (h2 : bits_le b c) :
    bits_le a c := by
  unfold bits_le at h1 h2 ⊢
  rw [← h2, ← Nat.or_assoc, h1]

theorem bits_le_or_left (a b : Nat) : bits_le a (a ||| b) := by
  unfold bits_le
  rw [← Nat.or_assoc, Nat.or_self]

theorem bits_le_or_right (a b : Nat) : bits_le b (a ||| b) := by
  unfold bits_le
  rw [Nat.or_comm b (a ||| b), Nat.or_assoc, Nat.or_self]

/-- An attribute grows: all fields equal except the version tag, which may
gain bits. -/
def attr_grows (a a2 : Attribute) : Prop :=
  a2.name = a.name ∧ a2.attr_type = a.attr_type ∧ a2.required = a.required ∧
    bits_le a.version_info a2.version_info

/-- An element grows: all fields equal except the version tag. -/
def elem_grows (e e2 : Element) : Prop :=
  e2.name = e.name ∧ e2.typeref = e.typeref ∧ e2.amount = e.amount ∧
    bits_le e.version_info e2.version_info ∧
    e2.splittable_ver = e.splittable_ver ∧ e2.ordered = e.ordered ∧
    e2.restrict_std = e.restrict_std ∧ e2.docstring = e.docstring

def item_grows (it it2 : ElementCollectionItem) : Prop :=
  match it, it2 with
  | .element e, .element e2 => elem_grows e e2
  | .groupRef g, .groupRef g2 => g2 = g
  | _, _ => False

def group_grows (g g2 : ElementCollection) : Prop :=
  match g, g2 with
  | .choice n subs a, .choice n2 subs2 a2 =>
      n2 = n ∧ a2 = a ∧ GrowsList item_grows subs subs2
  | .sequence n subs, .sequence n2 subs2 =>
      n2 = n ∧ GrowsList item_grows subs subs2
  | _, _ => False

def enumitem_grows (q q2 : String × Nat) : Prop :=
  q2.1 = q.1 ∧ bits_le q.2 q2.2

def chartype_grows (c c2 : CharacterDataType) : Prop :=
  match c, c2 with
  | .enum d, .enum d2 =>
      d2.name = d.name ∧ GrowsList enumitem_grows d.enumitems d2.enumitems
  | _, _ => c2 = c

def elemtype_grows (t t2 : ElementDataType) : Prop :=
  match t, t2 with
  | .elements gr attrs x, .elements gr2 attrs2 x2 =>
      gr2 = gr ∧ GrowsList attr_grows attrs attrs2 ∧ x ⊆ x2
  | .characters attrs bt, .characters attrs2 bt2 =>
      bt2 = bt ∧ GrowsList attr_grows attrs attrs2
  | .mixed gr attrs bt, .mixed gr2 attrs2 bt2 =>
      gr2 = gr ∧ GrowsList attr_grows attrs attrs2 ∧ bt2 = bt
  | _, _ => False

/-- The whole-type-set growth relation: every entry of the smaller set is
present under the same key with a grown value. -/
def adt_grows (t t2 : AutosarDataTypes) : Prop :=
  (∀ k v, alookup t.element_types k = some v →
    ∃ v2, alookup t2.element_types k = some v2 ∧ elemtype_grows v v2) ∧
  (∀ k v, alookup t.character_types k = some v →
    ∃ v2, alookup t2.character_types k = some v2 ∧ chartype_grows v v2) ∧
  (∀ k v, alookup t.group_types k = some v →
    ∃ v2, alookup t2.group_types k = some v2 ∧ group_grows v v2)

theorem attr_grows_refl (a : Attribute) : attr_grows a a :=
  ⟨rfl, rfl, rfl, bits_le_refl _⟩

theorem attr_grows_trans {a b c : Attribute} (h1 : attr_grows a b)
    (h2 : attr_grows b c) : attr_grows a c :=
  ⟨h2.1.trans h1.1, h2.2.1.trans h1.2.1, h2.2.2.1.trans h1.2.2.1,
    bits_le_trans h1.2.2.2 h2.2.2.2⟩

theorem elem_grows_refl (e : Element) : elem_grows e e :=
  ⟨rfl, rfl, rfl, bits_le_refl _, rfl, rfl, rfl, rfl⟩

theorem elem_grows_trans {a b c : Element} (h1 : elem_grows a b)
    (h2 : elem_grows b c) : elem_grows a c :=
  ⟨h2.1.trans h1.1, h2.2.1.trans h1.2.1, h2.2.2.1.trans h1.2.2.1,
    bits_le_trans h1.2.2.2.1 h2.2.2.2.1,
    h2.2.2.2.2.1.trans h1.2.2.2.2.1,
    h2.2.2.2.2.2.1.trans h1.2.2.2.2.2.1,
    h2.2.2.2.2.2.2.1.trans h1.2.2.2.2.2.2.1,
    h2.2.2.2.2.2.2.2.trans h1.2.2.2.2.2.2.2⟩

theorem item_grows_refl (it : ElementCollectionItem) : item_grows it it := by
  cases it with
  | element e => exact elem_grows_refl e
  | groupRef g => exact rfl

theorem item_grows_trans {a b c : ElementCollectionItem}
    (h1 : item_grows a b) (h2 : item_grows b c) : item_grows a c := by
  cases a <;> cases b <;> cases c <;>
    simp only [item_grows] at h1 h2 ⊢
  · exact elem_grows_trans h1 h2
  · exact h2.trans h1

theorem group_grows_refl (g : ElementCollection) : group_grows g g := by
  cases g with
  | choice n subs a => exact ⟨rfl, rfl, grows_list_refl item_grows_refl subs⟩
  | sequence n subs => exact ⟨rfl, grows_list_refl item_grows_refl subs⟩

theorem grows_items_trans {xs ys zs : List ElementCollectionItem}
    (h1 : GrowsList item_grows xs ys) (h2 : GrowsList item_grows ys zs) :
    GrowsList item_grows xs zs :=
  @grows_list_trans _ item_grows
    (fun _ _ _ hxy hyz => item_grows_trans hxy hyz) _ _ _ h1 h2

theorem grows_attrs_trans {xs ys zs : List Attribute}
    (h1 : GrowsList attr_grows xs ys) (h2 : GrowsList attr_grows ys zs) :
    GrowsList attr_grows xs zs :=
  @grows_list_trans _ attr_grows
    (fun _ _ _ hxy hyz => attr_grows_trans hxy hyz) _ _ _ h1 h2

theorem group_grows_trans {a b c : ElementCollection}
    (h1 : group_grows a b) (h2 : group_grows b c) : group_grows a c := by
  cases a with
  | choice n subs am =>
      cases b with
      | choice n2 subs2 am2 =>
          cases c with
          | choice n3 subs3 am3 =>
              obtain ⟨e1, e2, e3⟩ := h1
              obtain ⟨f1, f2, f3⟩ := h2
              exact ⟨f1.trans e1, f2.trans e2, grows_items_trans e3 f3⟩
          | sequence n3 subs3 => exact h2.elim
      | sequence n2 subs2 => exact h1.elim
  | sequence n subs =>
      cases b with
      | choice n2 subs2 am2 => exact h1.elim
      | sequence n2 subs2 =>
          cases c with
          | choice n3 subs3 am3 => exact h2.elim
          | sequence n3 subs3 =>
              obtain ⟨e1, e2⟩ := h1
              obtain ⟨f1, f2⟩ := h2
              exact ⟨f1.trans e1, grows_items_trans e2 f2⟩

theorem enumitem_grows_refl (q : String × Nat) : enumitem_grows q q :=
  ⟨rfl, bits_le_refl _⟩

theorem enumitem_grows_trans {a b c : String × Nat} (h1 : enumitem_grows a b)
    (h2 : enumitem_grows b c) : enumitem_grows a c :=
  ⟨h2.1.trans h1.1, bits_le_trans h1.2 h2.2⟩

theorem grows_enumitems_trans {xs ys zs : List (String × Nat)}
    (h1 : GrowsList enumitem_grows xs ys)
    (h2 : GrowsList enumitem_grows ys zs) :
    GrowsList enumitem_grows xs zs :=
  @grows_list_trans _ enumitem_grows
    (fun _ _ _ hxy hyz => enumitem_grows_trans hxy hyz) _ _ _ h1 h2

theorem chartype_grows_refl (c : CharacterDataType) : chartype_grows c c := by
  cases c with
  | enum d => exact ⟨rfl, grows_list_refl enumitem_grows_refl d.enumitems⟩
  | pattern p m => rfl
  | string m w => rfl
  | unsignedInteger => rfl
  | double => rfl

theorem chartype_grows_eq_of_ne_enum {a b : CharacterDataType}
    (ha : ∀ d, a ≠ .enum d) (h : chartype_grows a b) : b = a := by
  cases a <;> cases b <;> first | exact absurd rfl (ha _) | exact h

theorem chartype_grows_trans {a b c : CharacterDataType}
    (h1 : chartype_grows a b) (h2 : chartype_grows b c) :
    chartype_grows a c := by
  cases a with
  | enum d =>
      cases b with
      | enum d2 =>
          cases c with
          | enum d3 =>
              obtain ⟨e1, e2⟩ := h1
              obtain ⟨f1, f2⟩ := h2
              exact ⟨f1.trans e1, grows_enumitems_trans e2 f2⟩
          | pattern p m => cases h2
          | string m w => cases h2
          | unsignedInteger => cases h2
          | double => cases h2
      | pattern p m => cases h1
      | string m w => cases h1
      | unsignedInteger => cases h1
      | double => cases h1
  | pattern p m =>
      have hb := chartype_grows_eq_of_ne_enum (fun d h => by cases h) h1
      rw [hb] at h2
      exact h2
  | string m w =>
      have hb := chartype_grows_eq_of_ne_enum (fun d h => by cases h) h1
      rw [hb] at h2
      exact h2
  | unsignedInteger =>
      have hb := chartype_grows_eq_of_ne_enum (fun d h => by cases h) h1
      rw [hb] at h2
      exact h2
  | double =>
      have hb := chartype_grows_eq_of_ne_enum (fun d h => by cases h) h1
      rw [hb] at h2
      exact h2

theorem elemtype_grows_refl (t : ElementDataType) : elemtype_grows t t := by
  cases t with
  | elements gr attrs x =>
      exact ⟨rfl, grows_list_refl attr_grows_refl attrs, Finset.Subset.refl x⟩
  | characters attrs bt => exact ⟨rfl, grows_list_refl attr_grows_refl attrs⟩
  | mixed gr attrs bt =>
      exact ⟨rfl, grows_list_refl attr_grows_refl attrs, rfl⟩

theorem elemtype_grows_trans {a b c : ElementDataType}
    (h1 : elemtype_grows a b) (h2 : elemtype_grows b c) :
    elemtype_grows a c := by
  cases a with
  | elements gr attrs x =>
      cases b with
      | elements gr2 attrs2 x2 =>
          cases c with
          | elements gr3 attrs3 x3 =>
              obtain ⟨e1, e2, e3⟩ := h1
              obtain ⟨f1, f2, f3⟩ := h2
              exact ⟨f1.trans e1, grows_attrs_trans e2 f2,
                Finset.Subset.trans e3 f3⟩
          | characters _ _ => exact h2.elim
          | mixed _ _ _ => exact h2.elim
      | characters _ _ => exact h1.elim
      | mixed _ _ _ => exact h1.elim
  | characters attrs bt =>
      cases b with
      | elements _ _ _ => exact h1.elim
      | mixed _ _ _ => exact h1.elim
      | characters attrs2 bt2 =>
          cases c with
          | elements _ _ _ => exact h2.elim
          | mixed _ _ _ => exact h2.elim
          | characters attrs3 bt3 =>
              obtain ⟨e1, e2⟩ := h1
              obtain ⟨f1, f2⟩ := h2
              exact ⟨f1.trans e1, grows_attrs_trans e2 f2⟩
  | mixed gr attrs bt =>
      cases b with
      | elements _ _ _ => exact h1.elim
      | characters _ _ => exact h1.elim
      | mixed gr2 attrs2 bt2 =>
          cases c with
          | elements _ _ _ => exact h2.elim
          | characters _ _ => exact h2.elim
          | mixed gr3 attrs3 bt3 =>
              obtain ⟨e1, e2, e3⟩ := h1
              obtain ⟨f1, f2, f3⟩ := h2
              exact ⟨f1.trans e1, grows_attrs_trans e2 f2, f3.trans e3⟩

theorem adt_grows_refl (t : AutosarDataTypes) : adt_grows t t :=
  ⟨fun _ v h => ⟨v, h, elemtype_grows_refl v⟩,
    fun _ v h => ⟨v, h, chartype_grows_refl v⟩,
    fun _ v h => ⟨v, h, group_grows_refl v⟩⟩

theorem adt_grows_trans {a b c : AutosarDataTypes} (h1 : adt_grows a b)
    (h2 : adt_grows b c) : adt_grows a c := by
  refine ⟨?_, ?_, ?_⟩
  · intro k v h
    obtain ⟨v2, hv2, hg2⟩ := h1.1 k v h
    obtain ⟨v3, hv3, hg3⟩ := h2.1 k v2 hv2
    exact ⟨v3, hv3, elemtype_grows_trans hg2 hg3⟩
  · intro k v h
    obtain ⟨v2, hv2, hg2⟩ := h1.2.1 k v h
    obtain ⟨v3, hv3, hg3⟩ := h2.2.1 k v2 hv2
    exact ⟨v3, hv3, chartype_grows_trans hg2 hg3⟩
  · intro k v h
    obtain ⟨v2, hv2, hg2⟩ := h1.2.2 k v h
    obtain ⟨v3, hv3, hg3⟩ := h2.2.2 k v2 hv2
    exact ⟨v3, hv3, group_grows_trans hg2 hg3⟩

/-! ### Growth of the individual merge operations -/

theorem merge_attributes_grows :
    ∀ (news attrs : List Attribute) (ip : Nat),
      GrowsList attr_grows attrs (merge_attributes attrs ip news).1 := by
  intro news
  induction news with
  | nil => intro attrs ip; exact grows_list_refl attr_grows_refl attrs
  | cons na rest ih =>
      intro attrs ip
      rcases hf : find_first (fun att => att.name == na.name) attrs
        with _ | ⟨i, att⟩
      · rw [show merge_attributes attrs ip (na :: rest) =
            merge_attributes (vec_insert ip na attrs) (ip + 1) rest from by
          simp [merge_attributes, hf]]
        exact grows_attrs_trans
          (grows_list_insert attr_grows_refl ip na attrs) (ih _ _)
      · obtain ⟨hget, hp, hlen⟩ := find_first_spec hf
        rw [show (merge_attributes attrs ip (na :: rest)).1 =
            (merge_attributes (attrs.set i
              { att with version_info := att.version_info ||| na.version_info })
              (i + 1) rest).1 from by simp [merge_attributes, hf]]
        refine grows_attrs_trans ?_ (ih _ _)
        exact grows_list_set attr_grows_refl attrs i att _ hget
          ⟨rfl, rfl, rfl, bits_le_or_left _ _⟩

theorem merge_attributes_contains :
    ∀ (news attrs : List Attribute) (ip : Nat), ip ≤ attrs.length →
      ∀ na ∈ news, ∃ a ∈ (merge_attributes attrs ip news).1,
        a.name = na.name ∧ bits_le na.version_info a.version_info := by
  intro news
  induction news with
  | nil => intro attrs ip _ na hna; cases hna
  | cons na0 rest ih =>
      intro attrs ip hip na hna
      rcases hf : find_first (fun att => att.name == na0.name) attrs
        with _ | ⟨i, att⟩
      · rw [show merge_attributes attrs ip (na0 :: rest) =
            merge_attributes (vec_insert ip na0 attrs) (ip + 1) rest from by
          simp [merge_attributes, hf]]
        have hip2 : ip + 1 ≤ (vec_insert ip na0 attrs).length := by
          rw [vec_insert_length ip na0 attrs hip]
          omega
        rcases List.mem_cons.mp hna with rfl | hna2
        · obtain ⟨a2, ha2, hg⟩ := grows_list_mem
            (merge_attributes_grows rest _ (ip + 1)) na
            (vec_insert_mem ip na attrs hip)
          exact ⟨a2, ha2, hg.1, hg.2.2.2⟩
        · exact ih _ _ hip2 na hna2
      · obtain ⟨hget, hp, hlen⟩ := find_first_spec hf
        have hip2 : i + 1 ≤ (attrs.set i
            { att with version_info :=
                att.version_info ||| na0.version_info }).length := by
          rw [List.length_set]
          omega
        rw [show (merge_attributes attrs ip (na0 :: rest)).1 =
            (merge_attributes (attrs.set i
              { att with version_info :=
                  att.version_info ||| na0.version_info })
              (i + 1) rest).1 from by simp [merge_attributes, hf]]
        rcases List.mem_cons.mp hna with rfl | hna2
        · have hname : att.name = na.name := by
            simpa using hp
          have hmem : ({ att with version_info :=
              att.version_info ||| na.version_info } : Attribute) ∈
              attrs.set i { att with version_info :=
                att.version_info ||| na.version_info } :=
            set_mem_of_get attrs i att _ hget
          obtain ⟨a2, ha2, hg⟩ := grows_list_mem
            (merge_attributes_grows rest _ (i + 1)) _ hmem
          exact ⟨a2, ha2, hg.1.trans hname,
            bits_le_trans (bits_le_or_right _ _) hg.2.2.2⟩
        · exact ih _ _ hip2 na hna2

theorem merge_enums_grows :
    ∀ (news items : List (String × Nat)) (ip : Nat),
      GrowsList enumitem_grows items (merge_enums items ip news) := by
  intro news
  induction news with
  | nil => intro items ip; exact grows_list_refl enumitem_grows_refl items
  | cons q rest ih =>
      intro items ip
      obtain ⟨qname, qver⟩ := q
      rcases hf : find_first (fun ev => ev.1 == qname) items
        with _ | ⟨i, ev⟩
      · rw [show merge_enums items ip ((qname, qver) :: rest) =
            merge_enums (vec_insert ip (qname, qver) items) (ip + 1) rest
            from by simp [merge_enums, hf]]
        exact grows_enumitems_trans
          (grows_list_insert enumitem_grows_refl ip (qname, qver) items)
          (ih _ _)
      · obtain ⟨hget, hp, hlen⟩ := find_first_spec hf
        rw [show merge_enums items ip ((qname, qver) :: rest) =
            merge_enums (items.set i (ev.1, ev.2 ||| qver)) (i + 1) rest
            from by simp [merge_enums, hf]]
        refine grows_enumitems_trans ?_ (ih _ _)
        exact grows_list_set enumitem_grows_refl items i ev _ hget
          ⟨rfl, bits_le_or_left _ _⟩

theorem merge_enums_contains :
    ∀ (news items : List (String × Nat)) (ip : Nat), ip ≤ items.length →
      ∀ q ∈ news, ∃ q2 ∈ merge_enums items ip news,
        q2.1 = q.1 ∧ bits_le q.2 q2.2 := by
  intro news
  induction news with
  | nil => intro items ip _ q hq; cases hq
  | cons q0 rest ih =>
      intro items ip hip q hq
      obtain ⟨qname, qver⟩ := q0
      rcases hf : find_first (fun ev => ev.1 == qname) items
        with _ | ⟨i, ev⟩
      · rw [show merge_enums items ip ((qname, qver) :: rest) =
            merge_enums (vec_insert ip (qname, qver) items) (ip + 1) rest
            from by simp [merge_enums, hf]]
        have hip2 : ip + 1 ≤ (vec_insert ip (qname, qver) items).length := by
          rw [vec_insert_length ip (qname, qver) items hip]
          omega
        rcases List.mem_cons.mp hq with rfl | hq2
        · obtain ⟨q2, hq2m, hg⟩ := grows_list_mem
            (merge_enums_grows rest _ (ip + 1)) _
            (vec_insert_mem ip (qname, qver) items hip)
          exact ⟨q2, hq2m, hg.1, hg.2⟩
        · exact ih _ _ hip2 q hq2
      · obtain ⟨hget, hp, hlen⟩ := find_first_spec hf
        have hip2 : i + 1 ≤ (items.set i (ev.1, ev.2 ||| qver)).length := by
          rw [List.length_set]
          omega
        rw [show merge_enums items ip ((qname, qver) :: rest) =
            merge_enums (items.set i (ev.1, ev.2 ||| qver)) (i + 1) rest
            from by simp [merge_enums, hf]]
        rcases List.mem_cons.mp hq with rfl | hq2
        · have hname : ev.1 = qname := by simpa using hp
          have hmem : (ev.1, ev.2 ||| qver) ∈
              items.set i (ev.1, ev.2 ||| qver) :=
            set_mem_of_get items i ev _ hget
          obtain ⟨q2, hq2m, hg⟩ := grows_list_mem
            (merge_enums_grows rest _ (i + 1)) _ hmem
          exact ⟨q2, hq2m, hg.1.trans hname,
            bits_le_trans (bits_le_or_right _ _) hg.2⟩
        · exact ih _ _ hip2 q hq2

theorem merge_char_types_grows (a b : CharacterDataType) :
    chartype_grows a (merge_char_types a b) := by
  cases a with
  | enum d =>
      cases b with
      | enum d2 => exact ⟨rfl, merge_enums_grows d2.enumitems d.enumitems 0⟩
      | pattern p m => exact chartype_grows_refl _
      | string m w => exact chartype_grows_refl _
      | unsignedInteger => exact chartype_grows_refl _
      | double => exact chartype_grows_refl _
  | pattern p m => cases b <;> exact chartype_grows_refl _
  | string m w => cases b <;> exact chartype_grows_refl _
  | unsignedInteger => cases b <;> exact chartype_grows_refl _
  | double => cases b <;> exact chartype_grows_refl _

theorem merge_elem_types_grows (a b : ElementDataType) :
    elemtype_grows a (merge_elem_types a b).1 := by
  cases a with
  | elements gr attrs x =>
      cases b with
      | elements gr2 attrs2 x2 =>
          exact ⟨rfl, merge_attributes_grows attrs2 attrs 0,
            Finset.subset_union_left⟩
      | characters _ _ => exact elemtype_grows_refl _
      | mixed _ _ _ => exact elemtype_grows_refl _
  | characters attrs bt =>
      cases b with
      | characters attrs2 bt2 =>
          exact ⟨rfl, merge_attributes_grows attrs2 attrs 0⟩
      | elements _ _ _ => exact elemtype_grows_refl _
      | mixed _ _ _ => exact elemtype_grows_refl _
  | mixed gr attrs bt =>
      cases b with
      | mixed gr2 attrs2 bt2 =>
          exact ⟨rfl, merge_attributes_grows attrs2 attrs 0, rfl⟩
      | characters attrs2 bt2 =>
          exact ⟨rfl, merge_attributes_grows attrs2 attrs 0, rfl⟩
      | elements _ _ _ => exact elemtype_grows_refl _

theorem merge_group_items_grows :
    ∀ (news : List ElementCollectionItem)
      (ct ct2 : List (String × CharacterDataType))
      (subs : List ElementCollectionItem) (ip : Nat)
      (subs2 : List ElementCollectionItem) (tv : List ElemOrGroup),
      merge_group_items ct ct2 subs ip news = .ok (subs2, tv) →
      GrowsList item_grows subs subs2 := by
  intro news
  induction news with
  | nil =>
      intro ct ct2 subs ip subs2 tv h
      cases h
      exact grows_list_refl item_grows_refl subs
  | cons newelem rest ih =>
      intro ct ct2 subs ip subs2 tv h
      rcases hf : find_first
          (fun e => e.name == newelem.name &&
            element_is_compatible e newelem ct ct2) subs with _ | ⟨i, cur⟩
      · rw [show merge_group_items ct ct2 subs ip (newelem :: rest) =
            (do
              let r ← merge_group_items ct ct2
                (vec_insert ip newelem subs) (ip + 1) rest
              let pair := match newelem with
                | .element e => ElemOrGroup.element e.typeref e.typeref
                | .groupRef g => ElemOrGroup.group g g
              .ok (r.1, pair :: r.2)) from by
          simp [merge_group_items, hf]] at h
        rcases hrec : merge_group_items ct ct2 (vec_insert ip newelem subs)
            (ip + 1) rest with e | r
        · rw [hrec] at h
          cases h
        · rw [hrec] at h
          cases h
          exact grows_items_trans
            (grows_list_insert item_grows_refl ip newelem subs)
            (ih _ _ _ _ _ _ hrec)
      · obtain ⟨hget, hp, hlen⟩ := find_first_spec hf
        cases cur with
        | element cur_elem =>
            cases newelem with
            | element new_elem =>
                rw [show merge_group_items ct ct2 subs ip
                    (.element new_elem :: rest) =
                    (do
                      let r ← merge_group_items ct ct2
                        (subs.set i (.element { cur_elem with version_info :=
                          cur_elem.version_info ||| new_elem.version_info }))
                        (i + 1) rest
                      Except.ok (r.1,
                        ElemOrGroup.element cur_elem.typeref new_elem.typeref
                          :: r.2)) from by
                  simp [merge_group_items, hf]] at h
                rcases hrec : merge_group_items ct ct2
                    (subs.set i (.element { cur_elem with version_info :=
                      cur_elem.version_info ||| new_elem.version_info }))
                    (i + 1) rest with e | r
                · rw [hrec] at h
                  cases h
                · rw [hrec] at h
                  cases h
                  refine grows_items_trans ?_ (ih _ _ _ _ _ _ hrec)
                  exact grows_list_set item_grows_refl subs i _ _ hget
                    ⟨rfl, rfl, rfl, bits_le_or_left _ _, rfl, rfl, rfl, rfl⟩
            | groupRef g =>
                rw [show merge_group_items ct ct2 subs ip
                    (.groupRef g :: rest) = Except.error
                      ("Error: merge of incompatible types") from by
                  simp [merge_group_items, hf]] at h
                cases h
        | groupRef cur_group =>
            cases newelem with
            | element new_elem =>
                rw [show merge_group_items ct ct2 subs ip
                    (.element new_elem :: rest) = Except.error
                      ("Error: merge of incompatible types") from by
                  simp [merge_group_items, hf]] at h
                cases h
            | groupRef new_group =>
                rw [show merge_group_items ct ct2 subs ip
                    (.groupRef new_group :: rest) =
                    (do
                      let r ← merge_group_items ct ct2 subs (i + 1) rest
                      Except.ok (r.1,
                        ElemOrGroup.group cur_group new_group :: r.2))
                    from by simp [merge_group_items, hf]] at h
                rcases hrec : merge_group_items ct ct2 subs (i + 1) rest
                  with e | r
                · rw [hrec] at h
                  cases h
                · rw [hrec] at h
                  cases h
                  exact ih _ _ _ _ _ _ hrec

/-- Every incoming element leaves, in the reconciled sub-element list, an
element of the same name whose version tag contains the incoming tag. -/
theorem merge_group_items_contains :
    ∀ (news : List ElementCollectionItem)
      (ct ct2 : List (String × CharacterDataType))
      (subs : List ElementCollectionItem) (ip : Nat)
      (subs2 : List ElementCollectionItem) (tv : List ElemOrGroup),
      ip ≤ subs.length →
      merge_group_items ct ct2 subs ip news = .ok (subs2, tv) →
      ∀ e, ElementCollectionItem.element e ∈ news →
        ∃ e2, ElementCollectionItem.element e2 ∈ subs2 ∧ e2.name = e.name ∧
          bits_le e.version_info e2.version_info := by
  intro news
  induction news with
  | nil => intro ct ct2 subs ip subs2 tv _ h e he; cases he
  | cons newelem rest ih =>
      intro ct ct2 subs ip subs2 tv hip h e he
      rcases hf : find_first
          (fun x => x.name == newelem.name &&
            element_is_compatible x newelem ct ct2) subs with _ | ⟨i, cur⟩
      · rw [show merge_group_items ct ct2 subs ip (newelem :: rest) =
            (do
              let r ← merge_group_items ct ct2
                (vec_insert ip newelem subs) (ip + 1) rest
              let pair := match newelem with
                | .element e0 => ElemOrGroup.element e0.typeref e0.typeref
                | .groupRef g => ElemOrGroup.group g g
              .ok (r.1, pair :: r.2)) from by
          simp [merge_group_items, hf]] at h
        rcases hrec : merge_group_items ct ct2 (vec_insert ip newelem subs)
            (ip + 1) rest with err | r
        · rw [hrec] at h
          cases h
        · rw [hrec] at h
          cases h
          have hip2 : ip + 1 ≤ (vec_insert ip newelem subs).length := by
            rw [vec_insert_length ip newelem subs hip]
            omega
          rcases List.mem_cons.mp he with rfl | he2
          · have hmem : ElementCollectionItem.element e ∈
                vec_insert ip (ElementCollectionItem.element e) subs :=
              vec_insert_mem ip _ subs hip
            obtain ⟨y, hy, hg⟩ := grows_list_mem
              (merge_group_items_grows rest ct ct2 _ (ip + 1) _ _ hrec) _ hmem
            cases y with
            | element e2 => exact ⟨e2, hy, hg.1, hg.2.2.2.1⟩
            | groupRef g => exact hg.elim
          · exact ih ct ct2 _ (ip + 1) _ _ hip2 hrec e he2
      · obtain ⟨hget, hp, hlen⟩ := find_first_spec hf
        cases cur with
        | element cur_elem =>
            cases newelem with
            | element new_elem =>
                rw [show merge_group_items ct ct2 subs ip
                    (.element new_elem :: rest) =
                    (do
                      let r ← merge_group_items ct ct2
                        (subs.set i (.element { cur_elem with version_info :=
                          cur_elem.version_info ||| new_elem.version_info }))
                        (i + 1) rest
                      Except.ok (r.1,
                        ElemOrGroup.element cur_elem.typeref new_elem.typeref
                          :: r.2)) from by
                  simp [merge_group_items, hf]] at h
                rcases hrec : merge_group_items ct ct2
                    (subs.set i (.element { cur_elem with version_info :=
                      cur_elem.version_info ||| new_elem.version_info }))
                    (i + 1) rest with err | r
                · rw [hrec] at h
                  cases h
                · rw [hrec] at h
                  cases h
                  have hip2 : i + 1 ≤ (subs.set i
                      (ElementCollectionItem.element { cur_elem with
                        version_info := cur_elem.version_info |||
                          new_elem.version_info })).length := by
                    rw [List.length_set]
                    omega
                  rcases List.mem_cons.mp he with he1 | he2
                  · have hee : e = new_elem :=
                      ElementCollectionItem.element.inj he1
                    subst hee
                    have hname : cur_elem.name = e.name := by
                      have := hp
                      simp only [Bool.and_eq_true, beq_iff_eq] at this
                      exact this.1
                    have hmem : ElementCollectionItem.element { cur_elem with
                        version_info := cur_elem.version_info |||
                          e.version_info } ∈
                        subs.set i (ElementCollectionItem.element
                          { cur_elem with version_info :=
                            cur_elem.version_info ||| e.version_info }) :=
                      set_mem_of_get subs i _ _ hget
                    obtain ⟨y, hy, hg⟩ := grows_list_mem
                      (merge_group_items_grows rest ct ct2 _ (i + 1) _ _ hrec)
                      _ hmem
                    cases y with
                    | element e2 =>
                        exact ⟨e2, hy, hg.1.trans hname,
                          bits_le_trans (bits_le_or_right _ _) hg.2.2.2.1⟩
                    | groupRef g => exact hg.elim
                  · exact ih ct ct2 _ (i + 1) _ _ hip2 hrec e he2
            | groupRef g =>
                rw [show merge_group_items ct ct2 subs ip
                    (.groupRef g :: rest) = Except.error
                      ("Error: merge of incompatible types") from by
                  simp [merge_group_items, hf]] at h
                cases h
        | groupRef cur_group =>
            cases newelem with
            | element new_elem =>
                rw [show merge_group_items ct ct2 subs ip
                    (.element new_elem :: rest) = Except.error
                      ("Error: merge of incompatible types") from by
                  simp [merge_group_items, hf]] at h
                cases h
            | groupRef new_group =>
                rw [show merge_group_items ct ct2 subs ip
                    (.groupRef new_group :: rest) =
                    (do
                      let r ← merge_group_items ct ct2 subs (i + 1) rest
                      Except.ok (r.1,
                        ElemOrGroup.group cur_group new_group :: r.2))
                    from by simp [merge_group_items, hf]] at h
                rcases hrec : merge_group_items ct ct2 subs (i + 1) rest
                  with err | r
                · rw [hrec] at h
                  cases h
                · rw [hrec] at h
                  cases h
                  rcases List.mem_cons.mp he with he1 | he2
                  · cases he1
                  · exact ih ct ct2 _ (i + 1) _ _ (by omega) hrec e he2

/-- merge_group_types only grows the base group: name, shape and amount are
kept, and the sub-element list grows. -/
theorem merge_group_types_grows
    (ct ct2 : List (String × CharacterDataType))
    (ec ec_new g2 : ElementCollection) (tv : List ElemOrGroup)
    (h : merge_group_types ct ct2 ec ec_new = .ok (g2, tv)) :
    group_grows ec g2 := by
  cases ec with
  | choice n subs amount =>
      simp only [merge_group_types] at h
      rcases hrec : merge_group_items ct ct2 subs
          (short_name_insert_pos (ElementCollection.choice n subs amount))
          ec_new.items with err | r
      · rw [hrec] at h
        cases h
      · rw [hrec] at h
        cases h
        exact ⟨rfl, rfl, merge_group_items_grows _ _ _ _ _ _ _ hrec⟩
  | sequence n subs =>
      simp only [merge_group_types] at h
      rcases hrec : merge_group_items ct ct2 subs
          (short_name_insert_pos (ElementCollection.sequence n subs))
          ec_new.items with err | r
      · rw [hrec] at h
        cases h
      · rw [hrec] at h
        cases h
        exact ⟨rfl, merge_group_items_grows _ _ _ _ _ _ _ hrec⟩

/-! ### Growth of the merge driver -/

theorem alookup_preserved_ainsert_absent {V : Type} {m : List (String × V)}
    {k : String} (v : V) (h : alookup m k = none) :
    ∀ k1 v1, alookup m k1 = some v1 → alookup (ainsert m k v) k1 = some v1
    := by
  intro k1 v1 h1
  by_cases hk : k1 = k
  · subst hk
    rw [h] at h1
    cases h1
  · rw [alookup_ainsert_of_ne m k k1 v hk]
    exact h1

theorem alookup_grown_ainsert_update {V : Type} {r : V → V → Prop}
    (hrefl : ∀ x, r x x) {m : List (String × V)} {k : String} {v v2 : V}
    (h : alookup m k = some v) (hg : r v v2) :
    ∀ k1 v1, alookup m k1 = some v1 →
      ∃ w, alookup (ainsert m k v2) k1 = some w ∧ r v1 w := by
  intro k1 v1 h1
  by_cases hk : k1 = k
  · rw [hk] at h1
    have hv : v1 = v := Option.some.inj (h.symm.trans h1).symm
    subst hv
    refine ⟨v2, ?_, hg⟩
    rw [hk]
    exact alookup_ainsert_self m k v2
  · exact ⟨v1, by rw [alookup_ainsert_of_ne m k k1 v2 hk]; exact h1,
      hrefl v1⟩

theorem adt_grows_insert_missing_elem (input t : AutosarDataTypes)
    (tm ti : String) : adt_grows t (insert_missing_elem input t tm ti) := by
  unfold insert_missing_elem
  by_cases hn : (alookup t.element_types tm).isNone
  · rw [if_pos hn]
    rcases alookup input.element_types ti with _ | it
    · exact adt_grows_refl t
    · refine ⟨?_, fun k1 v1 h1 => ⟨v1, h1, chartype_grows_refl v1⟩,
        fun k1 v1 h1 => ⟨v1, h1, group_grows_refl v1⟩⟩
      intro k1 v1 h1
      exact ⟨v1, alookup_preserved_ainsert_absent it
        (by simpa [Option.isNone_iff_eq_none] using hn) k1 v1 h1,
        elemtype_grows_refl v1⟩
  · rw [if_neg hn]
    exact adt_grows_refl t

theorem adt_grows_insert_missing_group (input t : AutosarDataTypes)
    (tm ti : String) : adt_grows t (insert_missing_group input t tm ti) := by
  unfold insert_missing_group
  by_cases hn : (alookup t.group_types tm).isNone
  · rw [if_pos hn]
    rcases alookup input.group_types ti with _ | it
    · exact adt_grows_refl t
    · refine ⟨fun k1 v1 h1 => ⟨v1, h1, elemtype_grows_refl v1⟩,
        fun k1 v1 h1 => ⟨v1, h1, chartype_grows_refl v1⟩, ?_⟩
      intro k1 v1 h1
      exact ⟨v1, alookup_preserved_ainsert_absent it
        (by simpa [Option.isNone_iff_eq_none] using hn) k1 v1 h1,
        group_grows_refl v1⟩
  · rw [if_neg hn]
    exact adt_grows_refl t

theorem adt_grows_insert_missing_char (input t : AutosarDataTypes)
    (tm ti : String) : adt_grows t (insert_missing_char input t tm ti) := by
  unfold insert_missing_char
  by_cases hn : (alookup t.character_types tm).isNone
  · rw [if_pos hn]
    rcases alookup input.character_types ti with _ | it
    · exact adt_grows_refl t
    · refine ⟨fun k1 v1 h1 => ⟨v1, h1, elemtype_grows_refl v1⟩, ?_,
        fun k1 v1 h1 => ⟨v1, h1, group_grows_refl v1⟩⟩
      intro k1 v1 h1
      exact ⟨v1, alookup_preserved_ainsert_absent it
        (by simpa [Option.isNone_iff_eq_none] using hn) k1 v1 h1,
        chartype_grows_refl v1⟩
  · rw [if_neg hn]
    exact adt_grows_refl t

theorem adt_grows_update_elem (t : AutosarDataTypes) (tm : String)
    {v v2 : ElementDataType} (h : alookup t.element_types tm = some v)
    (hg : elemtype_grows v v2) :
    adt_grows t { t with element_types := (ainsert t.element_types tm v2) }
    :=
  ⟨fun k1 v1 h1 => alookup_grown_ainsert_update elemtype_grows_refl h hg
      k1 v1 h1,
    fun k1 v1 h1 => ⟨v1, h1, chartype_grows_refl v1⟩,
    fun k1 v1 h1 => ⟨v1, h1, group_grows_refl v1⟩⟩

theorem adt_grows_update_group (t : AutosarDataTypes) (tm : String)
    {v v2 : ElementCollection} (h : alookup t.group_types tm = some v)
    (hg : group_grows v v2) :
    adt_grows t { t with group_types := (ainsert t.group_types tm v2) } :=
  ⟨fun k1 v1 h1 => ⟨v1, h1, elemtype_grows_refl v1⟩,
    fun k1 v1 h1 => ⟨v1, h1, chartype_grows_refl v1⟩,
    fun k1 v1 h1 => alookup_grown_ainsert_update group_grows_refl h hg
      k1 v1 h1⟩

theorem adt_grows_update_char (t : AutosarDataTypes) (tm : String)
    {v v2 : CharacterDataType} (h : alookup t.character_types tm = some v)
    (hg : chartype_grows v v2) :
    adt_grows t
      { t with character_types := (ainsert t.character_types tm v2) } :=
  ⟨fun k1 v1 h1 => ⟨v1, h1, elemtype_grows_refl v1⟩,
    fun k1 v1 h1 => alookup_grown_ainsert_update chartype_grows_refl h hg
      k1 v1 h1,
    fun k1 v1 h1 => ⟨v1, h1, group_grows_refl v1⟩⟩

/-- The element/group phase of the merge only grows the merged set. -/
theorem merge_elem_phase_grows :
    ∀ (fuel : Nat) (input merged : AutosarDataTypes)
      (q visited : List ElemOrGroup) (cq : List (String × String))
      (m2 : AutosarDataTypes) (cq2 : List (String × String)),
      merge_elem_phase input fuel merged q visited cq =
        some (.ok (m2, cq2)) →
      adt_grows merged m2 := by
  intro fuel
  induction fuel with
  | zero => intro input merged q visited cq m2 cq2 h; cases h
  | succ fuel ih =>
      intro input merged q visited cq m2 cq2 h
      cases q with
      | nil =>
          simp only [merge_elem_phase] at h
          cases h
          exact adt_grows_refl merged
      | cons eog qrest =>
          cases eog with
          | element tm ti =>
              simp only [merge_elem_phase] at h
              by_cases hv : ElemOrGroup.element tm ti ∈ visited
              · rw [if_pos hv] at h
                exact ih input merged qrest visited cq m2 cq2 h
              · rw [if_neg hv] at h
                rcases hm1 : alookup
                    (insert_missing_elem input merged tm ti).element_types tm
                  with _ | a
                · rw [hm1] at h
                  exact adt_grows_trans
                    (adt_grows_insert_missing_elem input merged tm ti)
                    (ih _ _ _ _ _ _ _ h)
                · rw [hm1] at h
                  dsimp only at h
                  rcases hb : alookup input.element_types ti with _ | b
                  · rw [hb] at h
                    cases h
                  · rw [hb] at h
                    dsimp only at h
                    refine adt_grows_trans
                      (adt_grows_insert_missing_elem input merged tm ti)
                      (adt_grows_trans
                        (adt_grows_update_elem _ tm hm1
                          (merge_elem_types_grows a b))
                        (ih _ _ _ _ _ _ _ h))
          | group tm ti =>
              simp only [merge_elem_phase] at h
              by_cases hv : ElemOrGroup.group tm ti ∈ visited
              · rw [if_pos hv] at h
                exact ih input merged qrest visited cq m2 cq2 h
              · rw [if_neg hv] at h
                rcases hm1 : alookup
                    (insert_missing_group input merged tm ti).group_types tm
                  with _ | g
                · rw [hm1] at h
                  exact adt_grows_trans
                    (adt_grows_insert_missing_group input merged tm ti)
                    (ih _ _ _ _ _ _ _ h)
                · rw [hm1] at h
                  dsimp only at h
                  rcases hb : alookup input.group_types ti with _ | gn
                  · rw [hb] at h
                    cases h
                  · rw [hb] at h
                    dsimp only at h
                    rcases hmg : merge_group_types
                        (insert_missing_group input merged tm ti).character_types
                        input.character_types g gn with e | r
                    · rw [hmg] at h
                      cases h
                    · rw [hmg] at h
                      refine adt_grows_trans
                        (adt_grows_insert_missing_group input merged tm ti)
                        (adt_grows_trans
                          (adt_grows_update_group _ tm hm1
                            (merge_group_types_grows _ _ _ _ _ _ hmg))
                          (ih _ _ _ _ _ _ _ h))

/-- The character-type phase of the merge only grows the merged set. -/
theorem merge_char_phase_grows :
    ∀ (fuel : Nat) (input merged : AutosarDataTypes)
      (q visited : List (String × String)) (m2 : AutosarDataTypes),
      merge_char_phase input fuel merged q visited = some m2 →
      adt_grows merged m2 := by
  intro fuel
  induction fuel with
  | zero => intro input merged q visited m2 h; cases h
  | succ fuel ih =>
      intro input merged q visited m2 h
      cases q with
      | nil =>
          simp only [merge_char_phase] at h
          cases h
          exact adt_grows_refl merged
      | cons pr qrest =>
          obtain ⟨tm, ti⟩ := pr
          simp only [merge_char_phase] at h
          by_cases hv : (tm, ti) ∈ visited
          · rw [if_pos hv] at h
            exact ih input merged qrest visited m2 h
          · rw [if_neg hv] at h
            rcases hm1 : alookup
                (insert_missing_char input merged tm ti).character_types tm
              with _ | a
            · rw [hm1] at h
              exact adt_grows_trans
                (adt_grows_insert_missing_char input merged tm ti)
                (ih _ _ _ _ _ h)
            · rw [hm1] at h
              dsimp only at h
              rcases hb : alookup input.character_types ti with _ | b
              · rw [hb] at h
                cases h
              · rw [hb] at h
                dsimp only at h
                refine adt_grows_trans
                  (adt_grows_insert_missing_char input merged tm ti)
                  (adt_grows_trans
                    (adt_grows_update_char _ tm hm1
                      (merge_char_types_grows a b))
                    (ih _ _ _ _ _ h))

/-- A successful merge only grows the base type set. -/
theorem merge_grows (fuel : Nat) (base incoming merged : AutosarDataTypes)
    (h : merge fuel base incoming = some (.ok merged)) :
    adt_grows base merged := by
  unfold merge at h
  rcases h1 : merge_elem_phase incoming fuel base
      [ElemOrGroup.element "AR:AUTOSAR" "AR:AUTOSAR"] [] [] with _ | r
  · rw [h1] at h
    cases h
  · rw [h1] at h
    cases r with
    | error e => cases h
    | ok p =>
        obtain ⟨m1, cq⟩ := p
        dsimp only at h
        rcases h2 : merge_char_phase incoming fuel m1 cq.reverse []
          with _ | m2
        · rw [h2] at h
          cases h
        · rw [h2] at h
          cases h
          exact adt_grows_trans
            (merge_elem_phase_grows fuel incoming base _ _ _ _ _ h1)
            (merge_char_phase_grows fuel incoming m1 _ _ _ h2)

/-- Decidable equality for Except, needed to evaluate merge outcomes. -/
instance {ε α : Type} [DecidableEq ε] [DecidableEq α] :
    DecidableEq (Except ε α) := fun
  | Except.ok a, Except.ok b =>
      if h : a = b then isTrue (by rw [h])
      else isFalse (by intro hh; cases hh; exact h rfl)
  | Except.ok _, Except.error _ => isFalse (fun hh => Except.noConfusion hh)
  | Except.error _, Except.ok _ => isFalse (fun hh => Except.noConfusion hh)
  | Except.error e, Except.error f =>
      if h : e = f then isTrue (by rw [h])
      else isFalse (by intro hh; cases hh; exact h rfl)

/-- C1 (amended): after a successful merge, every key of base is still
present and every value of base only grows (all version bits set before are
still set, no field other than version tags and set-like containers
changes); and at every reconciliation step each matched or inserted
construct keeps, in the result, an entry of the same name whose version tag
contains the incoming tag.  The exact equality "result tag = base tag OR
incoming tag" of the original claim fails when one base item is matched by
more than one incoming counterpart (see the counterexample), so it is
weakened to containment. -/
theorem c1_merge_monotonicity_amended :
    (∀ (fuel : Nat) (base incoming merged : AutosarDataTypes),
      merge fuel base incoming = some (Except.ok merged) →
      adt_grows base merged ∧
      (∀ k, k ∈ akeys base.element_types → k ∈ akeys merged.element_types) ∧
      (∀ k, k ∈ akeys base.character_types →
        k ∈ akeys merged.character_types) ∧
      (∀ k, k ∈ akeys base.group_types → k ∈ akeys merged.group_types)) ∧
    (∀ (ct ct2 : List (String × CharacterDataType))
      (subs : List ElementCollectionItem) (ip : Nat)
      (news subs2 : List ElementCollectionItem) (tv : List ElemOrGroup),
      ip ≤ subs.length →
      merge_group_items ct ct2 subs ip news = Except.ok (subs2, tv) →
      ∀ e, ElementCollectionItem.element e ∈ news →
        ∃ e2, ElementCollectionItem.element e2 ∈ subs2 ∧ e2.name = e.name ∧
          bits_le e.version_info e2.version_info) ∧
    (∀ (attrs : List Attribute) (ip : Nat) (news : List Attribute),
      ip ≤ attrs.length →
      ∀ na ∈ news, ∃ a ∈ (merge_attributes attrs ip news).1,
        a.name = na.name ∧ bits_le na.version_info a.version_info) ∧
    (∀ (items : List (String × Nat)) (ip : Nat) (news : List (String × Nat)),
      ip ≤ items.length →
      ∀ q ∈ news, ∃ q2 ∈ merge_enums items ip news,
        q2.1 = q.1 ∧ bits_le q.2 q2.2) := by
  refine ⟨?_, ?_, ?_, ?_⟩
  · intro fuel base incoming merged h
    have hg := merge_grows fuel base incoming merged h
    refine ⟨hg, ?_, ?_, ?_⟩
    · intro k hk
      rw [← alookup_isSome_iff] at hk
      obtain ⟨v, hv⟩ := Option.isSome_iff_exists.mp hk
      obtain ⟨v2, hv2, _⟩ := hg.1 k v hv
      rw [← alookup_isSome_iff, hv2]
      rfl
    · intro k hk
      rw [← alookup_isSome_iff] at hk
      obtain ⟨v, hv⟩ := Option.isSome_iff_exists.mp hk
      obtain ⟨v2, hv2, _⟩ := hg.2.1 k v hv
      rw [← alookup_isSome_iff, hv2]
      rfl
    · intro k hk
      rw [← alookup_isSome_iff] at hk
      obtain ⟨v, hv⟩ := Option.isSome_iff_exists.mp hk
      obtain ⟨v2, hv2, _⟩ := hg.2.2 k v hv
      rw [← alookup_isSome_iff, hv2]
      rfl
  · intro ct ct2 subs ip news subs2 tv hip heq e he
    exact merge_group_items_contains news ct ct2 subs ip subs2 tv hip heq e he
  · intro attrs ip news hip na hna
    exact merge_attributes_contains news attrs ip hip na hna
  · intro items ip news hip q hq
    exact merge_enums_contains news items ip hip q hq

/-- The base group sub-element of the counterexample, with version tag v. -/
def cex_element (v : Nat) : ElementCollectionItem :=
  .element (Element.mk "F" "AR:T" ElementAmount.one v 0 false
    XsdRestrictToStandard.notSet none)

/-- Counterexample base: the root type refers to group AR:G holding one
element F tagged with version bit 4. -/
def cex_base : AutosarDataTypes :=
  AutosarDataTypes.mk
    [("AR:AUTOSAR", ElementDataType.elements "AR:G" [] ∅)] []
    [("AR:G", ElementCollection.sequence "G" [cex_element 4])]

/-- Counterexample incoming set: the same group holds two sub-elements both
named F, tagged 1 and 2. -/
def cex_incoming : AutosarDataTypes :=
  AutosarDataTypes.mk
    [("AR:AUTOSAR", ElementDataType.elements "AR:G" [] ∅)] []
    [("AR:G", ElementCollection.sequence "G" [cex_element 1, cex_element 2])]

/-- The result the merge produces on the counterexample inputs. -/
def cex_merged : AutosarDataTypes :=
  AutosarDataTypes.mk
    [("AR:AUTOSAR", ElementDataType.elements "AR:G" [] ∅)] []
    [("AR:G", ElementCollection.sequence "G" [cex_element 7])]

/-- Counterexample to C1 as stated: merge succeeds, the base sub-element F
(tag 4) is matched by name with each of the two incoming counterparts
(tags 1 and 2), and its resulting version tag is 7 = 4 OR 1 OR 2 — the
bitwise OR of all three — which differs from the claimed "bitwise OR of the
two input tags" for either counterpart (4 OR 1 = 5, 4 OR 2 = 6). -/
theorem c1_counterexample :
    merge 20 cex_base cex_incoming = some (Except.ok cex_merged) ∧
    alookup cex_base.group_types "AR:G" =
      some (ElementCollection.sequence "G" [cex_element 4]) ∧
    alookup cex_incoming.group_types "AR:G" =
      some (ElementCollection.sequence "G"
        [cex_element 1, cex_element 2]) ∧
    alookup cex_merged.group_types "AR:G" =
      some (ElementCollection.sequence "G" [cex_element 7]) ∧
    cex_element 7 ≠ cex_element (4 ||| 1) ∧
    cex_element 7 ≠ cex_element (4 ||| 2) := by
  refine ⟨by decide, by decide, by decide, by decide, by decide, by decide⟩

/-- Witness for C1: the amended theorem applied at the concrete merge above
and at concrete reconciliation steps. -/
theorem c1_witness :
    (merge 20 cex_base cex_incoming = some (Except.ok cex_merged) ∧
      adt_grows cex_base cex_merged) ∧
    (0 ≤ ([cex_element 4] : List ElementCollectionItem).length ∧
      merge_group_items [] [] [cex_element 4] 0 [cex_element 1] =
        Except.ok ([cex_element 5], [ElemOrGroup.element "AR:T" "AR:T"]) ∧
      ∀ e, ElementCollectionItem.element e ∈ [cex_element 1] →
        ∃ e2, ElementCollectionItem.element e2 ∈ [cex_element 5] ∧
          e2.name = e.name ∧ bits_le e.version_info e2.version_info) ∧
    (∀ na ∈ [Attribute.mk "x" "t" true 1],
      ∃ a ∈ (merge_attributes [Attribute.mk "x" "t" true 4] 0
          [Attribute.mk "x" "t" true 1]).1,
        a.name = na.name ∧ bits_le na.version_info a.version_info) ∧
    (∀ q ∈ [(("L" : String), (1 : Nat))],
      ∃ q2 ∈ merge_enums [("L", 4)] 0 [("L", 1)],
        q2.1 = q.1 ∧ bits_le q.2 q2.2) :=
  ⟨⟨by decide,
      (c1_merge_monotonicity_amended.1 20 cex_base cex_incoming cex_merged
        (by decide)).1⟩,
    ⟨by decide, by decide,
      c1_merge_monotonicity_amended.2.1 [] [] [cex_element 4] 0
        [cex_element 1] [cex_element 5] [ElemOrGroup.element "AR:T" "AR:T"]
        (by decide) (by decide)⟩,
    c1_merge_monotonicity_amended.2.2.1 [Attribute.mk "x" "t" true 4] 0
      [Attribute.mk "x" "t" true 1] (by decide),
    c1_merge_monotonicity_amended.2.2.2 [("L", 4)] 0 [("L", 1)] (by decide)⟩

/-- An incoming sub-element for the C8 scenario, named like the group ref. -/
def c8_elem : ElementCollectionItem :=
  .element (Element.mk "X" "AR:T" ElementAmount.one 1 0 false
    XsdRestrictToStandard.notSet none)

/-- The base sub-item for the C8 scenario: a group reference named X. -/
def c8_gref : ElementCollectionItem := .groupRef "X"

/-- A base type set whose root group holds the group reference X. -/
def c8_base : AutosarDataTypes :=
  AutosarDataTypes.mk
    [("AR:AUTOSAR", ElementDataType.elements "AR:G" [] ∅)] []
    [("AR:G", ElementCollection.sequence "G" [c8_gref])]

/-- An incoming type set whose root group holds an element also named X. -/
def c8_incoming : AutosarDataTypes :=
  AutosarDataTypes.mk
    [("AR:AUTOSAR", ElementDataType.elements "AR:G" [] ∅)] []
    [("AR:G", ElementCollection.sequence "G" [c8_elem])]

/-- C8: when the sub-item match found for an incoming item (same name,
character-data compatible) has a different discriminant — one side an
Element, the other a GroupRef — merge_group_items returns the
incompatible-types Err instead of resolving the mismatch, and that error
propagates unchanged through merge_group_types, through the work-queue
loop, and out of merge. -/
theorem c8_merge_mixed_discriminant_is_error :
    (∀ (ct ct2 : List (String × CharacterDataType))
      (subs : List ElementCollectionItem) (ip : Nat)
      (newelem : ElementCollectionItem) (rest : List ElementCollectionItem)
      (fp : Nat) (cur : ElementCollectionItem),
      find_first (fun e => e.name == newelem.name &&
        element_is_compatible e newelem ct ct2) subs = some (fp, cur) →
      ((∃ e, cur = ElementCollectionItem.element e) ∧
        (∃ g, newelem = ElementCollectionItem.groupRef g)) ∨
      ((∃ g, cur = ElementCollectionItem.groupRef g) ∧
        (∃ e, newelem = ElementCollectionItem.element e)) →
      merge_group_items ct ct2 subs ip (newelem :: rest) =
        Except.error ("Error: merge of incompatible types")) ∧
    (∀ (ct ct2 : List (String × CharacterDataType))
      (ec ec_new : ElementCollection) (msg : String),
      merge_group_items ct ct2 ec.items (short_name_insert_pos ec)
        ec_new.items = Except.error msg →
      merge_group_types ct ct2 ec ec_new = Except.error msg) ∧
    (∀ (input_xsd merged : AutosarDataTypes) (fuel : Nat) (tm ti : String)
      (qrest visited : List ElemOrGroup) (cq : List (String × String))
      (g gn : ElementCollection) (msg : String),
      ElemOrGroup.group tm ti ∉ visited →
      alookup (insert_missing_group input_xsd merged tm ti).group_types tm =
        some g →
      alookup input_xsd.group_types ti = some gn →
      merge_group_types
        (insert_missing_group input_xsd merged tm ti).character_types
        input_xsd.character_types g gn = Except.error msg →
      merge_elem_phase input_xsd (fuel + 1) merged
        (ElemOrGroup.group tm ti :: qrest) visited cq =
        some (Except.error msg)) ∧
    (∀ (fuel : Nat) (base incoming : AutosarDataTypes) (msg : String),
      merge_elem_phase incoming fuel base
        [ElemOrGroup.element "AR:AUTOSAR" "AR:AUTOSAR"] [] [] =
        some (Except.error msg) →
      merge fuel base incoming = some (Except.error msg)) := by
  refine ⟨?_, ?_, ?_, ?_⟩
  · intro ct ct2 subs ip newelem rest fp cur hfind hmix
    rcases hmix with ⟨⟨e, he⟩, ⟨g, hg⟩⟩ | ⟨⟨g, hg⟩, ⟨e, he⟩⟩
    · subst he
      subst hg
      simp only [merge_group_items, hfind]
    · subst hg
      subst he
      simp only [merge_group_items, hfind]
  · intro ct ct2 ec ec_new msg h
    cases ec with
    | choice name subs amount =>
        simp only [ElementCollection.items] at h
        simp only [merge_group_types, ElementCollection.items, h]
        rfl
    | sequence name subs =>
        simp only [ElementCollection.items] at h
        simp only [merge_group_types, ElementCollection.items, h]
        rfl
  · intro input_xsd merged fuel tm ti qrest visited cq g gn msg hnv hg hgn hmg
    simp only [merge_elem_phase]
    rw [if_neg hnv]
    simp only [hg, hgn, hmg]
  · intro fuel base incoming msg h
    simp only [merge, h]

/-- Witness for C8: the mixed match groupRef X versus element X makes each
layer return the incompatible-types error. -/
theorem c8_witness :
    merge_group_items [] [] [c8_gref] 0 [c8_elem] =
      Except.error ("Error: merge of incompatible types") ∧
    merge_group_types [] []
      (ElementCollection.sequence "G" [c8_gref])
      (ElementCollection.sequence "G" [c8_elem]) =
      Except.error ("Error: merge of incompatible types") ∧
    merge_elem_phase c8_incoming 6 c8_base
      [ElemOrGroup.group "AR:G" "AR:G"] [] [] =
      some (Except.error ("Error: merge of incompatible types")) ∧
    merge 20 c8_base c8_incoming =
      some (Except.error ("Error: merge of incompatible types")) :=
  ⟨c8_merge_mixed_discriminant_is_error.1 [] [] [c8_gref] 0 c8_elem [] 0
      c8_gref (by decide) (Or.inr ⟨⟨"X", rfl⟩, ⟨_, rfl⟩⟩),
    c8_merge_mixed_discriminant_is_error.2.1 [] []
      (ElementCollection.sequence "G" [c8_gref])
      (ElementCollection.sequence "G" [c8_elem]) _ (by decide),
    c8_merge_mixed_discriminant_is_error.2.2.1 c8_incoming c8_base 5
      "AR:G" "AR:G" [] [] [] (ElementCollection.sequence "G" [c8_gref])
      (ElementCollection.sequence "G" [c8_elem]) _ (by decide) (by decide)
      (by decide) (by decide),
    c8_merge_mixed_discriminant_is_error.2.2.2 20 c8_base c8_incoming _
      (by decide)⟩

/-- C4: the multiplicity join combine_amounts is commutative, associative and
idempotent, satisfies combine_amounts One x = x for x in the set
containing One and ZeroOrOne, and Any is absorbing on both sides. -/
theorem c4_combine_amounts_algebra :
    (∀ a b : ElementAmount, combine_amounts a b = combine_amounts b a) ∧
    (∀ a b c : ElementAmount,
      combine_amounts (combine_amounts a b) c =
        combine_amounts a (combine_amounts b c)) ∧
    (∀ a : ElementAmount, combine_amounts a a = a) ∧
    (combine_amounts .one .one = .one ∧
      combine_amounts .one .zeroOrOne = .zeroOrOne) ∧
    (∀ x : ElementAmount,
      combine_amounts .any x = .any ∧ combine_amounts x .any = .any) := by
  refine ⟨?_, ?_, ?_, ⟨rfl, rfl⟩, ?_⟩ <;> decide

/-- C7: a Choice whose multiplicity works out to Any and whose single item
is a group reference to a Sequence of two elements flattens to a Choice
holding those two elements directly, in order, with no nested sequence and
no synthetic group reference. -/
theorem c7_flatten_choice_splices_any_sequence :
    ∀ (data : Xsd) (fuel min_occurs max_occurs : Nat) (gref : String)
      (e1 e2 : XsdElement),
      occurs_to_amount min_occurs max_occurs = ElementAmount.any →
      alookup data.groups gref = some (XsdGroup.mk (XsdGroupItem.sequence
        (XsdSequence.mk [XsdModelGroupItem.element e1,
          XsdModelGroupItem.element e2]))) →
      flatten_choice data (fuel + 6)
        (XsdChoice.mk min_occurs max_occurs [XsdModelGroupItem.group gref]) =
        some (Except.ok (ElementCollection.choice ""
          [ElementCollectionItem.element (Element.new e1 data.version_info),
           ElementCollectionItem.element (Element.new e2 data.version_info)]
          ElementAmount.any)) := by
  intro data fuel m M gref e1 e2 hamt hg
  simp only [flatten_choice, XsdChoice.items, XsdChoice.min_occurs,
    XsdChoice.max_occurs, hamt, flatten_choice_items, hg, flatten_group,
    flatten_sequence, flatten_seq_collect, flatten_seq_combine,
    flatten_seq_step, List.filter, List.zip, List.zipWith, List.isEmpty,
    ElementCollection.items, List.length, List.nil_append, List.cons_append,
    beq_self_eq_true, if_true, Bool.not_false, Bool.not_true]

/-- The first C7 example element. -/
def c7_e1 : XsdElement :=
  XsdElement.mk "E1" "AR:T1" 1 1 false false XsdRestrictToStandard.notSet none

/-- The second C7 example element. -/
def c7_e2 : XsdElement :=
  XsdElement.mk "E2" "AR:T2" 1 1 false false XsdRestrictToStandard.notSet none

/-- A schema holding one group AR:SEQ with a two-element sequence. -/
def c7_data : Xsd :=
  Xsd.mk [] [("AR:SEQ", XsdGroup.mk (XsdGroupItem.sequence (XsdSequence.mk
    [XsdModelGroupItem.element c7_e1, XsdModelGroupItem.element c7_e2])))]
    [] [] 4

/-- Witness for C7: the splice on a concrete schema. -/
theorem c7_witness :
    occurs_to_amount 0 2 = ElementAmount.any ∧
    alookup c7_data.groups "AR:SEQ" = some (XsdGroup.mk
      (XsdGroupItem.sequence (XsdSequence.mk [XsdModelGroupItem.element c7_e1,
        XsdModelGroupItem.element c7_e2]))) ∧
    flatten_choice c7_data 6
      (XsdChoice.mk 0 2 [XsdModelGroupItem.group "AR:SEQ"]) =
      some (Except.ok (ElementCollection.choice ""
        [ElementCollectionItem.element (Element.new c7_e1 4),
         ElementCollectionItem.element (Element.new c7_e2 4)]
        ElementAmount.any)) :=
  ⟨by decide, rfl,
    c7_flatten_choice_splices_any_sequence c7_data 0 0 2 "AR:SEQ" c7_e1 c7_e2
      (by decide) rfl⟩

/-- C9 (amended): when flatten_schema succeeds, any AR:AUTOSAR entry of the
result with the Elements discriminant ends with the three injected
attributes xmlns, xmlns:xsi and xsi:schemaLocation, each of type
xsd:string, required, tagged with the version; without such an entry (the
root need not be named AR:AUTOSAR or be an Elements type) nothing is
injected, so the original claim fails (see the counterexample). -/
theorem c9_root_attr_injection_amended :
    ∀ (data : Xsd) (fuel : Nat) (s : AutosarDataTypes),
      flatten_schema data fuel = some (Except.ok s) →
      ∀ gr attrs xtn,
        alookup s.element_types "AR:AUTOSAR" =
          some (ElementDataType.elements gr attrs xtn) →
        ∃ attrs0,
          attrs = attrs0 ++ injected_attrs data.version_info := by
  intro data fuel s h gr attrs xtn hlook
  unfold flatten_schema at h
  by_cases hroot : (data.root_elements.length != 1) = true
  · rw [if_pos hroot] at h
    cases h
  · rw [if_neg hroot] at h
    rcases hl : flatten_loop data fuel AutosarDataTypes.new
        ((data.root_elements.map
          (fun e => WorkQueueItem.elementType e.typeref)).reverse) with _ | res
    · rw [hl] at h
      cases h
    · rw [hl] at h
      cases res with
      | error e => cases h
      | ok schema =>
          injection h with h1
          injection h1 with h2
          subst h2
          rcases hpre : alookup schema.element_types "AR:AUTOSAR" with _ | et
          · simp only [inject_root_attrs, hpre] at hlook
            cases hlook
          · cases et with
            | elements gr0 attrs0 xtn0 =>
                simp only [inject_root_attrs, hpre] at hlook
                rw [alookup_ainsert_self] at hlook
                injection hlook with h3
                injection h3 with hgr hattrs hxtn
                exact ⟨attrs0, hattrs.symm⟩
            | characters a b =>
                simp only [inject_root_attrs, hpre] at hlook
                injection hlook with h3
                cases h3
            | mixed a b c =>
                simp only [inject_root_attrs, hpre] at hlook
                injection hlook with h3
                cases h3

/-- A schema whose unique root is a plain literal simple type named
AR:ROOT: no AR:AUTOSAR entry ever exists, so nothing is injected. -/
def c9_data : Xsd :=
  Xsd.mk [XsdElement.mk "ROOT" "AR:ROOT" 1 1 false false
    XsdRestrictToStandard.notSet none]
    [] [("AR:ROOT", XsdType.simple (XsdSimpleType.restriction
      XsdRestriction.literal))] [] 4

/-- What flatten_schema produces on c9_data. -/
def c9_result : AutosarDataTypes :=
  AutosarDataTypes.mk
    [("AR:ROOT", ElementDataType.characters [] "AR:ROOT")]
    (AutosarDataTypes.new.character_types ++
      [("AR:ROOT", CharacterDataType.string none true)])
    []

/-- Counterexample to C9 as stated: flatten_schema succeeds on a grammar
with one root element, yet the generated type of that unique root is a
Characters type with an empty attribute list — it carries none of the
three injected attributes, which only ever land on an AR:AUTOSAR Elements
entry. -/
theorem c9_counterexample :
    c9_data.root_elements.length = 1 ∧
    flatten_schema c9_data 10 = some (Except.ok c9_result) ∧
    alookup c9_result.element_types "AR:ROOT" =
      some (ElementDataType.characters [] "AR:ROOT") ∧
    alookup c9_result.element_types "AR:AUTOSAR" = none ∧
    (ElementDataType.characters [] "AR:ROOT").attributes = [] := by
  refine ⟨by decide, by decide, by decide, by decide, rfl⟩

/-- A schema whose root complex type AR:AUTOSAR refers to an empty choice
group, producing an AR:AUTOSAR Elements entry. -/
def c9w_data : Xsd :=
  Xsd.mk [XsdElement.mk "AUTOSAR" "AR:AUTOSAR" 1 1 false false
    XsdRestrictToStandard.notSet none]
    [("AR:G", XsdGroup.mk (XsdGroupItem.choice (XsdChoice.mk 1 1 [])))]
    [("AR:AUTOSAR", XsdType.complex (XsdComplexType.mk "AR:AUTOSAR"
      (XsdComplexTypeItem.group "AR:G") [] false none none))]
    [] 4

/-- What flatten_schema produces on c9w_data: the injected attributes are
appended to the (here empty) attribute list of AR:AUTOSAR. -/
def c9w_result : AutosarDataTypes :=
  AutosarDataTypes.mk
    [("AR:AUTOSAR", ElementDataType.elements "AR:G" (injected_attrs 4) ∅)]
    AutosarDataTypes.new.character_types
    [("AR:G", ElementCollection.choice "" [] ElementAmount.one)]

/-- Witness for C9: the amended theorem applied to a concrete schema whose
AR:AUTOSAR entry receives the three injected attributes. -/
theorem c9_witness :
    flatten_schema c9w_data 10 = some (Except.ok c9w_result) ∧
    alookup c9w_result.element_types "AR:AUTOSAR" =
      some (ElementDataType.elements "AR:G" (injected_attrs 4) ∅) ∧
    ∃ attrs0, injected_attrs 4 =
      attrs0 ++ injected_attrs c9w_data.version_info :=
  ⟨by decide, by decide,
    c9_root_attr_injection_amended c9w_data 10 c9w_result (by decide)
      "AR:G" (injected_attrs 4) ∅ (by decide)⟩

/-! ## generator/perfect_hash.rs -/

/-- The byte view of a string used by hashfunc; characters stand in for
bytes (they coincide on the ASCII schema names the tool hashes). -/
def str_bytes (s : String) : List Nat := s.toList.map Char.toNat

/-- perfect_hash.rs hashfunc: a wrapping fold acc * param + byte on u64. -/
def hashfunc (data : List Nat) (param : Nat) : Nat :=
  data.foldl (fun acc val => (acc * param + val) % (2 ^ 64)) 100

/-- Byte-order comparison, as Vec::sort compares &str values. -/
def bytes_le : List Nat → List Nat → Bool
  | [], _ => true
  | _ :: _, [] => false
  | a :: as, b :: bs =>
      if a < b then true
      else if b < a then false
      else bytes_le as bs

/-- The string order used to sort the input for the target ids. -/
def str_le (a b : String) : Prop :=
  bytes_le (str_bytes a) (str_bytes b) = true

instance : DecidableRel str_le := by
  unfold str_le
  infer_instance

/-- HashSet::insert on a duplicate-free list. -/
def set_insert (s : String) (l : List String) : List String :=
  if s ∈ l then l else l ++ [s]

/-- HashSet::remove. -/
def set_remove (s : String) (l : List String) : List String :=
  l.filter (fun x => x ≠ s)

/-- HashSet::intersection. -/
def set_inter (l1 l2 : List String) : List String :=
  l1.filter (fun x => x ∈ l2)

/-- Point update of a bucket map. -/
def fupdate (f : Nat → List String) (i : Nat) (v : List String) :
    Nat → List String :=
  fun j => if j = i then v else f j

/-- The bucket-filling loop of make_perfect_hash: hash every input string
into both bucket maps and fail unless the two buckets of each string share
exactly one element. -/
def phase_a (param1 param2 hashlen : Nat) :
    List String → (Nat → List String) → (Nat → List String) →
      Except String ((Nat → List String) × (Nat → List String))
  | [], b1, b2 => Except.ok (b1, b2)
  | s :: rest, b1, b2 =>
      if (set_inter
            (set_insert s (b1 (hashfunc (str_bytes s) param1 % hashlen)))
            (set_insert s (b2 (hashfunc (str_bytes s) param2 % hashlen)))
          ).length != 1 then
        Except.error ("|set1 - set2 intersection| > 1")
      else
        phase_a param1 param2 hashlen rest
          (fupdate b1 (hashfunc (str_bytes s) param1 % hashlen)
            (set_insert s (b1 (hashfunc (str_bytes s) param1 % hashlen))))
          (fupdate b2 (hashfunc (str_bytes s) param2 % hashlen)
            (set_insert s (b2 (hashfunc (str_bytes s) param2 % hashlen))))

/-- The i32 subtraction, wrap adjustment by datalen, and u16 cast used when
one slot of the pair is already fixed. -/
def tab_adjust (datalen target other : Nat) : Nat :=
  (((if (target : Int) - (other : Int) < 0 then
      (target : Int) - (other : Int) + (datalen : Int)
    else (target : Int) - (other : Int)) % 65536)).toNat

/-- The table assignment for one key: both slots set is the fatal error,
one slot set fixes the other so the sum is the target, no slot set stores
(target, 0); u16::MAX = 65535 marks an unset slot. -/
def assign_tables (datalen target t1v t2v h1 h2 : Nat)
    (table1 table2 : List Nat) : Except String (List Nat × List Nat) :=
  if t1v != 65535 && t2v != 65535 then
    Except.error ("Error: badly chosen has function parameters")
  else if t1v != 65535 then
    Except.ok (table1, table2.set h2 (tab_adjust datalen target t1v))
  else if t2v != 65535 then
    Except.ok (table1.set h1 (tab_adjust datalen target t2v), table2)
  else
    Except.ok (table1.set h1 target, table2.set h2 0)

/-- The hypergraph-peeling loop of make_perfect_hash.  The working set and
the unassigned set are duplicate-free lists whose head stands for the
arbitrary element a HashSet iterator yields; an out-of-range table index
(hashlen = 0) and a missing target id are the index/unwrap panics, and
fuel exhaustion is none. -/
def peel (param1 param2 hashlen datalen : Nat) (sorted : List String) :
    Nat → (Nat → List String) → (Nat → List String) →
      List Nat → List Nat → List String → List String →
      Option (Except String (List Nat × List Nat))
  | 0, _, _, _, _, _, _ => none
  | fuel + 1, b1, b2, table1, table2, unassigned, [] =>
      match unassigned with
      | [] => some (Except.ok (table1, table2))
      | key :: urest =>
          peel param1 param2 hashlen datalen sorted fuel b1 b2 table1 table2
            urest [key]
  | fuel + 1, b1, b2, table1, table2, unassigned, key :: wrest =>
      if (hashfunc (str_bytes key) param1 % hashlen < table1.length &&
          hashfunc (str_bytes key) param2 % hashlen < table2.length) =
          false then
        none
      else
        match List.indexOf? key sorted with
        | none => none
        | some idx =>
            match assign_tables datalen (idx % 65536)
                (table1.getD (hashfunc (str_bytes key) param1 % hashlen) 0)
                (table2.getD (hashfunc (str_bytes key) param2 % hashlen) 0)
                (hashfunc (str_bytes key) param1 % hashlen)
                (hashfunc (str_bytes key) param2 % hashlen)
                table1 table2 with
            | .error e => some (.error e)
            | .ok (nt1, nt2) =>
                peel param1 param2 hashlen datalen sorted fuel
                  (fupdate b1 (hashfunc (str_bytes key) param1 % hashlen)
                    (set_remove key
                      (b1 (hashfunc (str_bytes key) param1 % hashlen))))
                  (fupdate b2 (hashfunc (str_bytes key) param2 % hashlen)
                    (set_remove key
                      (b2 (hashfunc (str_bytes key) param2 % hashlen))))
                  nt1 nt2 (set_remove key unassigned)
                  ((set_remove key
                      (b2 (hashfunc (str_bytes key) param2 % hashlen))).foldl
                    (fun w s => set_insert s w)
                    ((set_remove key
                        (b1 (hashfunc (str_bytes key) param1 % hashlen))).foldl
                      (fun w s => set_insert s w) wrest))

/-- perfect_hash.rs make_perfect_hash: fill the buckets, seed the tables
with u16::MAX, sort the input for the target ids, and peel. -/
def make_perfect_hash (input_strings : List String)
    (param1 param2 hashlen fuel : Nat) :
    Option (Except String (List Nat × List Nat)) :=
  match phase_a param1 param2 hashlen input_strings
      (fun _ => []) (fun _ => []) with
  | .error e => some (.error e)
  | .ok (b1, b2) =>
      peel param1 param2 hashlen input_strings.length
        (input_strings.insertionSort str_le) fuel b1 b2
        (List.replicate hashlen 65535) (List.replicate hashlen 65535)
        input_strings []

/-- The lookup the generated code performs against the two tables. -/
def ph_lookup (param1 param2 hashlen n : Nat) (table1 table2 : List Nat)
    (s : String) : Nat :=
  (table1.getD (hashfunc (str_bytes s) param1 % hashlen) 0 +
    table2.getD (hashfunc (str_bytes s) param2 % hashlen) 0) % n

/-- A key is settled when both of its slots are filled and their sum is its
sorted index modulo the data length. -/
def slot_ok (param1 param2 hashlen n : Nat) (sorted : List String)
    (table1 table2 : List Nat) (s : String) : Prop :=
  table1.getD (hashfunc (str_bytes s) param1 % hashlen) 0 ≠ 65535 ∧
  table2.getD (hashfunc (str_bytes s) param2 % hashlen) 0 ≠ 65535 ∧
  (table1.getD (hashfunc (str_bytes s) param1 % hashlen) 0 +
    table2.getD (hashfunc (str_bytes s) param2 % hashlen) 0) % n =
    List.indexOf s sorted

/-! ### Set, table and index lemmas for the peeling proof -/

theorem set_insert_mem {a x : String} {l : List String} :
    a ∈ set_insert x l ↔ a = x ∨ a ∈ l := by
  unfold set_insert
  by_cases hx : x ∈ l
  · rw [if_pos hx]
    constructor
    · intro h
      exact Or.inr h
    · intro h
      rcases h with h | h
      · rw [h]
        exact hx
      · exact h
  · rw [if_neg hx]
    rw [List.mem_append, List.mem_singleton]
    constructor
    · intro h
      rcases h with h | h
      · exact Or.inr h
      · exact Or.inl h
    · intro h
      rcases h with h | h
      · exact Or.inr h
      · exact Or.inl h

theorem set_remove_mem {a x : String} {l : List String} :
    a ∈ set_remove x l ↔ a ∈ l ∧ a ≠ x := by
  unfold set_remove
  rw [List.mem_filter]
  constructor
  · intro ⟨h1, h2⟩
    exact ⟨h1, by simpa using h2⟩
  · intro ⟨h1, h2⟩
    exact ⟨h1, by simpa using h2⟩

theorem foldl_set_insert_mem {a : String} :
    ∀ {l w0 : List String},
      a ∈ l.foldl (fun w s => set_insert s w) w0 ↔ a ∈ w0 ∨ a ∈ l := by
  intro l
  induction l with
  | nil => intro w0; simp [List.foldl]
  | cons hd tl ih =>
      intro w0
      rw [List.foldl_cons, ih]
      rw [set_insert_mem]
      constructor
      · intro h
        rcases h with (h | h) | h
        · rw [h]
          exact Or.inr (List.mem_cons_self hd tl)
        · exact Or.inl h
        · exact Or.inr (List.mem_cons_of_mem hd h)
      · intro h
        rcases h with h | h
        · exact Or.inl (Or.inr h)
        · rcases List.mem_cons.mp h with h | h
          · exact Or.inl (Or.inl h)
          · exact Or.inr h

theorem getd_set_self {l : List Nat} {i v : Nat} (h : i < l.length) :
    (l.set i v).getD i 0 = v := by
  rw [List.getD_eq_getElem?_getD, List.getElem?_set_self h]
  rfl

theorem getd_set_ne {l : List Nat} {i j v : Nat} (h : i ≠ j) :
    (l.set i v).getD j 0 = l.getD j 0 := by
  rw [List.getD_eq_getElem?_getD, List.getElem?_set_ne h,
    ← List.getD_eq_getElem?_getD]

theorem getd_replicate {n i v : Nat} (h : i < n) :
    (List.replicate n v).getD i 0 = v := by
  rw [List.getD_eq_getElem?_getD, List.getElem?_replicate, if_pos h]
  rfl

theorem indexOf_opt_of_mem {s : String} :
    ∀ {l : List String}, s ∈ l →
      List.indexOf? s l = some (List.indexOf s l) := by
  intro l h
  induction l with
  | nil => cases h
  | cons hd tl ih =>
      by_cases he : hd = s
      · subst he
        simp [List.indexOf?_cons, List.indexOf_cons]
      · have hne : (hd == s) = false := beq_false_of_ne he
        have hm : s ∈ tl := by
          rcases List.mem_cons.mp h with h1 | h1
          · exact absurd h1.symm he
          · exact h1
        simp [List.indexOf?_cons, List.indexOf_cons, hne, ih hm]

theorem indexOf_lt_of_mem {s : String} :
    ∀ {l : List String}, s ∈ l → List.indexOf s l < l.length := by
  intro l h
  induction l with
  | nil => cases h
  | cons hd tl ih =>
      by_cases he : hd = s
      · subst he
        simp [List.indexOf_cons]
      · have hne : (hd == s) = false := beq_false_of_ne he
        have hm : s ∈ tl := by
          rcases List.mem_cons.mp h with h1 | h1
          · exact absurd h1.symm he
          · exact h1
        simp only [List.indexOf_cons, hne, cond_false, List.length_cons]
        exact Nat.succ_lt_succ (ih hm)

theorem getd_indexOf {s : String} :
    ∀ {l : List String}, s ∈ l →
      l.getD (List.indexOf s l) "" = s := by
  intro l h
  induction l with
  | nil => cases h
  | cons hd tl ih =>
      by_cases he : hd = s
      · subst he
        simp [List.indexOf_cons]
      · have hne : (hd == s) = false := beq_false_of_ne he
        have hm : s ∈ tl := by
          rcases List.mem_cons.mp h with h1 | h1
          · exact absurd h1.symm he
          · exact h1
        simp only [List.indexOf_cons, hne, cond_false]
        rw [show ((hd :: tl).getD (List.indexOf s tl + 1) "") =
          (tl.getD (List.indexOf s tl) "") from rfl]
        exact ih hm

theorem tab_adjust_spec {datalen target other : Nat}
    (hd : datalen ≤ 65535) (ht : target < datalen) (ho : other < datalen) :
    tab_adjust datalen target other < datalen ∧
    (other + tab_adjust datalen target other) % datalen = target := by
  unfold tab_adjust
  by_cases hlt : (target : Int) - (other : Int) < 0
  · rw [if_pos hlt]
    have h0 : (0 : Int) ≤ (target : Int) - (other : Int) + (datalen : Int) :=
      by omega
    have h1 : (target : Int) - (other : Int) + (datalen : Int) < 65536 :=
      by omega
    rw [Int.emod_eq_of_lt h0 h1]
    have hw : ((target : Int) - (other : Int) + (datalen : Int)).toNat =
        target + datalen - other := by omega
    rw [hw]
    have hsum : other + (target + datalen - other) = target + datalen :=
      by omega
    refine ⟨by omega, ?_⟩
    rw [hsum, Nat.add_mod_right, Nat.mod_eq_of_lt ht]
  · rw [if_neg hlt]
    have h0 : (0 : Int) ≤ (target : Int) - (other : Int) := by omega
    have h1 : (target : Int) - (other : Int) < 65536 := by omega
    rw [Int.emod_eq_of_lt h0 h1]
    have hw : ((target : Int) - (other : Int)).toNat = target - other :=
      by omega
    rw [hw]
    have hsum : other + (target - other) = target := by omega
    refine ⟨by omega, ?_⟩
    rw [hsum, Nat.mod_eq_of_lt ht]

theorem phase_a_sub (param1 param2 hashlen : Nat) (keys : List String) :
    ∀ (ss : List String) (b1 b2 c1 c2 : Nat → List String),
      phase_a param1 param2 hashlen ss b1 b2 = Except.ok (c1, c2) →
      (∀ s ∈ ss, s ∈ keys) →
      (∀ i a, a ∈ b1 i → a ∈ keys) → (∀ i a, a ∈ b2 i → a ∈ keys) →
      (∀ i a, a ∈ c1 i → a ∈ keys) ∧ (∀ i a, a ∈ c2 i → a ∈ keys) := by
  intro ss
  induction ss with
  | nil =>
      intro b1 b2 c1 c2 h hss h1 h2
      cases h
      exact ⟨h1, h2⟩
  | cons s rest ih =>
      intro b1 b2 c1 c2 h hss h1 h2
      rw [phase_a] at h
      by_cases hc : ((set_inter
          (set_insert s (b1 (hashfunc (str_bytes s) param1 % hashlen)))
          (set_insert s (b2 (hashfunc (str_bytes s) param2 % hashlen)))
        ).length != 1) = true
      · rw [if_pos hc] at h
        cases h
      · rw [if_neg hc] at h
        refine ih _ _ _ _ h (fun x hx => hss x (List.mem_cons_of_mem s hx))
          ?_ ?_
        · intro i a ha
          unfold fupdate at ha
          by_cases hi : i = hashfunc (str_bytes s) param1 % hashlen
          · rw [if_pos hi] at ha
            rcases set_insert_mem.mp ha with hh | hh
            · rw [hh]
              exact hss s (List.mem_cons_self s rest)
            · exact h1 _ _ hh
          · rw [if_neg hi] at ha
            exact h1 _ _ ha
        · intro i a ha
          unfold fupdate at ha
          by_cases hi : i = hashfunc (str_bytes s) param2 % hashlen
          · rw [if_pos hi] at ha
            rcases set_insert_mem.mp ha with hh | hh
            · rw [hh]
              exact hss s (List.mem_cons_self s rest)
            · exact h2 _ _ hh
          · rw [if_neg hi] at ha
            exact h2 _ _ ha

/-- A write into an unset slot of table1 settles no previously settled key
differently. -/
theorem slot_ok_set1 {param1 param2 hashlen n : Nat} {sorted : List String}
    {table1 table2 : List Nat} {s : String} {h1 w : Nat}
    (hmax : table1.getD h1 0 = 65535)
    (hok : slot_ok param1 param2 hashlen n sorted table1 table2 s) :
    slot_ok param1 param2 hashlen n sorted (table1.set h1 w) table2 s := by
  obtain ⟨ha, hb, hc⟩ := hok
  have hne : h1 ≠ hashfunc (str_bytes s) param1 % hashlen := by
    intro heq
    rw [heq] at hmax
    exact ha hmax
  refine ⟨?_, hb, ?_⟩
  · rw [getd_set_ne hne]
    exact ha
  · rw [getd_set_ne hne]
    exact hc

/-- The table2 version of slot_ok_set1. -/
theorem slot_ok_set2 {param1 param2 hashlen n : Nat} {sorted : List String}
    {table1 table2 : List Nat} {s : String} {h2 w : Nat}
    (hmax : table2.getD h2 0 = 65535)
    (hok : slot_ok param1 param2 hashlen n sorted table1 table2 s) :
    slot_ok param1 param2 hashlen n sorted table1 (table2.set h2 w) s := by
  obtain ⟨ha, hb, hc⟩ := hok
  have hne : h2 ≠ hashfunc (str_bytes s) param2 % hashlen := by
    intro heq
    rw [heq] at hmax
    exact hb hmax
  refine ⟨ha, ?_, ?_⟩
  · rw [getd_set_ne hne]
    exact hb
  · rw [getd_set_ne hne]
    exact hc

/-- The peeling loop invariant: every key is either settled or still
pending in the unassigned or working set; writes only ever fill
u16::MAX slots, so settled keys stay settled, and each processed key
becomes settled because the adjusted value makes its pair sum to its
target index. -/
theorem peel_correct (param1 param2 hashlen : Nat) (keys sorted : List String)
    (hb : keys.length ≤ 65535)
    (hts : ∀ s ∈ keys, List.indexOf? s sorted =
      some (List.indexOf s sorted) ∧
      List.indexOf s sorted < keys.length) :
    ∀ (fuel : Nat) (b1 b2 : Nat → List String) (table1 table2 : List Nat)
      (unassigned working : List String) (t1 t2 : List Nat),
      peel param1 param2 hashlen keys.length sorted fuel b1 b2 table1 table2
        unassigned working = some (Except.ok (t1, t2)) →
      table1.length = hashlen → table2.length = hashlen →
      (∀ i, i < hashlen →
        table1.getD i 0 = 65535 ∨ table1.getD i 0 < keys.length) →
      (∀ i, i < hashlen →
        table2.getD i 0 = 65535 ∨ table2.getD i 0 < keys.length) →
      (∀ i a, a ∈ b1 i → a ∈ keys) → (∀ i a, a ∈ b2 i → a ∈ keys) →
      (∀ s ∈ unassigned, s ∈ keys) → (∀ s ∈ working, s ∈ keys) →
      (∀ s ∈ keys,
        slot_ok param1 param2 hashlen keys.length sorted table1 table2 s ∨
        s ∈ unassigned ∨ s ∈ working) →
      ∀ s ∈ keys,
        slot_ok param1 param2 hashlen keys.length sorted t1 t2 s := by
  intro fuel
  induction fuel with
  | zero =>
      intro b1 b2 table1 table2 unassigned working t1 t2 h
      cases h
  | succ fuel ih =>
      intro b1 b2 table1 table2 unassigned working t1 t2 h hl1 hl2 hr1 hr2
        hbk1 hbk2 hun hwk hpend
      cases working with
      | nil =>
          cases unassigned with
          | nil =>
              simp only [peel] at h
              injection h with h1
              injection h1 with h2
              injection h2 with he1 he2
              subst he1
              subst he2
              intro s hs
              rcases hpend s hs with hok | hh | hh
              · exact hok
              · cases hh
              · cases hh
          | cons key urest =>
              simp only [peel] at h
              refine ih b1 b2 table1 table2 urest [key] t1 t2 h hl1 hl2 hr1
                hr2 hbk1 hbk2 ?_ ?_ ?_
              · intro x hx
                exact hun x (List.mem_cons_of_mem key hx)
              · intro x hx
                rw [List.mem_singleton] at hx
                rw [hx]
                exact hun key (List.mem_cons_self key urest)
              · intro s hs
                rcases hpend s hs with hok | hh | hh
                · exact Or.inl hok
                · rcases List.mem_cons.mp hh with hh1 | hh1
                  · refine Or.inr (Or.inr ?_)
                    rw [hh1]
                    exact List.mem_singleton.mpr rfl
                  · exact Or.inr (Or.inl hh1)
                · cases hh
      | cons key wrest =>
          simp only [peel] at h
          by_cases hbc : ((decide (hashfunc (str_bytes key) param1 % hashlen <
              table1.length) && decide (hashfunc (str_bytes key) param2 %
              hashlen < table2.length)) = false)
          · rw [if_pos hbc] at h
            cases h
          · rw [if_neg hbc] at h
            have hbc2 : (decide (hashfunc (str_bytes key) param1 % hashlen <
                table1.length) && decide (hashfunc (str_bytes key) param2 %
                hashlen < table2.length)) = true := by
              cases hcc : (decide (hashfunc (str_bytes key) param1 % hashlen <
                  table1.length) && decide (hashfunc (str_bytes key) param2 %
                  hashlen < table2.length)) with
              | false => exact absurd hcc hbc
              | true => rfl
            rw [Bool.and_eq_true, decide_eq_true_iff, decide_eq_true_iff]
              at hbc2
            obtain ⟨hlt1, hlt2⟩ := hbc2
            have hkey : key ∈ keys := hwk key (List.mem_cons_self key wrest)
            obtain ⟨hio, hilt⟩ := hts key hkey
            have hnpos : 0 < keys.length := by omega
            rw [hio] at h
            dsimp only at h
            have hmod : List.indexOf key sorted % 65536 =
                List.indexOf key sorted := Nat.mod_eq_of_lt (by omega)
            rw [hmod] at h
            rcases hassign : assign_tables keys.length
                (List.indexOf key sorted)
                (table1.getD (hashfunc (str_bytes key) param1 % hashlen) 0)
                (table2.getD (hashfunc (str_bytes key) param2 % hashlen) 0)
                (hashfunc (str_bytes key) param1 % hashlen)
                (hashfunc (str_bytes key) param2 % hashlen)
                table1 table2 with e | ⟨nt1, nt2⟩
            · rw [hassign] at h
              cases h
            · rw [hassign] at h
              dsimp only at h
              unfold assign_tables at hassign
              by_cases hc1 : ((table1.getD (hashfunc (str_bytes key) param1 %
                  hashlen) 0 != 65535) && (table2.getD (hashfunc
                  (str_bytes key) param2 % hashlen) 0 != 65535)) = true
              · rw [if_pos hc1] at hassign
                cases hassign
              · rw [if_neg hc1] at hassign
                by_cases hc2 : (table1.getD (hashfunc (str_bytes key) param1 %
                    hashlen) 0 != 65535) = true
                · rw [if_pos hc2] at hassign
                  have ht1v : table1.getD (hashfunc (str_bytes key) param1 %
                      hashlen) 0 ≠ 65535 := bne_iff_ne.mp hc2
                  have ht2v : table2.getD (hashfunc (str_bytes key) param2 %
                      hashlen) 0 = 65535 := by
                    by_contra hne
                    exact hc1 (by
                      rw [Bool.and_eq_true]
                      exact ⟨hc2, bne_iff_ne.mpr hne⟩)
                  have ht1vlt : table1.getD (hashfunc (str_bytes key) param1 %
                      hashlen) 0 < keys.length := by
                    rcases hr1 _ (hl1 ▸ hlt1) with hmx | hlt
                    · exact absurd hmx ht1v
                    · exact hlt
                  obtain ⟨hwlt, hwsum⟩ := tab_adjust_spec hb hilt ht1vlt
                  injection hassign with hpair
                  injection hpair with hp1 hp2
                  subst hp1
                  subst hp2
                  refine ih _ _ _ _ _ _ t1 t2 h hl1
                    (by rw [List.length_set]; exact hl2) hr1 ?_ ?_ ?_ ?_ ?_ ?_
                  · intro i hi
                    by_cases hieq : i = hashfunc (str_bytes key) param2 %
                        hashlen
                    · rw [hieq, getd_set_self (hl2 ▸ hlt2)]
                      exact Or.inr hwlt
                    · rw [getd_set_ne (fun hx => hieq hx.symm)]
                      exact hr2 i hi
                  · intro i a ha
                    unfold fupdate at ha
                    by_cases hieq : i = hashfunc (str_bytes key) param1 %
                        hashlen
                    · rw [if_pos hieq] at ha
                      exact hbk1 _ _ (set_remove_mem.mp ha).1
                    · rw [if_neg hieq] at ha
                      exact hbk1 _ _ ha
                  · intro i a ha
                    unfold fupdate at ha
                    by_cases hieq : i = hashfunc (str_bytes key) param2 %
                        hashlen
                    · rw [if_pos hieq] at ha
                      exact hbk2 _ _ (set_remove_mem.mp ha).1
                    · rw [if_neg hieq] at ha
                      exact hbk2 _ _ ha
                  · intro x hx
                    exact hun x (set_remove_mem.mp hx).1
                  · intro x hx
                    rcases foldl_set_insert_mem.mp hx with hx1 | hx1
                    · rcases foldl_set_insert_mem.mp hx1 with hx2 | hx2
                      · exact hwk x (List.mem_cons_of_mem key hx2)
                      · exact hbk1 _ _ (set_remove_mem.mp hx2).1
                    · exact hbk2 _ _ (set_remove_mem.mp hx1).1
                  · intro s hs
                    by_cases hse : s = key
                    · subst hse
                      refine Or.inl ⟨ht1v, ?_, ?_⟩
                      · rw [getd_set_self (hl2 ▸ hlt2)]
                        omega
                      · rw [getd_set_self (hl2 ▸ hlt2)]
                        exact hwsum
                    · rcases hpend s hs with hok | hh | hh
                      · exact Or.inl (slot_ok_set2 ht2v hok)
                      · exact Or.inr (Or.inl (set_remove_mem.mpr ⟨hh, hse⟩))
                      · rcases List.mem_cons.mp hh with hh1 | hh1
                        · exact absurd hh1 hse
                        · exact Or.inr (Or.inr (foldl_set_insert_mem.mpr
                            (Or.inl (foldl_set_insert_mem.mpr
                              (Or.inl hh1)))))
                · rw [if_neg hc2] at hassign
                  have ht1v : table1.getD (hashfunc (str_bytes key) param1 %
                      hashlen) 0 = 65535 := by
                    by_contra hne
                    exact hc2 (bne_iff_ne.mpr hne)
                  by_cases hc3 : (table2.getD (hashfunc (str_bytes key)
                      param2 % hashlen) 0 != 65535) = true
                  · rw [if_pos hc3] at hassign
                    have ht2v : table2.getD (hashfunc (str_bytes key) param2 %
                        hashlen) 0 ≠ 65535 := bne_iff_ne.mp hc3
                    have ht2vlt : table2.getD (hashfunc (str_bytes key)
                        param2 % hashlen) 0 < keys.length := by
                      rcases hr2 _ (hl2 ▸ hlt2) with hmx | hlt
                      · exact absurd hmx ht2v
                      · exact hlt
                    obtain ⟨hwlt, hwsum⟩ := tab_adjust_spec hb hilt ht2vlt
                    injection hassign with hpair
                    injection hpair with hp1 hp2
                    subst hp1
                    subst hp2
                    refine ih _ _ _ _ _ _ t1 t2 h
                      (by rw [List.length_set]; exact hl1) hl2 ?_ hr2 ?_ ?_
                      ?_ ?_ ?_
                    · intro i hi
                      by_cases hieq : i = hashfunc (str_bytes key) param1 %
                          hashlen
                      · rw [hieq, getd_set_self (hl1 ▸ hlt1)]
                        exact Or.inr hwlt
                      · rw [getd_set_ne (fun hx => hieq hx.symm)]
                        exact hr1 i hi
                    · intro i a ha
                      unfold fupdate at ha
                      by_cases hieq : i = hashfunc (str_bytes key) param1 %
                          hashlen
                      · rw [if_pos hieq] at ha
                        exact hbk1 _ _ (set_remove_mem.mp ha).1
                      · rw [if_neg hieq] at ha
                        exact hbk1 _ _ ha
                    · intro i a ha
                      unfold fupdate at ha
                      by_cases hieq : i = hashfunc (str_bytes key) param2 %
                          hashlen
                      · rw [if_pos hieq] at ha
                        exact hbk2 _ _ (set_remove_mem.mp ha).1
                      · rw [if_neg hieq] at ha
                        exact hbk2 _ _ ha
                    · intro x hx
                      exact hun x (set_remove_mem.mp hx).1
                    · intro x hx
                      rcases foldl_set_insert_mem.mp hx with hx1 | hx1
                      · rcases foldl_set_insert_mem.mp hx1 with hx2 | hx2
                        · exact hwk x (List.mem_cons_of_mem key hx2)
                        · exact hbk1 _ _ (set_remove_mem.mp hx2).1
                      · exact hbk2 _ _ (set_remove_mem.mp hx1).1
                    · intro s hs
                      by_cases hse : s = key
                      · subst hse
                        refine Or.inl ⟨?_, ht2v, ?_⟩
                        · rw [getd_set_self (hl1 ▸ hlt1)]
                          omega
                        · rw [getd_set_self (hl1 ▸ hlt1)]
                          rw [Nat.add_comm]
                          exact hwsum
                      · rcases hpend s hs with hok | hh | hh
                        · exact Or.inl (slot_ok_set1 ht1v hok)
                        · exact Or.inr (Or.inl (set_remove_mem.mpr
                            ⟨hh, hse⟩))
                        · rcases List.mem_cons.mp hh with hh1 | hh1
                          · exact absurd hh1 hse
                          · exact Or.inr (Or.inr (foldl_set_insert_mem.mpr
                              (Or.inl (foldl_set_insert_mem.mpr
                                (Or.inl hh1)))))
                  · rw [if_neg hc3] at hassign
                    have ht2v : table2.getD (hashfunc (str_bytes key) param2 %
                        hashlen) 0 = 65535 := by
                      by_contra hne
                      exact hc3 (bne_iff_ne.mpr hne)
                    injection hassign with hpair
                    injection hpair with hp1 hp2
                    subst hp1
                    subst hp2
                    refine ih _ _ _ _ _ _ t1 t2 h
                      (by rw [List.length_set]; exact hl1)
                      (by rw [List.length_set]; exact hl2) ?_ ?_ ?_ ?_ ?_ ?_
                      ?_
                    · intro i hi
                      by_cases hieq : i = hashfunc (str_bytes key) param1 %
                          hashlen
                      · rw [hieq, getd_set_self (hl1 ▸ hlt1)]
                        exact Or.inr hilt
                      · rw [getd_set_ne (fun hx => hieq hx.symm)]
                        exact hr1 i hi
                    · intro i hi
                      by_cases hieq : i = hashfunc (str_bytes key) param2 %
                          hashlen
                      · rw [hieq, getd_set_self (hl2 ▸ hlt2)]
                        exact Or.inr hnpos
                      · rw [getd_set_ne (fun hx => hieq hx.symm)]
                        exact hr2 i hi
                    · intro i a ha
                      unfold fupdate at ha
                      by_cases hieq : i = hashfunc (str_bytes key) param1 %
                          hashlen
                      · rw [if_pos hieq] at ha
                        exact hbk1 _ _ (set_remove_mem.mp ha).1
                      · rw [if_neg hieq] at ha
                        exact hbk1 _ _ ha
                    · intro i a ha
                      unfold fupdate at ha
                      by_cases hieq : i = hashfunc (str_bytes key) param2 %
                          hashlen
                      · rw [if_pos hieq] at ha
                        exact hbk2 _ _ (set_remove_mem.mp ha).1
                      · rw [if_neg hieq] at ha
                        exact hbk2 _ _ ha
                    · intro x hx
                      exact hun x (set_remove_mem.mp hx).1
                    · intro x hx
                      rcases foldl_set_insert_mem.mp hx with hx1 | hx1
                      · rcases foldl_set_insert_mem.mp hx1 with hx2 | hx2
                        · exact hwk x (List.mem_cons_of_mem key hx2)
                        · exact hbk1 _ _ (set_remove_mem.mp hx2).1
                      · exact hbk2 _ _ (set_remove_mem.mp hx1).1
                    · intro s hs
                      by_cases hse : s = key
                      · subst hse
                        refine Or.inl ⟨?_, ?_, ?_⟩
                        · rw [getd_set_self (hl1 ▸ hlt1)]
                          omega
                        · rw [getd_set_self (hl2 ▸ hlt2)]
                          omega
                        · rw [getd_set_self (hl1 ▸ hlt1),
                            getd_set_self (hl2 ▸ hlt2), Nat.add_zero]
                          exact Nat.mod_eq_of_lt hilt
                      · rcases hpend s hs with hok | hh | hh
                        · exact Or.inl (slot_ok_set2 ht2v
                            (slot_ok_set1 ht1v hok))
                        · exact Or.inr (Or.inl (set_remove_mem.mpr
                            ⟨hh, hse⟩))
                        · rcases List.mem_cons.mp hh with hh1 | hh1
                          · exact absurd hh1 hse
                          · exact Or.inr (Or.inr (foldl_set_insert_mem.mpr
                              (Or.inl (foldl_set_insert_mem.mpr
                                (Or.inl hh1)))))

/-- The concrete universe for the C2 witness. -/
def c2_universe : List String := ["CHOICE", "ELEMENT", "GROUP", "SEQUENCE"]

end AutosarXsdMangler
